import Mathlib

/-!
# go-wrappers: error classification, engine wrappers and the message router

A shallow embedding of the Go glue code of `go-dkls` and `go-schnorr`:

* `errors/lib_err.go` : the table `libErrorMessages` and `MapLibError`;
* `sessions/*.go` : the cgo wrappers around the engine primitives;
* `test/helper.go` : the router loops `RunKeygenLoop` and `runSignLoop`.

The native engine is external: it appears as a record of primitives acting on an
abstract engine state. Go values are represented as follows.

* `[]byte` is `GoBytes = Option (List Nat)`: `none` is the nil slice, `some bs`
  a non-nil slice with contents `bs` (so `some []` is an empty, non-nil slice).
* `string` is `String`; a Go string holding arbitrary bytes is represented
  with one character per byte (`goString`).
* `error` is `GoError = Option String`: `none` is the nil error, `some t` an
  error whose `Error()` text is `t`.
* `int`, `int32`, `Handle` are `Int`; unsigned C integers are `Nat`; every
  narrowing conversion is written out with an explicit modulus.
-/

namespace GoWrappers

/-! ## Go values -/

/-- Contents of a byte slice. -/
abbrev Bytes := List Nat

/-- Go `[]byte`: `none` is nil, `some bs` a non-nil slice. -/
abbrev GoBytes := Option Bytes

/-- Go `error`: `none` is nil, `some t` an error with text `t`. -/
abbrev GoError := Option String

/-- Go `type Handle int32` (common.go). -/
abbrev Handle := Int

/-- Go `len(b)` for a byte slice (0 for nil). -/
def GoBytes.len : GoBytes → Nat
  | none => 0
  | some bs => bs.length

/-- Go `string(b)` for a byte slice, one character per byte. -/
def goString : GoBytes → String
  | none => ""
  | some bs => String.mk (bs.map Char.ofNat)

/-- Conversion of an integer to a 32-bit unsigned C integer (`C.uint32_t(x)`,
`C.uint(x)`, and the enum type `C.lib_error(x)`): reduction modulo 2^32. -/
def toUint32 (x : Int) : Nat := (x % 4294967296).toNat

/-- Conversion of an unsigned integer to `C.int` (32-bit signed): the value
modulo 2^32, read as two's complement. -/
def toCInt (n : Nat) : Int :=
  if n % 4294967296 < 2147483648 then ((n % 4294967296 : Nat) : Int)
  else ((n % 4294967296 : Nat) : Int) - 4294967296

/-! ## errors/lib_err.go -/

/-- The constants of the C enum `lib_error` that key `libErrorMessages`. -/
inductive LibError
  | LIB_OK
  | LIB_INVALID_HANDLE
  | LIB_HANDLE_IN_USE
  | LIB_INVALID_HANDLE_TYPE
  | LIB_NULL_PTR
  | LIB_INVALID_BUFFER_SIZE
  | LIB_INVALID_SESSION_STATE
  | LIB_UNKNOWN_ERROR
  | LIB_SERIALIZATION_ERROR
  | LIB_INVALID_DERIVATION_PATH_STR
  | LIB_DERIVATION_ERROR
  | LIB_SETUP_MESSAGE_VALIDATION
  | LIB_NON_EMPTY_OUTPUT_BUFFER
  | LIB_SIGNGEN_ERROR
  | LIB_KEYGEN_ERROR
  | LIB_KEY_EXPORT_ERROR
  | LIB_ABORT_PROTOCOL_PARTY_1
  | LIB_ABORT_PROTOCOL_PARTY_2
  | LIB_ABORT_PROTOCOL_PARTY_3
  | LIB_ABORT_PROTOCOL_PARTY_4
  | LIB_ABORT_PROTOCOL_PARTY_5
  | LIB_ABORT_PROTOCOL_PARTY_6
  | LIB_ABORT_PROTOCOL_PARTY_7
  | LIB_ABORT_PROTOCOL_PARTY_8
  | LIB_ABORT_PROTOCOL_PARTY_9
  | LIB_ABORT_PROTOCOL_PARTY_10
  deriving DecidableEq, Repr

open LibError

/-- The keys of `libErrorMessages`, in the order of the map literal. -/
def libErrorKeys : List LibError :=
  [LIB_OK, LIB_INVALID_HANDLE, LIB_HANDLE_IN_USE, LIB_INVALID_HANDLE_TYPE, LIB_NULL_PTR,
   LIB_INVALID_BUFFER_SIZE, LIB_INVALID_SESSION_STATE, LIB_UNKNOWN_ERROR,
   LIB_SERIALIZATION_ERROR, LIB_INVALID_DERIVATION_PATH_STR, LIB_DERIVATION_ERROR,
   LIB_SETUP_MESSAGE_VALIDATION, LIB_NON_EMPTY_OUTPUT_BUFFER, LIB_SIGNGEN_ERROR,
   LIB_KEYGEN_ERROR, LIB_KEY_EXPORT_ERROR, LIB_ABORT_PROTOCOL_PARTY_1,
   LIB_ABORT_PROTOCOL_PARTY_2, LIB_ABORT_PROTOCOL_PARTY_3, LIB_ABORT_PROTOCOL_PARTY_4,
   LIB_ABORT_PROTOCOL_PARTY_5, LIB_ABORT_PROTOCOL_PARTY_6, LIB_ABORT_PROTOCOL_PARTY_7,
   LIB_ABORT_PROTOCOL_PARTY_8, LIB_ABORT_PROTOCOL_PARTY_9, LIB_ABORT_PROTOCOL_PARTY_10]

/-- The map literal `libErrorMessages` of lib_err.go, entry by entry. -/
def libErrorMessages : LibError → String
  | LIB_OK => "ok"
  | LIB_INVALID_HANDLE => "Invalid Handle, not found in the map"
  | LIB_HANDLE_IN_USE => "Handle In Use, the handle is already in use"
  | LIB_INVALID_HANDLE_TYPE => "Invalid Handle Type, the handle is not of the expected type"
  | LIB_NULL_PTR => "Received null pointer"
  | LIB_INVALID_BUFFER_SIZE => "Received a buffer with invalid size"
  | LIB_INVALID_SESSION_STATE => "Invalid session state"
  | LIB_UNKNOWN_ERROR => "Unknown Error"
  | LIB_SERIALIZATION_ERROR => "Serialization error, error while serializing protocol type"
  | LIB_INVALID_DERIVATION_PATH_STR => "Invalid derivation path string"
  | LIB_DERIVATION_ERROR => "Child key derivation error"
  | LIB_SETUP_MESSAGE_VALIDATION => "Setup message vaildation"
  | LIB_NON_EMPTY_OUTPUT_BUFFER => "Passed non-empty output buffer"
  | LIB_SIGNGEN_ERROR => "Sign generation error"
  | LIB_KEYGEN_ERROR => "Key generation error"
  | LIB_KEY_EXPORT_ERROR => "Key export error"
  | LIB_ABORT_PROTOCOL_PARTY_1 => "Protocol abort by party 1"
  | LIB_ABORT_PROTOCOL_PARTY_2 => "Protocol abort by party 2"
  | LIB_ABORT_PROTOCOL_PARTY_3 => "Protocol abort by party 3"
  | LIB_ABORT_PROTOCOL_PARTY_4 => "Protocol abort by party 4"
  | LIB_ABORT_PROTOCOL_PARTY_5 => "Protocol abort by party 5"
  | LIB_ABORT_PROTOCOL_PARTY_6 => "Protocol abort by party 6"
  | LIB_ABORT_PROTOCOL_PARTY_7 => "Protocol abort by party 7"
  | LIB_ABORT_PROTOCOL_PARTY_8 => "Protocol abort by party 8"
  | LIB_ABORT_PROTOCOL_PARTY_9 => "Protocol abort by party 9"
  | LIB_ABORT_PROTOCOL_PARTY_10 => "Protocol abort by party 10"

/-- The constant `LIB_ABORT_PROTOCOL_PARTY_k` for k = 1..10. -/
def abortParty : Nat → Option LibError
  | 1 => some LIB_ABORT_PROTOCOL_PARTY_1
  | 2 => some LIB_ABORT_PROTOCOL_PARTY_2
  | 3 => some LIB_ABORT_PROTOCOL_PARTY_3
  | 4 => some LIB_ABORT_PROTOCOL_PARTY_4
  | 5 => some LIB_ABORT_PROTOCOL_PARTY_5
  | 6 => some LIB_ABORT_PROTOCOL_PARTY_6
  | 7 => some LIB_ABORT_PROTOCOL_PARTY_7
  | 8 => some LIB_ABORT_PROTOCOL_PARTY_8
  | 9 => some LIB_ABORT_PROTOCOL_PARTY_9
  | 10 => some LIB_ABORT_PROTOCOL_PARTY_10
  | _ => none

/-- The numeric values of the enum constants are declared in the C header
(`includes/go-schnorr.h`), which is not part of the Go sources: they are a
parameter `val : LibError → Nat` of everything that looks a code up. This is
the usual numbering 0, 1, 2, ... in declaration order, used for concrete runs. -/
def declOrder (k : LibError) : Nat := libErrorKeys.indexOf k

/-- A header is admissible when distinct constants have distinct values (Go
rejects a map literal with duplicate constant keys) that fit the 32-bit enum. -/
def ValidCodes (val : LibError → Nat) : Prop :=
  Function.Injective val ∧ ∀ k, val k < 4294967296

/-- The map lookup `libErrorMessages[c]` for a key value `c`. -/
def lookupMessage (val : LibError → Nat) (c : Nat) : Option String :=
  (libErrorKeys.find? (fun k => val k == c)).map libErrorMessages

/-- Rendering of one `%` directive of a format string that has no operand left:
`%%` is a percent sign, a `%` that ends the string gives `%!(NOVERB)`, any
other verb `c` gives `%!c(MISSING)`. -/
def noOperandVerb : List Char → List Char × List Char
  | [] => ("%!(NOVERB)".data, [])
  | c :: rest => if c = '%' then (['%'], rest) else ("%!".data ++ c :: "(MISSING)".data, rest)

/-- The text produced by `fmt.Errorf(format)` called without operands: text
outside directives is copied, each directive is rendered by `noOperandVerb`
(flags, widths and argument indexes are not modelled: only `%` starts one). -/
def errorfChars : Nat → List Char → List Char
  | 0, _ => []
  | _ + 1, [] => []
  | fuel + 1, c :: rest =>
    if c = '%' then (noOperandVerb rest).1 ++ errorfChars fuel (noOperandVerb rest).2
    else c :: errorfChars fuel rest

/-- The error text of `fmt.Errorf(format)` with no operands. -/
def Errorf0 (format : String) : String :=
  String.mk (errorfChars (format.data.length + 1) format.data)

/-- The Go function of lib_err.go:
`if errMsg, found := libErrorMessages[C.lib_error(err)]; found { return fmt.Errorf(errMsg) }`
`return fmt.Errorf("unknown error: %v", err)`.
cgo gives the C enum `lib_error` the Go type uint32, so the key is `err`
reduced modulo 2^32; `%v` prints the Go int `err` in decimal. -/
def MapLibError (val : LibError → Nat) (err : Int) : GoError :=
  match lookupMessage val (toUint32 err) with
  | some errMsg => some (Errorf0 errMsg)
  | none => some ("unknown error: " ++ toString err)

/-! ## sessions: the cgo wrappers of go-schnorr -/

/-- C `tss_buffer`: a region `ptr .. ptr + len` of engine-owned memory. The
struct is a prefix of the Go slice header, so `len` is a machine word. -/
structure TssBuffer where
  ptr : Nat
  len : Nat
  deriving DecidableEq, Repr

/-- `C.GoBytes(ptr, n)`: a fresh Go slice holding a copy of the `n` bytes at
`ptr`; `none` is the run-time panic raised for a negative length. -/
def CGoBytes (mem : Nat → Nat) (ptr : Nat) (n : Int) : Option GoBytes :=
  if n < 0 then none else some (some ((List.range n.toNat).map (fun i => mem (ptr + i))))

/-- What the wrapper files of package go-schnorr/sessions take from outside:
the header constants (`val`), the marshalling helpers `cGoSlice` and `cHandle`
(their file is not among the sources; `κ` and `η` are the C-side types
`*C.go_slice` and `C.Handle`), the engine memory as seen through a state `σ`,
and the native primitives. A primitive returns its `lib_error` code, the value
it stored through its out-pointer, and the next engine state. The helpers are
taken as total functions: what the absent `cGoSlice` does to an empty slice
(the `cGoSlice` of go-dkls panics on it) is outside this model, and the
wrappers below are described from the point where their arguments have been
marshalled. -/
structure SchnorrLib (σ κ η : Type) where
  val : LibError → Nat
  cGoSlice : GoBytes → κ
  cHandle : Handle → η
  mem : σ → Nat → Nat
  tss_buffer_free : TssBuffer → σ → σ
  schnorr_keygen_session_finish : η → σ → Nat × Int × σ
  schnorr_keygen_session_input_message : η → κ → σ → Nat × Int × σ
  schnorr_keygen_session_message_receiver : η → κ → Nat → σ → Nat × TssBuffer × σ
  schnorr_sign_session_from_setup : κ → κ → η → σ → Nat × Int × σ
  schnorr_sign_session_finish : η → σ → Nat × TssBuffer × σ
  schnorr_sign_session_free : η → σ → Nat × σ
  schnorr_keyshare_from_bytes : κ → σ → Nat × Int × σ
  schnorr_keyshare_to_bytes : η → σ → Nat × TssBuffer × σ
  schnorr_decode_message : κ → σ → Nat × TssBuffer × σ

/-- The tail shared by every byte-returning wrapper:
`if res != 0 { return nil, errors.MapLibError(int(res)) }`
`buf := C.GoBytes(unsafe.Pointer(cBuffer.ptr), C.int(cBuffer.len)); return buf, nil`
followed by the deferred `C.tss_buffer_free(&cBuffer)`, which runs on every
exit. The result is `none` when `C.GoBytes` panics. -/
def returnBytes {σ κ η : Type} (lib : SchnorrLib σ κ η) (r : Nat × TssBuffer × σ) :
    Option (GoBytes × GoError) × σ :=
  if r.1 ≠ 0 then
    (some (none, MapLibError lib.val (r.1 : Int)), lib.tss_buffer_free r.2.1 r.2.2)
  else
    ((CGoBytes (lib.mem r.2.2) r.2.1.ptr (toCInt r.2.1.len)).map (fun buf => (buf, none)),
      lib.tss_buffer_free r.2.1 r.2.2)

/-- The tail shared by every handle-returning wrapper:
`if res != 0 { return 0, errors.MapLibError(int(res)) }; return Handle(cHnd._0), nil`. -/
def returnHandle {σ κ η : Type} (lib : SchnorrLib σ κ η) (r : Nat × Int × σ) :
    (Handle × GoError) × σ :=
  if r.1 ≠ 0 then ((0, MapLibError lib.val (r.1 : Int)), r.2.2)
  else ((r.2.1, none), r.2.2)

/-- The wrapper `SchnorrKeygenSessionFinish` (keygen.go). -/
def SchnorrKeygenSessionFinish {σ κ η : Type} (lib : SchnorrLib σ κ η) (session : Handle)
    (s : σ) : (Handle × GoError) × σ :=
  returnHandle lib (lib.schnorr_keygen_session_finish (lib.cHandle session) s)

/-- The wrapper `SchnorrSignSessionFromSetup` (sign.go). -/
def SchnorrSignSessionFromSetup {σ κ η : Type} (lib : SchnorrLib σ κ η) (setup id : GoBytes)
    (shareOrPresign : Handle) (s : σ) : (Handle × GoError) × σ :=
  returnHandle lib
    (lib.schnorr_sign_session_from_setup (lib.cGoSlice setup) (lib.cGoSlice id)
      (lib.cHandle shareOrPresign) s)

/-- The wrapper `SchnorrKeyshareFromBytes` (keyshare.go). -/
def SchnorrKeyshareFromBytes {σ κ η : Type} (lib : SchnorrLib σ κ η) (buf : GoBytes) (s : σ) :
    (Handle × GoError) × σ :=
  returnHandle lib (lib.schnorr_keyshare_from_bytes (lib.cGoSlice buf) s)

/-- The wrapper `SchnorrSignSessionFree` (sign.go):
`if res != 0 { return errors.MapLibError(int(res)) }; return nil`. -/
def SchnorrSignSessionFree {σ κ η : Type} (lib : SchnorrLib σ κ η) (session : Handle) (s : σ) :
    GoError × σ :=
  let r := lib.schnorr_sign_session_free (lib.cHandle session) s
  if r.1 ≠ 0 then (MapLibError lib.val (r.1 : Int), r.2) else (none, r.2)

/-- The wrapper `SchnorrKeygenSessionInputMessage` (keygen.go):
`if res != 0 { return false, errors.MapLibError(int(res)) }; return finished != 0, nil`. -/
def SchnorrKeygenSessionInputMessage {σ κ η : Type} (lib : SchnorrLib σ κ η) (session : Handle)
    (message : GoBytes) (s : σ) : (Bool × GoError) × σ :=
  let r := lib.schnorr_keygen_session_input_message (lib.cHandle session) (lib.cGoSlice message) s
  if r.1 ≠ 0 then ((false, MapLibError lib.val (r.1 : Int)), r.2.2)
  else ((decide (r.2.1 ≠ 0), none), r.2.2)

/-- The wrapper `SchnorrKeygenSessionMessageReceiver` (keygen.go): an error for a
non-zero code, the empty string for an empty buffer, otherwise the copied
bytes as a string; the deferred `tss_buffer_free` runs on every exit. -/
def SchnorrKeygenSessionMessageReceiver {σ κ η : Type} (lib : SchnorrLib σ κ η)
    (session : Handle) (message : GoBytes) (index : Nat) (s : σ) :
    Option (String × GoError) × σ :=
  let r := lib.schnorr_keygen_session_message_receiver (lib.cHandle session)
    (lib.cGoSlice message) (toUint32 index) s
  if r.1 ≠ 0 then
    (some ("", MapLibError lib.val (r.1 : Int)), lib.tss_buffer_free r.2.1 r.2.2)
  else if r.2.1.len = 0 then
    (some ("", none), lib.tss_buffer_free r.2.1 r.2.2)
  else
    ((CGoBytes (lib.mem r.2.2) r.2.1.ptr (toCInt r.2.1.len)).map
        (fun buf => (goString buf, none)),
      lib.tss_buffer_free r.2.1 r.2.2)

/-- The wrapper `SchnorrKeyshareToBytes` (keyshare.go). -/
def SchnorrKeyshareToBytes {σ κ η : Type} (lib : SchnorrLib σ κ η) (share : Handle) (s : σ) :
    Option (GoBytes × GoError) × σ :=
  returnBytes lib (lib.schnorr_keyshare_to_bytes (lib.cHandle share) s)

/-- The wrapper `SchnorrSignSessionFinish` (sign.go). -/
def SchnorrSignSessionFinish {σ κ η : Type} (lib : SchnorrLib σ κ η) (session : Handle)
    (s : σ) : Option (GoBytes × GoError) × σ :=
  returnBytes lib (lib.schnorr_sign_session_finish (lib.cHandle session) s)

/-- The wrapper `SchnorrDecodeMessage` (setup.go). -/
def SchnorrDecodeMessage {σ κ η : Type} (lib : SchnorrLib σ κ η) (setup : GoBytes) (s : σ) :
    Option (GoBytes × GoError) × σ :=
  returnBytes lib (lib.schnorr_decode_message (lib.cGoSlice setup) s)

/-- A concrete library for trial runs: the state is a counter of calls, every
memory cell holds its own address modulo 256, handles and slices are passed
as they are; each primitive answers with the code and out-value it is given. -/
def fixedLib (code : Nat) (hnd : Int) (buf : TssBuffer) : SchnorrLib Nat GoBytes Handle where
  val := declOrder
  cGoSlice := fun b => b
  cHandle := fun h => h
  mem := fun _ a => a % 256
  tss_buffer_free := fun _ s => s + 1
  schnorr_keygen_session_finish := fun _ s => (code, hnd, s + 1)
  schnorr_keygen_session_input_message := fun _ _ s => (code, hnd, s + 1)
  schnorr_keygen_session_message_receiver := fun _ _ _ s => (code, buf, s + 1)
  schnorr_sign_session_from_setup := fun _ _ _ s => (code, hnd, s + 1)
  schnorr_sign_session_finish := fun _ s => (code, buf, s + 1)
  schnorr_sign_session_free := fun _ s => (code, s + 1)
  schnorr_keyshare_from_bytes := fun _ s => (code, hnd, s + 1)
  schnorr_keyshare_to_bytes := fun _ s => (code, buf, s + 1)
  schnorr_decode_message := fun _ s => (code, buf, s + 1)


/-- The translation contract between an engine result code and the pair
(value, error) a wrapper returns: the error is non-nil exactly for a non-zero
code; then it is `MapLibError(code)` and the value is the zero value; for the
code 0 the error is nil. -/
def TranslatesCode {α : Type} (val : LibError → Nat) (zero : α) (code : Nat)
    (ret : α × GoError) : Prop :=
  (ret.2 ≠ none ↔ code ≠ 0) ∧
  (code ≠ 0 → ret.2 = MapLibError val (code : Int) ∧ ret.1 = zero) ∧
  (code = 0 → ret.2 = none)

/-- The translation contract of a wrapper that copies an engine buffer of
`len` bytes out with `C.GoBytes(ptr, C.int(len))`; `ret` is what the wrapper
returns, `none` when it panics. For a non-zero code the wrapper returns the
zero value and `MapLibError(code)`; for the code 0 it returns a value and a
nil error when `C.int(len)` is not negative, and panics when it is; whatever
it returns obeys `TranslatesCode`. -/
def TranslatesBuffer {α : Type} (val : LibError → Nat) (zero : α) (code len : Nat)
    (ret : Option (α × GoError)) : Prop :=
  (code ≠ 0 → ret = some (zero, MapLibError val (code : Int))) ∧
  (code = 0 → 0 ≤ toCInt len → ∃ v, ret = some (v, none)) ∧
  (code = 0 → toCInt len < 0 → ret = none) ∧
  (∀ r, ret = some r → TranslatesCode val zero code r)

/-- The bytes of the engine buffer `buf` in engine state `s`, in order. -/
def bufferBytes {σ κ η : Type} (lib : SchnorrLib σ κ η) (s : σ) (buf : TssBuffer) : Bytes :=
  (List.range buf.len).map (fun i => lib.mem s (buf.ptr + i))

/-! ## test/helper.go: the router loops -/

/-- Go `type Participant struct { Session session.Handle; ID string }`. -/
structure Participant where
  Session : Handle
  ID : String
  deriving DecidableEq, Repr

/-- The session wrappers a router loop calls, as functions of an engine state
`σ`: each returns its Go result pair (value, error) and the next state. `γ` is
the type of a receiver name (`string` for keygen, `[]byte` for sign), `ρ` the
type of a finish result (`Handle` for keygen, `[]byte` for sign). `Free` is
the session-free wrapper of the same family. -/
structure SessionApi (σ γ ρ : Type) where
  OutputMessage : Handle → σ → (GoBytes × GoError) × σ
  MessageReceiver : Handle → GoBytes → Nat → σ → (γ × GoError) × σ
  InputMessage : Handle → GoBytes → σ → (Bool × GoError) × σ
  Finish : Handle → σ → (ρ × GoError) × σ
  Free : Handle → σ → GoError × σ

/-- One call of a session wrapper together with what it returned. -/
inductive Event (γ ρ : Type)
  | output (session : Handle) (buf : GoBytes) (err : GoError)
  | receiver (session : Handle) (msg : GoBytes) (idx : Nat) (name : γ) (err : GoError)
  | input (session : Handle) (msg : GoBytes) (finished : Bool) (err : GoError)
  | finish (session : Handle) (res : ρ) (err : GoError)
  | free (session : Handle) (err : GoError)
  deriving DecidableEq, Repr

/-- The error returned by the call. -/
def Event.err {γ ρ : Type} : Event γ ρ → GoError
  | .output _ _ e => e
  | .receiver _ _ _ _ e => e
  | .input _ _ _ e => e
  | .finish _ _ e => e
  | .free _ e => e

/-- The session the call was made on. -/
def Event.session {γ ρ : Type} : Event γ ρ → Handle
  | .output s _ _ => s
  | .receiver s _ _ _ _ => s
  | .input s _ _ _ => s
  | .finish s _ _ => s
  | .free s _ => s

/-- The points where the keygen and the sign loop differ: the test that ends
the drain of a session, the test that ends the recipient probe, and the
mailbox key made from a receiver name. -/
structure LoopTests (γ : Type) where
  outputDone : GoBytes → Bool
  receiverDone : γ → Bool
  receiverKey : γ → String

/-- RunKeygenLoop: `buf == nil`, `receiver == ""`, `msgq[receiver]`. -/
def keygenTests : LoopTests String where
  outputDone := fun buf => buf.isNone
  receiverDone := fun receiver => decide (receiver = "")
  receiverKey := fun receiver => receiver

/-- runSignLoop: `len(buf) == 0`, `len(receiver) == 0`, `msgq[string(receiver)]`. -/
def signTests : LoopTests GoBytes where
  outputDone := fun buf => decide (buf.len = 0)
  receiverDone := fun receiver => decide (receiver.len = 0)
  receiverKey := fun receiver => goString receiver

/-- The variables of a router loop: the engine state, the mailboxes
`msgq map[string][][]byte` (a missing key reads as the empty list), the
collected results `shares`, and the log of the wrapper calls made so far. -/
structure LoopState (σ γ ρ : Type) where
  eng : σ
  msgq : String → List GoBytes
  shares : List ρ
  trace : List (Event γ ρ)

/-- `msgq[key] = append(msgq[key], buf)`. -/
def pushMsg (msgq : String → List GoBytes) (key : String) (buf : GoBytes) :
    String → List GoBytes :=
  fun k => if k = key then msgq k ++ [buf] else msgq k

/-- Why a loop stopped before its natural end: `return nil, err`, or the
iteration budget of the model ran out. -/
inductive Exit
  | error (err : String)
  | fuel
  deriving DecidableEq, Repr

/-- What a router loop returns: the Go pair (results, error), or nothing when
the iteration budget ran out. -/
inductive LoopResult (ρ : Type)
  | returned (shares : Option (List ρ)) (err : GoError)
  | outOfFuel
  deriving DecidableEq, Repr

section Router

variable {σ γ ρ : Type}

/-- Call the output wrapper and log the call. -/
def callOutput (api : SessionApi σ γ ρ) (session : Handle) (st : LoopState σ γ ρ) :
    (GoBytes × GoError) × LoopState σ γ ρ :=
  let r := api.OutputMessage session st.eng
  (r.1, { st with eng := r.2, trace := st.trace ++ [Event.output session r.1.1 r.1.2] })

/-- Call the receiver wrapper and log the call. -/
def callReceiver (api : SessionApi σ γ ρ) (session : Handle) (buf : GoBytes) (idx : Nat)
    (st : LoopState σ γ ρ) : (γ × GoError) × LoopState σ γ ρ :=
  let r := api.MessageReceiver session buf idx st.eng
  (r.1, { st with eng := r.2,
                  trace := st.trace ++ [Event.receiver session buf idx r.1.1 r.1.2] })

/-- Call the input wrapper and log the call. -/
def callInput (api : SessionApi σ γ ρ) (session : Handle) (msg : GoBytes)
    (st : LoopState σ γ ρ) : (Bool × GoError) × LoopState σ γ ρ :=
  let r := api.InputMessage session msg st.eng
  (r.1, { st with eng := r.2, trace := st.trace ++ [Event.input session msg r.1.1 r.1.2] })

/-- Call the finish wrapper and log the call. -/
def callFinish (api : SessionApi σ γ ρ) (session : Handle) (st : LoopState σ γ ρ) :
    (ρ × GoError) × LoopState σ γ ρ :=
  let r := api.Finish session st.eng
  (r.1, { st with eng := r.2, trace := st.trace ++ [Event.finish session r.1.1 r.1.2] })

/-- The recipient probe `for idx := 0; idx < n; idx++ { ... }` (helper.go
lines 48-63), by recursion on `remaining = n - idx`: an error returns, an empty
receiver breaks, otherwise the message is appended to the receiver's mailbox. -/
def resolveRecipients (tests : LoopTests γ) (api : SessionApi σ γ ρ) (session : Handle)
    (buf : GoBytes) : Nat → Nat → LoopState σ γ ρ → Option Exit × LoopState σ γ ρ
  | 0, _, st => (none, st)
  | remaining + 1, idx, st =>
    match callReceiver api session buf idx st with
    | ((_, some err), st1) => (some (Exit.error err), st1)
    | ((receiver, none), st1) =>
      if tests.receiverDone receiver then (none, st1)
      else resolveRecipients tests api session buf remaining (idx + 1)
        { st1 with msgq := pushMsg st1.msgq (tests.receiverKey receiver) buf }

/-- The drain of one session `for { buf, err := Output(party.Session) ... }`
(lines 38-64): an error returns, an empty output breaks, otherwise the
recipients of the message are probed with bound `n`. `fuel` bounds the number
of iterations. -/
def drainSession (tests : LoopTests γ) (api : SessionApi σ γ ρ) (n : Nat) (session : Handle) :
    Nat → LoopState σ γ ρ → Option Exit × LoopState σ γ ρ
  | 0, st => (some Exit.fuel, st)
  | fuel + 1, st =>
    match callOutput api session st with
    | ((_, some err), st1) => (some (Exit.error err), st1)
    | ((buf, none), st1) =>
      if tests.outputDone buf then (none, st1)
      else
        match resolveRecipients tests api session buf n 0 st1 with
        | (some x, st2) => (some x, st2)
        | (none, st2) => drainSession tests api n session fuel st2

/-- The first inner loop `for _, party := range parties { for { ... } }`
(lines 37-65). -/
def drainAll (tests : LoopTests γ) (api : SessionApi σ γ ρ) (n fuel : Nat) :
    List Participant → LoopState σ γ ρ → Option Exit × LoopState σ γ ρ
  | [], st => (none, st)
  | party :: rest, st =>
    match drainSession tests api n party.Session fuel st with
    | (some x, st1) => (some x, st1)
    | (none, st1) => drainAll tests api n fuel rest st1

/-- The feeding of one party `for _, msg := range msgq[party.ID] { ... }`
(lines 68-85), over the mailbox contents read when the loop starts: an input
error returns; on `finished` the finish wrapper is called, an error returns,
otherwise the result is appended to `shares`; the loop goes on with the next
message in both cases. -/
def feedSession (api : SessionApi σ γ ρ) (session : Handle) :
    List GoBytes → LoopState σ γ ρ → Option Exit × LoopState σ γ ρ
  | [], st => (none, st)
  | msg :: rest, st =>
    match callInput api session msg st with
    | ((_, some err), st1) => (some (Exit.error err), st1)
    | ((false, none), st1) => feedSession api session rest st1
    | ((true, none), st1) =>
      match callFinish api session st1 with
      | ((_, some err), st2) => (some (Exit.error err), st2)
      | ((share, none), st2) =>
        feedSession api session rest { st2 with shares := st2.shares ++ [share] }

/-- The second inner loop `for _, party := range parties { ... }` (lines 67-86). -/
def feedAll (api : SessionApi σ γ ρ) :
    List Participant → LoopState σ γ ρ → Option Exit × LoopState σ γ ρ
  | [], st => (none, st)
  | party :: rest, st =>
    match feedSession api party.Session (st.msgq party.ID) st with
    | (some x, st1) => (some x, st1)
    | (none, st1) => feedAll api rest st1

/-- One pass of the outer loop body: drain every party, then feed every party. -/
def pass (tests : LoopTests γ) (api : SessionApi σ γ ρ) (parties : List Participant)
    (fuel : Nat) (st : LoopState σ γ ρ) : Option Exit × LoopState σ γ ρ :=
  match drainAll tests api parties.length fuel parties st with
  | (some x, st1) => (some x, st1)
  | (none, st1) => feedAll api parties st1

/-- The Go return for an early exit: `return nil, err`. -/
def exitResult : Exit → LoopResult ρ
  | Exit.error err => LoopResult.returned none (some err)
  | Exit.fuel => LoopResult.outOfFuel

/-- The outer loop `for len(shares) != n { ... }; return shares, nil`
(lines 36-89). The first argument bounds the number of passes; `fuel` bounds
each drain loop. -/
def routerLoop (tests : LoopTests γ) (api : SessionApi σ γ ρ) (parties : List Participant)
    (fuel : Nat) : Nat → LoopState σ γ ρ → LoopResult ρ × LoopState σ γ ρ
  | 0, st =>
    if st.shares.length = parties.length then (LoopResult.returned (some st.shares) none, st)
    else (LoopResult.outOfFuel, st)
  | passes + 1, st =>
    if st.shares.length = parties.length then (LoopResult.returned (some st.shares) none, st)
    else
      match pass tests api parties fuel st with
      | (some x, st1) => (exitResult x, st1)
      | (none, st1) => routerLoop tests api parties fuel passes st1

/-- The state at entry: `msgq := make(map...)`, `shares := make(..., 0, n)`,
no call made yet. -/
def initState (eng : σ) : LoopState σ γ ρ :=
  { eng := eng, msgq := fun _ => [], shares := [], trace := [] }

/-- The Go function `RunKeygenLoop(parties)` of go-dkls/test/helper.go, run from
engine state `eng`; `fuel` bounds the passes of the outer loop and the
iterations of each drain loop. Returns the Go result and the final state. -/
def RunKeygenLoop (api : SessionApi σ String Handle) (fuel : Nat) (parties : List Participant)
    (eng : σ) : LoopResult Handle × LoopState σ String Handle :=
  routerLoop keygenTests api parties fuel fuel (initState eng)

/-- The Go function `runSignLoop(parties)` of go-dkls/test/helper.go. -/
def runSignLoop (api : SessionApi σ GoBytes GoBytes) (fuel : Nat) (parties : List Participant)
    (eng : σ) : LoopResult GoBytes × LoopState σ GoBytes GoBytes :=
  routerLoop signTests api parties fuel fuel (initState eng)

end Router

/-- A scripted keygen engine for trial runs. The state counts the output and
input calls made so far. The first output call yields the message `[7]`, every
later one nil; the recipients of a message are `names`, in order, then "";
the input call number `finishAt` reports finished; finish yields handle 42. -/
def scriptedApi (names : List String) (finishAt : Nat) : SessionApi (Nat × Nat) String Handle where
  OutputMessage := fun _ s => ((if s.1 = 0 then some [7] else none, none), (s.1 + 1, s.2))
  MessageReceiver := fun _ _ idx s => ((names.getD idx "", none), s)
  InputMessage := fun _ _ s => ((decide (s.2 + 1 = finishAt), none), (s.1, s.2 + 1))
  Finish := fun _ s => ((42, none), s)
  Free := fun _ s => (none, s)

/-- What an invariant argument yields for a phase of the loop: `P` holds of
the state when the phase ends or runs out of fuel, `Q err` when it returns
the error `err`. -/
def PhaseOutcome {σ γ ρ : Type} (P : LoopState σ γ ρ → Prop)
    (Q : String → LoopState σ γ ρ → Prop) : Option Exit × LoopState σ γ ρ → Prop
  | (none, st) => P st
  | (some Exit.fuel, st) => P st
  | (some (Exit.error err), st) => Q err st

/-- What an invariant argument yields for the whole loop: a normal return
gives the collected `shares`, of length `n`, with `P`; an error return gives
nil and the error with `Q`; no other result occurs. -/
def LoopOutcome {σ γ ρ : Type} (n : Nat) (P : LoopState σ γ ρ → Prop)
    (Q : String → LoopState σ γ ρ → Prop) : LoopResult ρ × LoopState σ γ ρ → Prop
  | (LoopResult.returned (some sh) none, st) => P st ∧ sh = st.shares ∧ sh.length = n
  | (LoopResult.returned none (some err), st) => Q err st
  | (LoopResult.outOfFuel, st) => P st
  | _ => False

/-- An invariant argument for the drain phase of a router loop run by the
parties in `S`. The invariant `P cur st` is indexed by the message being
routed: `cur` is `some (session, buf)` from the output call that returned
`buf` on `session` until the next input call, and `none` otherwise. `P` is kept
by an output or receiver call that returns no error and by the update of
`msgq` that follows it; a call that returns the error `err` leaves a state
with `Q err`. -/
structure DrainInvariant {σ γ ρ : Type} (tests : LoopTests γ) (api : SessionApi σ γ ρ)
    (S : Participant → Prop) (P : Option (Handle × GoBytes) → LoopState σ γ ρ → Prop)
    (Q : String → LoopState σ γ ρ → Prop) : Prop where
  output : ∀ cur st p, S p → P cur st →
    (∀ err, (callOutput api p.Session st).1.2 = some err →
      Q err (callOutput api p.Session st).2) ∧
    ((callOutput api p.Session st).1.2 = none →
      P (some (p.Session, (callOutput api p.Session st).1.1)) (callOutput api p.Session st).2)
  receiver : ∀ st p buf idx, S p → P (some (p.Session, buf)) st →
    (∀ err, (callReceiver api p.Session buf idx st).1.2 = some err →
      Q err (callReceiver api p.Session buf idx st).2) ∧
    ((callReceiver api p.Session buf idx st).1.2 = none →
      tests.receiverDone (callReceiver api p.Session buf idx st).1.1 = true →
      P (some (p.Session, buf)) (callReceiver api p.Session buf idx st).2) ∧
    ((callReceiver api p.Session buf idx st).1.2 = none →
      tests.receiverDone (callReceiver api p.Session buf idx st).1.1 = false →
      P (some (p.Session, buf))
        { (callReceiver api p.Session buf idx st).2 with
          msgq := pushMsg (callReceiver api p.Session buf idx st).2.msgq
            (tests.receiverKey (callReceiver api p.Session buf idx st).1.1) buf })

/-- An invariant argument for the feed phase: `P` is kept by an input or finish
call that returns no error and by the update of `shares` that follows it; an
input call is only made with a message of the party's mailbox. -/
structure FeedInvariant {σ γ ρ : Type} (api : SessionApi σ γ ρ)
    (S : Participant → Prop) (P : Option (Handle × GoBytes) → LoopState σ γ ρ → Prop)
    (Q : String → LoopState σ γ ρ → Prop) : Prop where
  input : ∀ cur st p msg, S p → msg ∈ st.msgq p.ID → P cur st →
    (∀ err, (callInput api p.Session msg st).1.2 = some err →
      Q err (callInput api p.Session msg st).2) ∧
    ((callInput api p.Session msg st).1.2 = none → P none (callInput api p.Session msg st).2)
  finish : ∀ st p, S p → P none st →
    (∀ err, (callFinish api p.Session st).1.2 = some err →
      Q err (callFinish api p.Session st).2) ∧
    ((callFinish api p.Session st).1.2 = none →
      P none
        { (callFinish api p.Session st).2 with
          shares := (callFinish api p.Session st).2.shares ++
            [(callFinish api p.Session st).1.1] })

/-- An invariant argument for a whole router loop. -/
structure StepInvariant {σ γ ρ : Type} (tests : LoopTests γ) (api : SessionApi σ γ ρ)
    (S : Participant → Prop) (P : Option (Handle × GoBytes) → LoopState σ γ ρ → Prop)
    (Q : String → LoopState σ γ ρ → Prop) : Prop where
  drain : DrainInvariant tests api S P Q
  feed : FeedInvariant api S P Q

/-- The result of a finish call that returned no error. -/
def finishedShare {γ ρ : Type} : Event γ ρ → Option ρ
  | .finish _ res none => some res
  | _ => none

/-- The event is a call of the session-free wrapper. -/
def Event.isFree {γ ρ : Type} : Event γ ρ → Bool
  | .free _ _ => true
  | _ => false

/-- The input call of an event, as (session, message). -/
def inputCall {γ ρ : Type} : Event γ ρ → Option (Handle × GoBytes)
  | .input session msg _ _ => some (session, msg)
  | _ => none

/-- The input calls of a trace, in order, as (session, message). -/
def inputsOf {γ ρ : Type} (trace : List (Event γ ρ)) : List (Handle × GoBytes) :=
  trace.filterMap inputCall

/-- The message an event appends to the mailbox `key`: the event is a receiver
call that returned no error and a name that is not empty and gives `key`. -/
def delivery {γ ρ : Type} (tests : LoopTests γ) (key : String) : Event γ ρ → Option GoBytes
  | .receiver _ msg _ name none =>
    if tests.receiverDone name then none
    else if tests.receiverKey name = key then some msg else none
  | _ => none

/-- The messages the receiver calls of a trace resolved to `key`, in call order. -/
def deliveredTo {γ ρ : Type} (tests : LoopTests γ) (key : String)
    (trace : List (Event γ ρ)) : List GoBytes :=
  trace.filterMap (delivery tests key)

/-- One step of the scan that checks the probes of a trace: the first
component is the message being routed (set by an output call without error,
kept by a receiver call, cleared by any other call), the second stays true as
long as every receiver call so far was made on the session and the message of
the latest output call. -/
def scanStep {γ ρ : Type} (acc : Option (Handle × GoBytes) × Bool) :
    Event γ ρ → Option (Handle × GoBytes) × Bool
  | .output session buf none => (some (session, buf), acc.2)
  | .receiver session msg _ _ _ => (acc.1, acc.2 && decide (acc.1 = some (session, msg)))
  | _ => (none, acc.2)

/-- Every receiver call of the trace probes the message returned by the latest
output call before it, on the same session, with no input or finish call in
between. -/
def ProbesFollowDrain {γ ρ : Type} (trace : List (Event γ ρ)) : Prop :=
  (trace.foldl scanStep (none, true)).2 = true

/-- No call logged so far returned an error. -/
def NoError {σ γ ρ : Type} (st : LoopState σ γ ρ) : Prop := ∀ ev ∈ st.trace, ev.err = none

/-- The last call logged returned the error `err`, and no call before it did. -/
def EndsWithError {σ γ ρ : Type} (err : String) (st : LoopState σ γ ρ) : Prop :=
  ∃ pre ev, st.trace = pre ++ [ev] ∧ (∀ x ∈ pre, x.err = none) ∧ ev.err = some err

/-- The shares collected are the results of the finish calls that returned no
error, in call order, and every call logged was made on a session of `S`. -/
def SharesFromFinish {σ γ ρ : Type} (S : Handle → Prop) (st : LoopState σ γ ρ) : Prop :=
  st.shares = st.trace.filterMap finishedShare ∧ ∀ ev ∈ st.trace, S ev.session

/-- No call logged so far is a call of the session-free wrapper. -/
def NeverFreed {σ γ ρ : Type} (st : LoopState σ γ ρ) : Prop :=
  ∀ ev ∈ st.trace, ev.isFree = false

/-- A scripted sign engine for trial runs: as `scriptedApi`, with receiver names
as byte slices and the signature `[1, 2]` as finish result. -/
def scriptedSignApi (names : List GoBytes) (finishAt : Nat) :
    SessionApi (Nat × Nat) GoBytes GoBytes where
  OutputMessage := fun _ s => ((if s.1 = 0 then some [7] else some [], none), (s.1 + 1, s.2))
  MessageReceiver := fun _ _ idx s => ((names.getD idx none, none), s)
  InputMessage := fun _ _ s => ((decide (s.2 + 1 = finishAt), none), (s.1, s.2 + 1))
  Finish := fun _ s => ((some [1, 2], none), s)
  Free := fun _ s => (none, s)

/-- A keygen engine whose output call fails with "Invalid session state". -/
def failingApi : SessionApi Nat String Handle where
  OutputMessage := fun _ s => ((none, some "Invalid session state"), s + 1)
  MessageReceiver := fun _ _ _ s => (("", none), s + 1)
  InputMessage := fun _ _ s => ((false, none), s + 1)
  Finish := fun _ s => ((0, none), s + 1)
  Free := fun _ s => (none, s + 1)

/-- The routing invariant: every mailbox holds the messages that the receiver
calls logged so far resolved to its key, in call order; the scan of the log
has met no misplaced probe; and when a message `cur` is being routed, it is
the one the scan has reached. -/
def RoutedInOrder {σ γ ρ : Type} (tests : LoopTests γ) (cur : Option (Handle × GoBytes))
    (st : LoopState σ γ ρ) : Prop :=
  (∀ key, st.msgq key = deliveredTo tests key st.trace) ∧
  (st.trace.foldl scanStep (none, true)).2 = true ∧
  (cur ≠ none → (st.trace.foldl scanStep (none, true)).1 = cur)

/-- The state after the first pass of the trial run with one party "p1". -/
def afterFirstPass : LoopState (Nat × Nat) String Handle :=
  (pass keygenTests (scriptedApi ["p1"] 2) [⟨1, "p1"⟩] 3 (initState (0, 0))).2

/-- Sequential composition of two phases of the loop: the second runs from
the state the first one ended in, unless the first one exited early. -/
def andThen {σ γ ρ : Type} (r : Option Exit × LoopState σ γ ρ)
    (next : LoopState σ γ ρ → Option Exit × LoopState σ γ ρ) : Option Exit × LoopState σ γ ρ :=
  match r with
  | (some x, st1) => (some x, st1)
  | (none, st1) => next st1

/-! ## sessions: the cgo wrappers of go-dkls -/

/-- The C pointer `*C.go_slice` (or `*C.tss_buffer`) a go-dkls wrapper hands to
the engine: `none` is the null pointer, `some bs` points to the header of a Go
slice whose contents are `bs`. -/
abbrev CSlice := Option Bytes

/-- Go `runtime.Pinner`: the backing arrays pinned so far. -/
structure Pinner where
  pinned : List Bytes
  deriving DecidableEq, Repr

/-- The helper `cGoSlice` of go-dkls/sessions/common.go:
`if byteArray != nil { cGoSlice = (*C.go_slice)(unsafe.Pointer(&byteArray)); pinner.Pin(&byteArray[0]) }`.
A nil slice gives the null pointer and pins nothing; a non-empty slice gives a
pointer to its header and pins its first element; for a non-nil slice of
length 0 the index expression `byteArray[0]` panics (`none`). -/
def cGoSlice (byteArray : GoBytes) (pinner : Pinner) : Option (CSlice × Pinner) :=
  match byteArray with
  | none => some (none, pinner)
  | some [] => none
  | some (b :: bs) => some (some (b :: bs), { pinned := pinner.pinned ++ [b :: bs] })

/-- The helper `cTssBuffer` of common.go, the same code with the pointer cast
to `*C.tss_buffer`. -/
def cTssBuffer (byteArray : GoBytes) (pinner : Pinner) : Option (CSlice × Pinner) :=
  match byteArray with
  | none => some (none, pinner)
  | some [] => none
  | some (b :: bs) => some (some (b :: bs), { pinned := pinner.pinned ++ [b :: bs] })

/-- The inline marshalling of qc.go and keyimport.go:
`c := (*C.go_slice)(unsafe.Pointer(&x)); pinner.Pin(&x[0])`, with no nil test.
The pointer to the header is never null; `x[0]` panics (`none`) for a nil
slice and for a slice of length 0. -/
def pinFirst (x : GoBytes) (pinner : Pinner) : Option (CSlice × Pinner) :=
  match x with
  | none => none
  | some [] => none
  | some (b :: bs) => some (some (b :: bs), { pinned := pinner.pinned ++ [b :: bs] })

/-- The helper `cHandle` of common.go: `C.Handle{_0: C.int32_t(handle)}`. A
`Handle` is an int32, so the conversion keeps its value. -/
def cHandle (handle : Handle) : Int := handle

/-- Go `[]byte(s)` for a string, one byte per character. -/
def stringBytes (s : String) : GoBytes := some (s.data.map Char.toNat)

/-- Go `[]byte(strings.Join(ids, "\x00"))`. -/
def joinIds (ids : List String) : GoBytes := stringBytes (String.intercalate "\x00" ids)

/-- The loop `b := []byte{}; for _, i := range parties { b = append(b, byte(i)) }`
of qc.go: one byte per index, the index reduced modulo 256. -/
def partyBytes (parties : List Int) : GoBytes := some (parties.map (fun i => (i % 256).toNat))

/-- What the wrapper files of package go-dkls/sessions take from outside: the
header constants (`val`), the engine memory as seen through a state `σ`, and
the native primitives. A primitive returns its `lib_error` code, the value it
stored through its out-pointer, and the next engine state. -/
structure DklsLib (σ : Type) where
  val : LibError → Nat
  mem : σ → Nat → Nat
  tss_buffer_free : TssBuffer → σ → σ
  dkls_keygen_setupmsg_new : Nat → CSlice → CSlice → σ → Nat × TssBuffer × σ
  dkls_keygen_session_from_setup : CSlice → CSlice → σ → Nat × Int × σ
  dkls_keygen_session_output_message : Int → σ → Nat × TssBuffer × σ
  dkls_keygen_session_input_message : Int → CSlice → σ → Nat × Int × σ
  dkls_sign_setupmsg_new : CSlice → CSlice → CSlice → CSlice → σ → Nat × TssBuffer × σ
  dkls_sign_session_output_message : Int → σ → Nat × TssBuffer × σ
  dkls_sign_session_input_message : Int → CSlice → σ → Nat × Nat × σ
  dkls_sign_session_finish : Int → σ → Nat × TssBuffer × σ
  dkls_decode_key_id : CSlice → σ → Nat × TssBuffer × σ
  dkls_decode_message : CSlice → σ → Nat × TssBuffer × σ
  dkls_decode_party_name : CSlice → Nat → σ → Nat × TssBuffer × σ
  dkls_keyshare_from_bytes : CSlice → σ → Nat × Int × σ
  dkls_presign_from_bytes : CSlice → σ → Nat × Int × σ
  dkls_presign_to_bytes : Int → σ → Nat × TssBuffer × σ
  dkls_qc_setupmsg_new : Int → CSlice → CSlice → Nat → CSlice → σ → Nat × TssBuffer × σ
  dkls_qc_session_from_setup : CSlice → CSlice → Int → σ → Nat × Int × σ
  dkls_qc_session_input_message : Int → CSlice → σ → Nat × Int × σ
  dkls_key_import_initiator_new :
    CSlice → CSlice → Nat → CSlice → σ → Nat × (TssBuffer × Int) × σ
  dkls_key_importer_new : CSlice → CSlice → σ → Nat × Int × σ

/-- The bytes of the engine buffer `buf` in engine state `s`, in order. -/
def DklsLib.bufferBytes {σ : Type} (lib : DklsLib σ) (s : σ) (buf : TssBuffer) : Bytes :=
  (List.range buf.len).map (fun i => lib.mem s (buf.ptr + i))

/-- The tail of a byte-returning go-dkls wrapper, after the engine call:
`if res != 0 { return nil, errors.MapLibError(int(res)) }`
`buf := C.GoBytes(unsafe.Pointer(cBuffer.ptr), C.int(cBuffer.len)); return buf, nil`
followed by the deferred `C.tss_buffer_free(&cBuffer)`, which runs on every
exit. The result is `none` when `C.GoBytes` panics. -/
def DklsLib.returnBytes {σ : Type} (lib : DklsLib σ) (r : Nat × TssBuffer × σ) :
    Option (GoBytes × GoError) × σ :=
  if r.1 ≠ 0 then
    (some (none, MapLibError lib.val (r.1 : Int)), lib.tss_buffer_free r.2.1 r.2.2)
  else
    ((CGoBytes (lib.mem r.2.2) r.2.1.ptr (toCInt r.2.1.len)).map (fun buf => (buf, none)),
      lib.tss_buffer_free r.2.1 r.2.2)

/-- The tail of a handle-returning go-dkls wrapper:
`if res != 0 { return 0, errors.MapLibError(int(res)) }; return Handle(cHnd._0), nil`. -/
def DklsLib.returnHandle {σ : Type} (lib : DklsLib σ) (r : Nat × Int × σ) :
    Option (Handle × GoError) × σ :=
  if r.1 ≠ 0 then (some (0, MapLibError lib.val (r.1 : Int)), r.2.2)
  else (some (r.2.1, none), r.2.2)

/-- The tail of a go-dkls input wrapper:
`if res != 0 { return false, errors.MapLibError(int(res)) }; return finished != 0, nil`. -/
def DklsLib.returnFinished {σ : Type} (lib : DklsLib σ) (code : Nat) (finished : Bool) (s : σ) :
    Option (Bool × GoError) × σ :=
  if code ≠ 0 then (some (false, MapLibError lib.val (code : Int)), s)
  else (some (finished, none), s)

/-- The wrapper `DklsKeygenSessionOutputMessage` (keygen.go): an error for a
non-zero code, `nil, nil` when `cMsg.len == 0`, otherwise the copied bytes. -/
def DklsKeygenSessionOutputMessage {σ : Type} (lib : DklsLib σ) (session : Handle) (s : σ) :
    Option (GoBytes × GoError) × σ :=
  let r := lib.dkls_keygen_session_output_message (cHandle session) s
  if r.1 ≠ 0 then
    (some (none, MapLibError lib.val (r.1 : Int)), lib.tss_buffer_free r.2.1 r.2.2)
  else if r.2.1.len = 0 then
    (some (none, none), lib.tss_buffer_free r.2.1 r.2.2)
  else
    ((CGoBytes (lib.mem r.2.2) r.2.1.ptr (toCInt r.2.1.len)).map (fun buf => (buf, none)),
      lib.tss_buffer_free r.2.1 r.2.2)

/-- The wrapper `DklsSignSessionOutputMessage` (sign.go). -/
def DklsSignSessionOutputMessage {σ : Type} (lib : DklsLib σ) (session : Handle) (s : σ) :
    Option (GoBytes × GoError) × σ :=
  lib.returnBytes (lib.dkls_sign_session_output_message (cHandle session) s)

/-- The wrapper `DklsKeygenSessionInputMessage` (keygen.go): the message is
marshalled by `cGoSlice` (a panic leaves the engine untouched), then the
engine is called with `finished := C.int32_t(0)` as out-parameter. -/
def DklsKeygenSessionInputMessage {σ : Type} (lib : DklsLib σ) (session : Handle)
    (message : GoBytes) (s : σ) : Option (Bool × GoError) × σ :=
  match cGoSlice message ⟨[]⟩ with
  | none => (none, s)
  | some (cMessage, _) =>
    let r := lib.dkls_keygen_session_input_message (cHandle session) cMessage s
    lib.returnFinished r.1 (decide (r.2.1 ≠ 0)) r.2.2

/-- The wrapper `DklsSignSessionInputMessage` (sign.go), with
`cFinished := C.uint32_t(0)` as out-parameter. -/
def DklsSignSessionInputMessage {σ : Type} (lib : DklsLib σ) (session : Handle)
    (message : GoBytes) (s : σ) : Option (Bool × GoError) × σ :=
  match cGoSlice message ⟨[]⟩ with
  | none => (none, s)
  | some (cMessage, _) =>
    let r := lib.dkls_sign_session_input_message (cHandle session) cMessage s
    lib.returnFinished r.1 (decide (r.2.1 ≠ 0)) r.2.2

/-- The wrapper `DklsSignSessionFinish` (sign.go). -/
def DklsSignSessionFinish {σ : Type} (lib : DklsLib σ) (session : Handle) (s : σ) :
    Option (GoBytes × GoError) × σ :=
  lib.returnBytes (lib.dkls_sign_session_finish (cHandle session) s)

/-- The wrapper `DklsDecodeKeyID` (setup.go). -/
def DklsDecodeKeyID {σ : Type} (lib : DklsLib σ) (setup : GoBytes) (s : σ) :
    Option (GoBytes × GoError) × σ :=
  match cGoSlice setup ⟨[]⟩ with
  | none => (none, s)
  | some (cSetup, _) => lib.returnBytes (lib.dkls_decode_key_id cSetup s)

/-- The wrapper `DklsDecodeMessage` (setup.go). -/
def DklsDecodeMessage {σ : Type} (lib : DklsLib σ) (setup : GoBytes) (s : σ) :
    Option (GoBytes × GoError) × σ :=
  match cGoSlice setup ⟨[]⟩ with
  | none => (none, s)
  | some (cSetup, _) => lib.returnBytes (lib.dkls_decode_message cSetup s)

/-- The wrapper `DklsDecodePartyName` (setup.go): the Go int `index` is passed
as `C.uint32_t(index)`. -/
def DklsDecodePartyName {σ : Type} (lib : DklsLib σ) (setup : GoBytes) (index : Int) (s : σ) :
    Option (GoBytes × GoError) × σ :=
  match cGoSlice setup ⟨[]⟩ with
  | none => (none, s)
  | some (cSetup, _) =>
    lib.returnBytes (lib.dkls_decode_party_name cSetup (toUint32 index) s)

/-- The wrapper `DklsSignSetupMsgNew` (sign.go): the four slices are marshalled
in order by `cGoSlice`, then the engine is called. -/
def DklsSignSetupMsgNew {σ : Type} (lib : DklsLib σ) (keyID chainPath messageHash ids : GoBytes)
    (s : σ) : Option (GoBytes × GoError) × σ :=
  match cGoSlice keyID ⟨[]⟩ with
  | none => (none, s)
  | some (ckeyID, p1) =>
    match cGoSlice chainPath p1 with
    | none => (none, s)
    | some (cChainPath, p2) =>
      match cGoSlice messageHash p2 with
      | none => (none, s)
      | some (cMsg, p3) =>
        match cGoSlice ids p3 with
        | none => (none, s)
        | some (cIDs, _) =>
          lib.returnBytes (lib.dkls_sign_setupmsg_new ckeyID cChainPath cMsg cIDs s)

/-- The wrapper `DklsKeygenSessionFromSetup` (keygen.go). -/
def DklsKeygenSessionFromSetup {σ : Type} (lib : DklsLib σ) (setup id : GoBytes) (s : σ) :
    Option (Handle × GoError) × σ :=
  match cGoSlice setup ⟨[]⟩ with
  | none => (none, s)
  | some (cSetup, p1) =>
    match cGoSlice id p1 with
    | none => (none, s)
    | some (cID, _) => lib.returnHandle (lib.dkls_keygen_session_from_setup cSetup cID s)

/-- The wrapper `DklsKeyshareFromBytes` (keyshare.go). -/
def DklsKeyshareFromBytes {σ : Type} (lib : DklsLib σ) (buf : GoBytes) (s : σ) :
    Option (Handle × GoError) × σ :=
  match cGoSlice buf ⟨[]⟩ with
  | none => (none, s)
  | some (cBuffer, _) => lib.returnHandle (lib.dkls_keyshare_from_bytes cBuffer s)

/-- The wrapper `DklsPresignFromBytes` (presign.go). -/
def DklsPresignFromBytes {σ : Type} (lib : DklsLib σ) (buf : GoBytes) (s : σ) :
    Option (Handle × GoError) × σ :=
  match cGoSlice buf ⟨[]⟩ with
  | none => (none, s)
  | some (cBuf, _) => lib.returnHandle (lib.dkls_presign_from_bytes cBuf s)

/-- The wrapper `DklsPresignToBytes` (presign.go). -/
def DklsPresignToBytes {σ : Type} (lib : DklsLib σ) (share : Handle) (s : σ) :
    Option (GoBytes × GoError) × σ :=
  lib.returnBytes (lib.dkls_presign_to_bytes (cHandle share) s)

/-- The wrapper `DklsQcSetupMsgNew` (qc.go). The joined ids are pinned first;
then `cSetupMsg` is declared and its free deferred; then the old and the new
party bytes are built and pinned. A panic after the `defer` still runs the
deferred free, on the empty buffer. -/
def DklsQcSetupMsgNew {σ : Type} (lib : DklsLib σ) (keyshare : Handle) (threshold : Int)
    (ids : List String) (oldParties newParties : List Int) (s : σ) :
    Option (GoBytes × GoError) × σ :=
  match pinFirst (joinIds ids) ⟨[]⟩ with
  | none => (none, s)
  | some (cIds, p1) =>
    match pinFirst (partyBytes oldParties) p1 with
    | none => (none, lib.tss_buffer_free ⟨0, 0⟩ s)
    | some (cOldParties, p2) =>
      match pinFirst (partyBytes newParties) p2 with
      | none => (none, lib.tss_buffer_free ⟨0, 0⟩ s)
      | some (cNewParties, _) =>
        lib.returnBytes
          (lib.dkls_qc_setupmsg_new (cHandle keyshare) cIds cOldParties (toUint32 threshold)
            cNewParties s)

/-- The wrapper `DklsQcSessionFromSetup` (qc.go). -/
def DklsQcSessionFromSetup {σ : Type} (lib : DklsLib σ) (setupMsg : GoBytes) (id : String)
    (keyshare : Handle) (s : σ) : Option (Handle × GoError) × σ :=
  match pinFirst setupMsg ⟨[]⟩ with
  | none => (none, s)
  | some (cSetupMsg, p1) =>
    match pinFirst (stringBytes id) p1 with
    | none => (none, s)
    | some (cID, _) =>
      lib.returnHandle (lib.dkls_qc_session_from_setup cSetupMsg cID (cHandle keyshare) s)

/-- The wrapper `DklsQcSessionInputMessage` (qc.go). -/
def DklsQcSessionInputMessage {σ : Type} (lib : DklsLib σ) (session : Handle)
    (message : GoBytes) (s : σ) : Option (Bool × GoError) × σ :=
  match pinFirst message ⟨[]⟩ with
  | none => (none, s)
  | some (cMessage, _) =>
    let r := lib.dkls_qc_session_input_message (cHandle session) cMessage s
    lib.returnFinished r.1 (decide (r.2.1 ≠ 0)) r.2.2

/-- The wrapper `DklsKeyImportInitiatorNew` (keyimport.go): the private key and
the joined ids are pinned without a nil test; `rootChain` is marshalled under
`if rootChain != nil`; the result is (handle, setup bytes, error). -/
def DklsKeyImportInitiatorNew {σ : Type} (lib : DklsLib σ) (privateKey rootChain : GoBytes)
    (threshold : Nat) (ids : List String) (s : σ) :
    Option ((Handle × GoBytes) × GoError) × σ :=
  match pinFirst privateKey ⟨[]⟩ with
  | none => (none, s)
  | some (cPrivateKey, p1) =>
    match pinFirst (joinIds ids) p1 with
    | none => (none, s)
    | some (cIds, p2) =>
      match cGoSlice rootChain p2 with
      | none => (none, lib.tss_buffer_free ⟨0, 0⟩ s)
      | some (cRootChain, _) =>
        let r := lib.dkls_key_import_initiator_new cPrivateKey cRootChain (threshold % 256)
          cIds s
        if r.1 ≠ 0 then
          (some ((0, none), MapLibError lib.val (r.1 : Int)),
            lib.tss_buffer_free r.2.1.1 r.2.2)
        else
          ((CGoBytes (lib.mem r.2.2) r.2.1.1.ptr (toCInt r.2.1.1.len)).map
              (fun setup => ((r.2.1.2, setup), none)),
            lib.tss_buffer_free r.2.1.1 r.2.2)

/-- The wrapper `DklsKeyImporter` (keyimport.go). -/
def DklsKeyImporter {σ : Type} (lib : DklsLib σ) (setupMsg : GoBytes) (id : String) (s : σ) :
    Option (Handle × GoError) × σ :=
  match pinFirst setupMsg ⟨[]⟩ with
  | none => (none, s)
  | some (cSetupMsg, p1) =>
    match pinFirst (stringBytes id) p1 with
    | none => (none, s)
    | some (cID, _) => lib.returnHandle (lib.dkls_key_importer_new cSetupMsg cID s)

/-- A concrete go-dkls library for trial runs: the state is a counter of calls,
every memory cell holds its own address modulo 256; each primitive answers
with the code and out-value it is given. -/
def fixedDkls (code : Nat) (hnd : Int) (buf : TssBuffer) : DklsLib Nat where
  val := declOrder
  mem := fun _ a => a % 256
  tss_buffer_free := fun _ s => s + 1
  dkls_keygen_setupmsg_new := fun _ _ _ s => (code, buf, s + 1)
  dkls_keygen_session_from_setup := fun _ _ s => (code, hnd, s + 1)
  dkls_keygen_session_output_message := fun _ s => (code, buf, s + 1)
  dkls_keygen_session_input_message := fun _ _ s => (code, hnd, s + 1)
  dkls_sign_setupmsg_new := fun _ _ _ _ s => (code, buf, s + 1)
  dkls_sign_session_output_message := fun _ s => (code, buf, s + 1)
  dkls_sign_session_input_message := fun _ _ s => (code, hnd.toNat, s + 1)
  dkls_sign_session_finish := fun _ s => (code, buf, s + 1)
  dkls_decode_key_id := fun _ s => (code, buf, s + 1)
  dkls_decode_message := fun _ s => (code, buf, s + 1)
  dkls_decode_party_name := fun _ _ s => (code, buf, s + 1)
  dkls_keyshare_from_bytes := fun _ s => (code, hnd, s + 1)
  dkls_presign_from_bytes := fun _ s => (code, hnd, s + 1)
  dkls_presign_to_bytes := fun _ s => (code, buf, s + 1)
  dkls_qc_setupmsg_new := fun _ _ _ _ _ s => (code, buf, s + 1)
  dkls_qc_session_from_setup := fun _ _ _ s => (code, hnd, s + 1)
  dkls_qc_session_input_message := fun _ _ s => (code, hnd, s + 1)
  dkls_key_import_initiator_new := fun _ _ _ _ s => (code, (buf, hnd), s + 1)
  dkls_key_importer_new := fun _ _ s => (code, hnd, s + 1)

/-! ## The engine behind the wrappers -/

/-- The segments of a byte string between NUL bytes, in order. -/
def splitNul : Bytes → List Bytes
  | [] => [[]]
  | b :: rest =>
    if b = 0 then [] :: splitNul rest
    else
      match splitNul rest with
      | [] => [[b]]
      | name :: names => (b :: name) :: names

/-- The party names carried by an id slice (names joined by NUL bytes); an
absent or empty slice carries none. -/
def idNames (ids : CSlice) : List Bytes :=
  match ids with
  | none => []
  | some [] => []
  | some (b :: bs) => splitNul (b :: bs)

/-- The bytes of the buffer a primitive handed out, read in the state it left. -/
def DklsLib.outBytes {σ : Type} (lib : DklsLib σ) (r : Nat × TssBuffer × σ) : Bytes :=
  lib.bufferBytes r.2.2 r.2.1

/-- The answer `r` of a primitive is a success that hands out the bytes `bs`
in a buffer shorter than 2^31 bytes, the largest length `C.GoBytes` can be
asked to copy. -/
def DklsLib.Gives {σ : Type} (lib : DklsLib σ) (r : Nat × TssBuffer × σ) (bs : Bytes) : Prop :=
  r.1 = 0 ∧ r.2.1.len < 2147483648 ∧ lib.outBytes r = bs

/-- The primitive `prim` is a function of its input bytes: the code it
returns and the bytes of the buffer it hands out are the same in every engine
state. -/
def PureDecode {σ : Type} (lib : DklsLib σ) (prim : CSlice → σ → Nat × TssBuffer × σ) : Prop :=
  ∀ c s1 s2, (prim c s1).1 = (prim c s2).1 ∧ lib.outBytes (prim c s1) = lib.outBytes (prim c s2)

/-- Modelled from the spec: the SetupMessage codec of the engine, which is not
among the sources (spec 4.1: "round-trip decode must reproduce every encoded
field exactly", "`decode_party_name` must return a distinct, non-empty name
for every `index` in `[0, N)`"; spec 3: a setup message is a "self-describing
byte blob"). Whenever the sign setup primitive succeeds, the blob it hands out
is not empty and shorter than 2^31 bytes; decoding the message from that blob
gives, in every engine state, the bytes of `msg` (none for an absent `msg`);
decoding the party name gives a non-empty name for every index below the
number of names in `ids`. -/
def SetupCodecContract {σ : Type} (lib : DklsLib σ) : Prop :=
  ∀ (keyID chainPath msg ids : CSlice) (s : σ),
    (lib.dkls_sign_setupmsg_new keyID chainPath msg ids s).1 = 0 →
    (lib.dkls_sign_setupmsg_new keyID chainPath msg ids s).2.1.len < 2147483648 ∧
    lib.outBytes (lib.dkls_sign_setupmsg_new keyID chainPath msg ids s) ≠ [] ∧
    (∀ s2, lib.Gives
      (lib.dkls_decode_message
        (some (lib.outBytes (lib.dkls_sign_setupmsg_new keyID chainPath msg ids s))) s2)
      (msg.getD [])) ∧
    (∀ s2 i, i < (idNames ids).length → ∃ name, name ≠ [] ∧
      lib.Gives
        (lib.dkls_decode_party_name
          (some (lib.outBytes (lib.dkls_sign_setupmsg_new keyID chainPath msg ids s))) i s2)
        name)

/-- Modelled from the spec: the presignature serialization of the engine, which
is not among the sources (spec 4.4: "`to_bytes`/`from_bytes` must round-trip
exactly"; spec 4.2: finishing a presign session yields the presignature
bytes). `presign h s` says that `h` is a presign session ready to be finished
in state `s`. Whenever finishing such a session succeeds, the bytes handed out
are a presignature: they are not empty and shorter than 2^31 bytes; in every
engine state `from_bytes` of them succeeds with a non-zero handle, and
`to_bytes` of that handle, in the state `from_bytes` leaves, gives exactly
those bytes. -/
def PresignContract {σ : Type} (lib : DklsLib σ) (presign : Int → σ → Prop) : Prop :=
  ∀ h s, presign h s → (lib.dkls_sign_session_finish h s).1 = 0 →
    (lib.dkls_sign_session_finish h s).2.1.len < 2147483648 ∧
    lib.outBytes (lib.dkls_sign_session_finish h s) ≠ [] ∧
    ∀ s1,
      (lib.dkls_presign_from_bytes
        (some (lib.outBytes (lib.dkls_sign_session_finish h s))) s1).1 = 0 ∧
      (lib.dkls_presign_from_bytes
        (some (lib.outBytes (lib.dkls_sign_session_finish h s))) s1).2.1 ≠ 0 ∧
      lib.Gives
        (lib.dkls_presign_to_bytes
          (lib.dkls_presign_from_bytes
            (some (lib.outBytes (lib.dkls_sign_session_finish h s))) s1).2.1
          (lib.dkls_presign_from_bytes
            (some (lib.outBytes (lib.dkls_sign_session_finish h s))) s1).2.2)
        (lib.outBytes (lib.dkls_sign_session_finish h s))

/-- One call of a primitive of the go-dkls engine, or the freeing of a buffer,
takes the engine from the first state to the second. Every primitive of
`DklsLib` is listed, with arbitrary arguments; none of them frees a session. -/
inductive DklsLib.Step {σ : Type} (lib : DklsLib σ) : σ → σ → Prop
  | buffer_free (buf : TssBuffer) (s : σ) : DklsLib.Step lib s (lib.tss_buffer_free buf s)
  | keygen_setupmsg_new (t : Nat) (keyID ids : CSlice) (s : σ) :
    DklsLib.Step lib s (lib.dkls_keygen_setupmsg_new t keyID ids s).2.2
  | keygen_session_from_setup (setup id : CSlice) (s : σ) :
    DklsLib.Step lib s (lib.dkls_keygen_session_from_setup setup id s).2.2
  | keygen_session_output_message (h : Int) (s : σ) :
    DklsLib.Step lib s (lib.dkls_keygen_session_output_message h s).2.2
  | keygen_session_input_message (h : Int) (msg : CSlice) (s : σ) :
    DklsLib.Step lib s (lib.dkls_keygen_session_input_message h msg s).2.2
  | sign_setupmsg_new (keyID chainPath msg ids : CSlice) (s : σ) :
    DklsLib.Step lib s (lib.dkls_sign_setupmsg_new keyID chainPath msg ids s).2.2
  | sign_session_output_message (h : Int) (s : σ) :
    DklsLib.Step lib s (lib.dkls_sign_session_output_message h s).2.2
  | sign_session_input_message (h : Int) (msg : CSlice) (s : σ) :
    DklsLib.Step lib s (lib.dkls_sign_session_input_message h msg s).2.2
  | sign_session_finish (h : Int) (s : σ) :
    DklsLib.Step lib s (lib.dkls_sign_session_finish h s).2.2
  | decode_key_id (setup : CSlice) (s : σ) :
    DklsLib.Step lib s (lib.dkls_decode_key_id setup s).2.2
  | decode_message (setup : CSlice) (s : σ) :
    DklsLib.Step lib s (lib.dkls_decode_message setup s).2.2
  | decode_party_name (setup : CSlice) (i : Nat) (s : σ) :
    DklsLib.Step lib s (lib.dkls_decode_party_name setup i s).2.2
  | keyshare_from_bytes (buf : CSlice) (s : σ) :
    DklsLib.Step lib s (lib.dkls_keyshare_from_bytes buf s).2.2
  | presign_from_bytes (buf : CSlice) (s : σ) :
    DklsLib.Step lib s (lib.dkls_presign_from_bytes buf s).2.2
  | presign_to_bytes (h : Int) (s : σ) :
    DklsLib.Step lib s (lib.dkls_presign_to_bytes h s).2.2
  | qc_setupmsg_new (h : Int) (ids olds : CSlice) (t : Nat) (news : CSlice) (s : σ) :
    DklsLib.Step lib s (lib.dkls_qc_setupmsg_new h ids olds t news s).2.2
  | qc_session_from_setup (setup id : CSlice) (h : Int) (s : σ) :
    DklsLib.Step lib s (lib.dkls_qc_session_from_setup setup id h s).2.2
  | qc_session_input_message (h : Int) (msg : CSlice) (s : σ) :
    DklsLib.Step lib s (lib.dkls_qc_session_input_message h msg s).2.2
  | key_import_initiator_new (key chain : CSlice) (t : Nat) (ids : CSlice) (s : σ) :
    DklsLib.Step lib s (lib.dkls_key_import_initiator_new key chain t ids s).2.2
  | key_importer_new (setup id : CSlice) (s : σ) :
    DklsLib.Step lib s (lib.dkls_key_importer_new setup id s).2.2

/-- One call of a primitive of the go-schnorr engine other than the freeing
of the session `session`, or the freeing of a buffer, takes the engine from
the first state to the second. Every primitive of `SchnorrLib` is listed, with
arbitrary arguments. -/
inductive SchnorrLib.Step {σ κ η : Type} (lib : SchnorrLib σ κ η) (session : η) : σ → σ → Prop
  | buffer_free (buf : TssBuffer) (s : σ) :
    SchnorrLib.Step lib session s (lib.tss_buffer_free buf s)
  | keygen_session_finish (h : η) (s : σ) :
    SchnorrLib.Step lib session s (lib.schnorr_keygen_session_finish h s).2.2
  | keygen_session_input_message (h : η) (msg : κ) (s : σ) :
    SchnorrLib.Step lib session s (lib.schnorr_keygen_session_input_message h msg s).2.2
  | keygen_session_message_receiver (h : η) (msg : κ) (i : Nat) (s : σ) :
    SchnorrLib.Step lib session s (lib.schnorr_keygen_session_message_receiver h msg i s).2.2
  | sign_session_from_setup (setup id : κ) (h : η) (s : σ) :
    SchnorrLib.Step lib session s (lib.schnorr_sign_session_from_setup setup id h s).2.2
  | sign_session_finish (h : η) (s : σ) :
    SchnorrLib.Step lib session s (lib.schnorr_sign_session_finish h s).2.2
  | sign_session_free (h : η) (s : σ) (hne : h ≠ session) :
    SchnorrLib.Step lib session s (lib.schnorr_sign_session_free h s).2
  | keyshare_from_bytes (buf : κ) (s : σ) :
    SchnorrLib.Step lib session s (lib.schnorr_keyshare_from_bytes buf s).2.2
  | keyshare_to_bytes (h : η) (s : σ) :
    SchnorrLib.Step lib session s (lib.schnorr_keyshare_to_bytes h s).2.2
  | decode_message (setup : κ) (s : σ) :
    SchnorrLib.Step lib session s (lib.schnorr_decode_message setup s).2.2

/-- Modelled from the spec: the finish primitive of the engine, which is not
among the sources (spec 4.2: the states are "Created → Running → Finished →
Freed"; "Finish unconditionally finalizes the session ... even on error; the
first call returns the real success/failure outcome, every subsequent call
returns an invalid-session-state error"; the doc comments of the finish
wrappers: "Subsequent calls will return `LIB_INVALID_SESSION_STATE`").
`live h s` says that `h` is a session that has not been finished in state
`s`, and `step h s s2` that one call of the engine other than the freeing of
session `h` takes state `s` to `s2`. There is a property `finalized` of
sessions that holds after a finish call on a live session, is kept by every
such call of the engine, whatever its arguments and whichever session it is
made on, and under which finish returns the code `invalidState`. -/
def FinishOnceContract {σ η β : Type} (invalidState : Nat) (finish : η → σ → Nat × β × σ)
    (step : η → σ → σ → Prop) (live : η → σ → Prop) : Prop :=
  ∃ finalized : η → σ → Prop,
    (∀ h s, live h s → finalized h (finish h s).2.2) ∧
    (∀ h s, finalized h s → (finish h s).1 = invalidState) ∧
    (∀ h s s2, finalized h s → step h s s2 → finalized h s2)

/-! ## A small engine for trial runs -/

/-- The state of a small engine for trial runs: the bytes of the buffer handed
out last (it lies at address 0), the sessions ready to be finished with their
results, the sessions already finished, and the presignatures loaded (handle
k + 1 is entry k). -/
structure ToyState where
  out : Bytes
  pending : List (Int × Bytes)
  finished : List Int
  presigs : List Bytes
  deriving DecidableEq, Repr

/-- The trial engine hands out the bytes `bs`. -/
def toyEmit (bs : Bytes) (s : ToyState) : Nat × TssBuffer × ToyState :=
  (0, ⟨0, bs.length⟩, { s with out := bs })

/-- The trial engine fails with the code of `k`. -/
def toyFail (k : LibError) (s : ToyState) : Nat × TssBuffer × ToyState :=
  (declOrder k, ⟨0, 0⟩, s)

/-- One length-prefixed field of a trial setup message and the rest. -/
def toyField : Bytes → Option (Bytes × Bytes)
  | [] => none
  | n :: rest => if n ≤ rest.length then some (rest.take n, rest.drop n) else none

/-- The fields (key id, chain path, message, ids) of a trial setup message. -/
def toyParse (b : Bytes) : Option (Bytes × Bytes × Bytes × Bytes) :=
  match toyField b with
  | none => none
  | some (k, r1) =>
    match toyField r1 with
    | none => none
    | some (c, r2) =>
      match toyField r2 with
      | none => none
      | some (m, ids) => some (k, c, m, ids)

/-- The parameters the trial engine accepts: short fields and party names that
are not empty. -/
def toyValid (keyID chainPath msg ids : CSlice) : Prop :=
  (keyID.getD []).length < 256 ∧ (chainPath.getD []).length < 256 ∧
  (msg.getD []).length < 256 ∧ (ids.getD []).length < 65536 ∧
  ∀ name ∈ idNames ids, name ≠ [] ∧ name.length < 256

instance (keyID chainPath msg ids : CSlice) : Decidable (toyValid keyID chainPath msg ids) := by
  unfold toyValid
  infer_instance

/-- The trial setup message: key id, chain path and message, each after its
length, then the id bytes. -/
def toyEncode (keyID chainPath msg ids : CSlice) : Bytes :=
  (keyID.getD []).length :: (keyID.getD []) ++
    ((chainPath.getD []).length :: (chainPath.getD []) ++
      ((msg.getD []).length :: (msg.getD []) ++ ids.getD []))

/-- The trial engine answers a decoded field: it hands out the bytes, or
fails with the code of the error. -/
def toyReply (r : Except LibError Bytes) (s : ToyState) : Nat × TssBuffer × ToyState :=
  match r with
  | .ok bs => toyEmit bs s
  | .error k => toyFail k s

/-- The key id field of a trial setup message. -/
def toyKeyId (c : CSlice) : Except LibError Bytes :=
  match c.bind toyParse with
  | some (k, _, _, _) => .ok k
  | none => .error LIB_SERIALIZATION_ERROR

/-- The message field of a trial setup message. -/
def toyMessage (c : CSlice) : Except LibError Bytes :=
  match c.bind toyParse with
  | some (_, _, m, _) => .ok m
  | none => .error LIB_SERIALIZATION_ERROR

/-- The name of party `i` of a trial setup message; an index that is not
below the number of names is out of range. -/
def toyPartyName (c : CSlice) (i : Nat) : Except LibError Bytes :=
  match c.bind toyParse with
  | some (_, _, _, ids) =>
    match (idNames (some ids))[i]? with
    | some name => .ok name
    | none => .error LIB_INVALID_BUFFER_SIZE
  | none => .error LIB_SERIALIZATION_ERROR

/-- The finish primitive of the trial engine: a finished session answers
invalid session state; a pending session is finished and hands out its
result, or fails when the result is empty or too long. -/
def toyFinish (h : Int) (s : ToyState) : Nat × TssBuffer × ToyState :=
  if h ∈ s.finished then toyFail LIB_INVALID_SESSION_STATE s
  else
    match s.pending.lookup h with
    | none => toyFail LIB_INVALID_HANDLE s
    | some res =>
      if 0 < res.length ∧ res.length < 2147483648 then
        toyEmit res { s with finished := h :: s.finished }
      else toyFail LIB_SIGNGEN_ERROR { s with finished := h :: s.finished }

/-- The trial go-dkls engine: a setup codec, finish-once sign sessions and a
presignature table; the primitives it does not model fail. -/
def toyDkls : DklsLib ToyState where
  val := declOrder
  mem := fun s a => s.out.getD a 0
  tss_buffer_free := fun _ s => { s with out := [] }
  dkls_keygen_setupmsg_new := fun _ _ _ s => toyFail LIB_UNKNOWN_ERROR s
  dkls_keygen_session_from_setup := fun _ _ s => (declOrder LIB_UNKNOWN_ERROR, 0, s)
  dkls_keygen_session_output_message := fun _ s => toyFail LIB_UNKNOWN_ERROR s
  dkls_keygen_session_input_message := fun _ _ s => (declOrder LIB_UNKNOWN_ERROR, 0, s)
  dkls_sign_setupmsg_new := fun keyID chainPath msg ids s =>
    if toyValid keyID chainPath msg ids then toyEmit (toyEncode keyID chainPath msg ids) s
    else toyFail LIB_SETUP_MESSAGE_VALIDATION s
  dkls_sign_session_output_message := fun _ s => toyFail LIB_UNKNOWN_ERROR s
  dkls_sign_session_input_message := fun _ _ s => (declOrder LIB_UNKNOWN_ERROR, 0, s)
  dkls_sign_session_finish := toyFinish
  dkls_decode_key_id := fun c s => toyReply (toyKeyId c) s
  dkls_decode_message := fun c s => toyReply (toyMessage c) s
  dkls_decode_party_name := fun c i s => toyReply (toyPartyName c i) s
  dkls_keyshare_from_bytes := fun _ s => (declOrder LIB_UNKNOWN_ERROR, 0, s)
  dkls_presign_from_bytes := fun c s =>
    match c with
    | some (b :: bs) =>
      if (b :: bs).length < 2147483648 then
        (0, (s.presigs.length : Int) + 1, { s with presigs := s.presigs ++ [b :: bs] })
      else (declOrder LIB_INVALID_BUFFER_SIZE, 0, s)
    | _ => (declOrder LIB_NULL_PTR, 0, s)
  dkls_presign_to_bytes := fun h s =>
    match s.presigs[(h - 1).toNat]? with
    | some b => if 1 ≤ h then toyEmit b s else toyFail LIB_INVALID_HANDLE s
    | none => toyFail LIB_INVALID_HANDLE s
  dkls_qc_setupmsg_new := fun _ _ _ _ _ s => toyFail LIB_UNKNOWN_ERROR s
  dkls_qc_session_from_setup := fun _ _ _ s => (declOrder LIB_UNKNOWN_ERROR, 0, s)
  dkls_qc_session_input_message := fun _ _ s => (declOrder LIB_UNKNOWN_ERROR, 0, s)
  dkls_key_import_initiator_new := fun _ _ _ _ s => (declOrder LIB_UNKNOWN_ERROR, (⟨0, 0⟩, 0), s)
  dkls_key_importer_new := fun _ _ s => (declOrder LIB_UNKNOWN_ERROR, 0, s)

/-- The trial go-schnorr engine: finish-once keygen and sign sessions over the
same state; a finished keygen session yields the handle 1000 + session. -/
def toySchnorr : SchnorrLib ToyState GoBytes Handle where
  val := declOrder
  cGoSlice := fun b => b
  cHandle := fun h => h
  mem := fun s a => s.out.getD a 0
  tss_buffer_free := fun _ s => { s with out := [] }
  schnorr_keygen_session_finish := fun h s =>
    if h ∈ s.finished then (declOrder LIB_INVALID_SESSION_STATE, 0, s)
    else
      match s.pending.lookup h with
      | none => (declOrder LIB_INVALID_HANDLE, 0, s)
      | some _ => (0, 1000 + h, { s with finished := h :: s.finished })
  schnorr_keygen_session_input_message := fun _ _ s => (declOrder LIB_UNKNOWN_ERROR, 0, s)
  schnorr_keygen_session_message_receiver := fun _ _ _ s => toyFail LIB_UNKNOWN_ERROR s
  schnorr_sign_session_from_setup := fun _ _ _ s => (declOrder LIB_UNKNOWN_ERROR, 0, s)
  schnorr_sign_session_finish := toyFinish
  schnorr_sign_session_free := fun _ s => (declOrder LIB_UNKNOWN_ERROR, s)
  schnorr_keyshare_from_bytes := fun _ s => (declOrder LIB_UNKNOWN_ERROR, 0, s)
  schnorr_keyshare_to_bytes := fun _ s => toyFail LIB_UNKNOWN_ERROR s
  schnorr_decode_message := fun _ s => toyFail LIB_UNKNOWN_ERROR s

/-- A session of the trial engine that is ready to be finished. -/
def toyLive (h : Int) (s : ToyState) : Prop :=
  h ∉ s.finished ∧ (s.pending.lookup h).isSome = true

instance (h : Int) (s : ToyState) : Decidable (toyLive h s) := by
  unfold toyLive
  infer_instance

/-- A trial state with one pending sign session, 7, whose result is `[80, 1, 2]`. -/
def toyStart : ToyState :=
  { out := [], pending := [(7, [80, 1, 2])], finished := [], presigs := [] }

/-- A trial state with two pending sessions: 7, whose result is `[80, 1, 2]`,
and 8, whose result is `[81]`. -/
def toyPair : ToyState :=
  { out := [], pending := [(7, [80, 1, 2]), (8, [81])], finished := [], presigs := [] }

/-- The trial setup message for key id `[1]`, message `[9, 9]` and the single
party "p1". -/
def toySetup : Bytes := toyEncode (some [1]) none (some [9, 9]) (some [112, 49])

/-! ## test/helper.go: party ids; keygen.go: the setup wrappers -/

/-- Go `fmt.Sprintf("p%d", p)` for a positive `p`: the letter p followed by the
decimal digits of `p`. -/
def partyId (p : Nat) : String := "p" ++ toString p

/-- The ids `fmt.Sprintf("p%d", p)` for `p = 1, ..., n`, in order: the list
`keys` that the loop `for p := 1; p <= n; p++` of `PrepareIDSlice` builds
(empty for `n ≤ 0`), and the ids `RunKeygen` gives to the parties it creates
in its loop `for i := 1; i <= n; i++`. -/
def partyIds (n : Int) : List String := (List.range n.toNat).map (fun i => partyId (i + 1))

/-- The Go function `PrepareIDSlice(n)` of go-dkls/test/helper.go:
`return ([]byte)(strings.Join(keys, "\x00"))`. -/
def PrepareIDSlice (n : Int) : GoBytes := joinIds (partyIds n)

/-- The bytes of a Go string, one per character. -/
def idBytes (id : String) : Bytes := id.data.map Char.toNat

/-- The wrapper `DklsKeygenSetupMsgNew` (go-dkls keygen.go):
`cThreshold := C.uint(threshold)` for the Go int `threshold`, then the key id
and the ids are marshalled by `cGoSlice`, in this order, and the engine is
called. -/
def DklsKeygenSetupMsgNew {σ : Type} (lib : DklsLib σ) (threshold : Int) (keyID ids : GoBytes)
    (s : σ) : Option (GoBytes × GoError) × σ :=
  match cGoSlice keyID ⟨[]⟩ with
  | none => (none, s)
  | some (ckeyIDs, p1) =>
    match cGoSlice ids p1 with
    | none => (none, s)
    | some (cIDs, _) =>
      lib.returnBytes (lib.dkls_keygen_setupmsg_new (toUint32 threshold) ckeyIDs cIDs s)

/-- The wrapper `SchnorrKeygenSetupMsgNew` (go-schnorr keygen.go):
`cThreshold := C.uint(threshold)` for the int32 `threshold`, the key id and the
ids marshalled by the package's `cGoSlice`, then the engine primitive
`schnorr_keygen_setupmsg_new`, which is a parameter here. -/
def SchnorrKeygenSetupMsgNew {σ κ η : Type} (lib : SchnorrLib σ κ η)
    (schnorr_keygen_setupmsg_new : Nat → κ → κ → σ → Nat × TssBuffer × σ)
    (threshold : Int) (keyID ids : GoBytes) (s : σ) : Option (GoBytes × GoError) × σ :=
  returnBytes lib
    (schnorr_keygen_setupmsg_new (toUint32 threshold) (lib.cGoSlice keyID) (lib.cGoSlice ids) s)

/-- The wrapper `SchnorrKeyImporterNew` (go-schnorr keyimport.go); the engine
primitive `schnorr_key_importer_new` is a parameter here. The setup message is
marshalled by the package's `cGoSlice`; the id is marshalled inline,
`idBytes := []byte(id); cID := (*C.go_slice)(unsafe.Pointer(&idBytes)); pinner.Pin(&idBytes[0])`,
which panics (`none`) for the empty id before the engine is called. -/
def SchnorrKeyImporterNew {σ κ η : Type} (lib : SchnorrLib σ κ η)
    (schnorr_key_importer_new : κ → CSlice → σ → Nat × Int × σ) (setupMsg : GoBytes)
    (id : String) (s : σ) : Option (Handle × GoError) × σ :=
  match pinFirst (stringBytes id) ⟨[]⟩ with
  | none => (none, s)
  | some (cID, _) =>
    (some (returnHandle lib (schnorr_key_importer_new (lib.cGoSlice setupMsg) cID s)).1,
      (returnHandle lib (schnorr_key_importer_new (lib.cGoSlice setupMsg) cID s)).2)

/-! ## qc_test.go: RunQcLoop; the log of a run -/

/-- The variables of `RunQcLoop`: those of a router loop and
`finishedSessions map[session.Handle]bool`, as the list of handles set to true. -/
structure QcState (σ γ ρ : Type) where
  loop : LoopState σ γ ρ
  finishedSessions : List Handle

section QcRouter

variable {σ γ ρ : Type}

/-- The feeding of one party in `RunQcLoop` (qc_test.go lines 53-73):
`for _, msg := range msgq[party.ID]`; an input error returns; on `finished`
the session is marked in `finishedSessions`, the finish wrapper is called, an
error returns, otherwise the result is appended to `shares`; in both cases
the loop goes on with the next message of the mailbox. -/
def feedSessionQc (api : SessionApi σ γ ρ) (session : Handle) :
    List GoBytes → QcState σ γ ρ → Option Exit × QcState σ γ ρ
  | [], st => (none, st)
  | msg :: rest, st =>
    match callInput api session msg st.loop with
    | ((_, some err), st1) => (some (Exit.error err), { st with loop := st1 })
    | ((false, none), st1) => feedSessionQc api session rest { st with loop := st1 }
    | ((true, none), st1) =>
      match callFinish api session st1 with
      | ((_, some err), st2) =>
        (some (Exit.error err),
          { loop := st2, finishedSessions := session :: st.finishedSessions })
      | ((share, none), st2) =>
        feedSessionQc api session rest
          { loop := { st2 with shares := st2.shares ++ [share] },
            finishedSessions := session :: st.finishedSessions }

/-- The second inner loop of `RunQcLoop` (lines 48-74): a party whose session
is marked in `finishedSessions` is skipped (`continue`), every other party is
fed its mailbox. -/
def feedAllQc (api : SessionApi σ γ ρ) :
    List Participant → QcState σ γ ρ → Option Exit × QcState σ γ ρ
  | [], st => (none, st)
  | party :: rest, st =>
    if party.Session ∈ st.finishedSessions then feedAllQc api rest st
    else
      match feedSessionQc api party.Session (st.loop.msgq party.ID) st with
      | (some x, st1) => (some x, st1)
      | (none, st1) => feedAllQc api rest st1

/-- One pass of the outer loop of `RunQcLoop`: the drain phase is that of
RunKeygenLoop (`buf == nil`, `receiver == ""`), then the parties are fed. -/
def passQc (api : SessionApi σ String ρ) (parties : List Participant) (fuel : Nat)
    (st : QcState σ String ρ) : Option Exit × QcState σ String ρ :=
  match drainAll keygenTests api parties.length fuel parties st.loop with
  | (some x, st1) => (some x, { st with loop := st1 })
  | (none, st1) => feedAllQc api parties { st with loop := st1 }

/-- The outer loop `for len(shares) != n { ... }; return shares, nil` of
`RunQcLoop`. -/
def qcLoop (api : SessionApi σ String ρ) (parties : List Participant) (fuel : Nat) :
    Nat → QcState σ String ρ → LoopResult ρ × QcState σ String ρ
  | 0, st =>
    if st.loop.shares.length = parties.length then
      (LoopResult.returned (some st.loop.shares) none, st)
    else (LoopResult.outOfFuel, st)
  | passes + 1, st =>
    if st.loop.shares.length = parties.length then
      (LoopResult.returned (some st.loop.shares) none, st)
    else
      match passQc api parties fuel st with
      | (some x, st1) => (exitResult x, st1)
      | (none, st1) => qcLoop api parties fuel passes st1

/-- The Go function `RunQcLoop(t, parties)` of go-dkls/sessions/qc_test.go, run
from engine state `eng`; `fuel` bounds the passes and each drain loop. -/
def RunQcLoop (api : SessionApi σ String Handle) (fuel : Nat) (parties : List Participant)
    (eng : σ) : LoopResult Handle × QcState σ String Handle :=
  qcLoop api parties fuel fuel { loop := initState eng, finishedSessions := [] }

/-- The session of an input call that reported finished and returned no error. -/
def finishedInput : Event γ ρ → Option Handle
  | .input session _ true none => some session
  | _ => none

/-- The session and the result of a finish call that returned no error. -/
def finishEvent : Event γ ρ → Option (Handle × ρ)
  | .finish session res none => some (session, res)
  | _ => none

/-- The event is an input call on `session` that returned no error. -/
def acceptedInputOn (session : Handle) : Event γ ρ → Bool
  | .input s _ _ none => decide (s = session)
  | _ => false

/-- The scan of a log that checks the calls made after an input call reported
finished: none of them is an input call on the same session that returned no
error. -/
def inputStops : List (Event γ ρ) → Bool
  | [] => true
  | .input session _ true none :: rest =>
    rest.all (fun ev => !(acceptedInputOn session ev)) && inputStops rest
  | _ :: rest => inputStops rest

/-- Modelled from the spec: the input primitive of the engine, which is not
among the sources (spec 4.2, Input: "Returns true exactly on the transition
Running→Finished; subsequent calls after this point are invalid-state errors
except `finish`/`free`"; spec 3: "Any operation after Finished other than
`finish`/`free` fails with an invalid-state error"). In the log of a run: once
an input call on a session has reported finished, every later input call on
that session returned an error. -/
def InputStopsAtFinished (trace : List (Event γ ρ)) : Prop := inputStops trace = true

instance (trace : List (Event γ ρ)) : Decidable (InputStopsAtFinished trace) := by
  unfold InputStopsAtFinished
  infer_instance

/-- Every input call logged was made on the session of a party of the list,
with a message of that party's mailbox. -/
def InputsFromMailbox (parties : List Participant) (st : LoopState σ γ ρ) : Prop :=
  ∀ session msg, (session, msg) ∈ inputsOf st.trace →
    ∃ p ∈ parties, p.Session = session ∧ msg ∈ st.msgq p.ID

/-- The results collected so far are no more than the input calls that
reported finished without an error. -/
def SharesWithinFinished (st : LoopState σ γ ρ) : Prop :=
  st.shares.length ≤ (st.trace.filterMap finishedInput).length

/-- The calls logged while a party is fed and no call returns an error: for
each message with its outcome, the input call, followed by the finish call
when the input reported finished. -/
def feedSeg (session : Handle) : List (GoBytes × Option ρ) → List (Event γ ρ)
  | [] => []
  | (msg, none) :: rest => Event.input session msg false none :: feedSeg session rest
  | (msg, some share) :: rest =>
    Event.input session msg true none :: Event.finish session share none ::
      feedSeg session rest

/-- The calls logged while the parties of a list are fed, each with the
outcomes of its messages. -/
def feedSegs : List Participant → List (List (GoBytes × Option ρ)) → List (Event γ ρ)
  | p :: ps, outs :: outss => feedSeg p.Session outs ++ feedSegs ps outss
  | _, _ => []

end QcRouter

/-- A scripted quorum-change engine for trial runs in the sense of the spec:
a session emits the messages `[7]` and `[8]`, both addressed to "p1"; its first
input call reports finished, every later input call is refused with "Invalid
session state"; finish yields handle 42. The state counts the output and the
input calls. -/
def scriptedQcApi : SessionApi (Nat × Nat) String Handle where
  OutputMessage := fun _ s =>
    ((if s.1 = 0 then some [7] else if s.1 = 1 then some [8] else none, none), (s.1 + 1, s.2))
  MessageReceiver := fun _ _ idx s => ((if idx = 0 then "p1" else "", none), s)
  InputMessage := fun _ _ s =>
    (if s.2 = 0 then (true, none) else (false, some "Invalid session state"), (s.1, s.2 + 1))
  Finish := fun _ s => ((42, none), s)
  Free := fun _ s => (none, s)

/-- The engine of `scriptedQcApi` with an input call that always reports
finished. -/
def eagerQcApi : SessionApi (Nat × Nat) String Handle where
  OutputMessage := fun _ s =>
    ((if s.1 = 0 then some [7] else if s.1 = 1 then some [8] else none, none), (s.1 + 1, s.2))
  MessageReceiver := fun _ _ idx s => ((if idx = 0 then "p1" else "", none), s)
  InputMessage := fun _ _ s => ((true, none), (s.1, s.2 + 1))
  Finish := fun _ s => ((42, none), s)
  Free := fun _ s => (none, s)

/-- A scripted keygen engine for two parties: session 1 emits the message
`[1]` for "p2" and session 2 the message `[2]` for "p1", each once; the first
input call on a session reports finished and every later one is refused;
finish yields handle 100 + session. The state lists the sessions that have
emitted and those that have finished. -/
def pairApi : SessionApi (List Handle × List Handle) String Handle where
  OutputMessage := fun h s =>
    if h ∈ s.1 then ((none, none), s) else ((some [h.toNat], none), (h :: s.1, s.2))
  MessageReceiver := fun h _ idx s =>
    ((if idx = 0 then (if h = 1 then "p2" else "p1") else "", none), s)
  InputMessage := fun h _ s =>
    if h ∈ s.2 then ((false, some "Invalid session state"), s)
    else ((true, none), (s.1, h :: s.2))
  Finish := fun h s => ((100 + h, none), s)
  Free := fun _ s => (none, s)


/-- A trial engine that breaks the rule that input after finished is an error:
session 2 reports finished at its first input and accepts the later ones,
every other session reports finished at its second input. Messages are routed
as by `pairApi`; the state holds the sessions that have emitted their message
and the sessions of the input calls made so far. -/
def lateApi : SessionApi (List Handle × List Handle) String Handle where
  OutputMessage := fun h s =>
    if h ∈ s.1 then ((none, none), s) else ((some [h.toNat], none), (h :: s.1, s.2))
  MessageReceiver := fun h _ idx s =>
    ((if idx = 0 then (if h = 1 then "p2" else "p1") else "", none), s)
  InputMessage := fun h _ s =>
    ((decide (s.2.count h = (if h = 2 then 0 else 1)), none), (s.1, h :: s.2))
  Finish := fun h s => ((100 + h, none), s)
  Free := fun _ s => (none, s)

/-! # Theorems -/

/-! ## MapLibError -/

theorem validCodes_declOrder : ValidCodes declOrder := by
  constructor
  · intro a b h
    cases a <;> cases b <;> first | rfl | exact absurd h (by decide)
  · intro k
    cases k <;> decide

theorem mem_libErrorKeys (k : LibError) : k ∈ libErrorKeys := by
  cases k <;> decide

theorem libErrorMessages_no_percent (k : LibError) : '%' ∉ (libErrorMessages k).data := by
  cases k <;> decide

theorem libErrorMessages_injective : Function.Injective libErrorMessages := by
  intro a b h
  cases a <;> cases b <;> first | rfl | exact absurd h (by decide)

theorem errorfChars_of_no_percent (cs : List Char) (h : '%' ∉ cs) (fuel : Nat)
    (hf : cs.length < fuel) : errorfChars fuel cs = cs := by
  induction cs generalizing fuel with
  | nil => cases fuel <;> rfl
  | cons c rest ih =>
    cases fuel with
    | zero => simp at hf
    | succ fuel =>
      have hc : c ≠ '%' := fun hEq => h (by simp [hEq])
      have hr : '%' ∉ rest := fun hm => h (List.mem_cons_of_mem _ hm)
      have hlen : rest.length < fuel := by simpa using hf
      simp [errorfChars, hc, ih hr fuel hlen]

theorem Errorf0_of_no_percent (s : String) (h : '%' ∉ s.data) : Errorf0 s = s := by
  unfold Errorf0
  rw [errorfChars_of_no_percent s.data h _ (Nat.lt_succ_self _)]

theorem find_key_of_injective (val : LibError → Nat) (hinj : Function.Injective val)
    (c : LibError) (l : List LibError) (hc : c ∈ l) :
    l.find? (fun k => val k == val c) = some c := by
  induction l with
  | nil => simp at hc
  | cons a l ih =>
    by_cases hac : val a = val c
    · have : a = c := hinj hac
      subst this
      simp
    · have hne : a ≠ c := fun hEq => hac (by rw [hEq])
      have hmem : c ∈ l := by
        rcases List.mem_cons.mp hc with h | h
        · exact absurd h.symm hne
        · exact h
      have hb : (val a == val c) = false := by simpa using hac
      simp only [List.find?_cons, hb]
      exact ih hmem

theorem find_key_none (val : LibError → Nat) (c : Nat) (l : List LibError)
    (h : ∀ k, val k ≠ c) : l.find? (fun k => val k == c) = none := by
  induction l with
  | nil => rfl
  | cons a l ih =>
    have hb : (val a == c) = false := by simpa using h a
    simp only [List.find?_cons, hb]
    exact ih

theorem toUint32_of_lt (n : Nat) (h : n < 4294967296) : toUint32 (n : Int) = n := by
  unfold toUint32
  omega

theorem MapLibError_of_key (val : LibError → Nat) (hv : ValidCodes val) (k : LibError) :
    MapLibError val (val k) = some (libErrorMessages k) := by
  unfold MapLibError lookupMessage
  rw [toUint32_of_lt _ (hv.2 k), find_key_of_injective val hv.1 k _ (mem_libErrorKeys k)]
  simp [Errorf0_of_no_percent _ (libErrorMessages_no_percent k)]

theorem MapLibError_of_trunc_key (val : LibError → Nat) (hv : ValidCodes val) (k : LibError)
    (err : Int) (h : toUint32 err = val k) :
    MapLibError val err = some (libErrorMessages k) := by
  unfold MapLibError lookupMessage
  rw [h, find_key_of_injective val hv.1 k _ (mem_libErrorKeys k)]
  simp [Errorf0_of_no_percent _ (libErrorMessages_no_percent k)]

theorem MapLibError_of_absent (val : LibError → Nat) (err : Int)
    (h : ∀ k, val k ≠ toUint32 err) :
    MapLibError val err = some ("unknown error: " ++ toString err) := by
  unfold MapLibError lookupMessage
  rw [find_key_none val _ _ h]
  rfl

theorem MapLibError_ne_none (val : LibError → Nat) (err : Int) : MapLibError val err ≠ none := by
  unfold MapLibError
  cases lookupMessage val (toUint32 err) <;> simp

/-- C7: for every k in 1..10 the code LIB_ABORT_PROTOCOL_PARTY_k is mapped by
MapLibError to the text "Protocol abort by party k"; the text of a different
abort constant is different, and so is the text of every constant of the table
that is not an abort constant, so the ordinal k is determined by the error. -/
theorem MapLibError_abort_party (val : LibError → Nat) (hv : ValidCodes val) (k : Nat)
    (hk : 1 ≤ k ∧ k ≤ 10) :
    ∃ c, abortParty k = some c ∧
      MapLibError val (val c) = some ("Protocol abort by party " ++ toString k) ∧
      (∀ j c2, abortParty j = some c2 → j ≠ k →
        MapLibError val (val c2) ≠ MapLibError val (val c)) ∧
      (∀ d, (∀ j, abortParty j ≠ some d) →
        MapLibError val (val d) ≠ MapLibError val (val c)) := by
  have key : ∀ c, abortParty k = some c →
      libErrorMessages c = "Protocol abort by party " ++ toString k := by
    intro c hc
    obtain ⟨h1, h2⟩ := hk
    interval_cases k <;> simp [abortParty] at hc <;> subst hc <;> decide
  have hex : ∃ c, abortParty k = some c := by
    obtain ⟨h1, h2⟩ := hk
    interval_cases k <;> simp [abortParty]
  obtain ⟨c, hc⟩ := hex
  refine ⟨c, hc, ?_, ?_, ?_⟩
  · rw [MapLibError_of_key val hv c, key c hc]
  · intro j c2 hj hjk
    rw [MapLibError_of_key val hv c, MapLibError_of_key val hv c2]
    intro hEq
    have hcc : c2 = c := libErrorMessages_injective (Option.some.inj hEq)
    subst hcc
    apply hjk
    have inj : ∀ a b c0, abortParty a = some c0 → abortParty b = some c0 → a = b := by
      intro a b c0 ha hb
      unfold abortParty at ha hb
      split at ha <;> split at hb <;> first | rfl | (cases ha; cases hb) | cases ha
    exact inj j k c2 hj hc
  · intro d hd
    rw [MapLibError_of_key val hv c, MapLibError_of_key val hv d]
    intro hEq
    have hcc : d = c := libErrorMessages_injective (Option.some.inj hEq)
    subst hcc
    exact hd k hc

theorem MapLibError_abort_party_witness :
    ValidCodes declOrder ∧ (1 ≤ 7 ∧ 7 ≤ 10) ∧
    ∃ c, abortParty 7 = some c ∧
      MapLibError declOrder (declOrder c) = some ("Protocol abort by party " ++ toString 7) ∧
      (∀ j c2, abortParty j = some c2 → j ≠ 7 →
        MapLibError declOrder (declOrder c2) ≠ MapLibError declOrder (declOrder c)) ∧
      (∀ d, (∀ j, abortParty j ≠ some d) →
        MapLibError declOrder (declOrder d) ≠ MapLibError declOrder (declOrder c)) :=
  ⟨validCodes_declOrder, by decide,
    MapLibError_abort_party declOrder validCodes_declOrder 7 (by decide)⟩


/-- C8 (as stated, refuted): the integer 4294967296 is the value of no constant
of the table, yet MapLibError classifies it as "ok" (its conversion to the
32-bit key type `C.lib_error` is 0) and not as "unknown error: 4294967296". -/
theorem MapLibError_absent_code_not_unknown :
    (∀ k, (declOrder k : Int) ≠ 4294967296) ∧
    MapLibError declOrder 4294967296 = some "ok" ∧
    MapLibError declOrder 4294967296 ≠ some ("unknown error: " ++ toString (4294967296 : Int)) := by
  refine ⟨?_, by decide, by decide⟩
  intro k
  cases k <;> decide

/-- C8 (amended): MapLibError is a total classification by the code reduced
modulo 2^32. A code of the table gets the table entry character for character
(no entry contains a percent sign, so formatting changes nothing); distinct
table codes get distinct texts; an integer whose reduction modulo 2^32 is a
table code gets that entry; an integer whose reduction is absent from the
table gets "unknown error: " followed by the integer in decimal. -/
theorem MapLibError_classification (val : LibError → Nat) (hv : ValidCodes val) :
    (∀ k, MapLibError val (val k) = some (libErrorMessages k)) ∧
    (∀ k, '%' ∉ (libErrorMessages k).data ∧ Errorf0 (libErrorMessages k) = libErrorMessages k) ∧
    (∀ a b, a ≠ b → MapLibError val (val a) ≠ MapLibError val (val b)) ∧
    (∀ (err : Int) k, toUint32 err = val k → MapLibError val err = some (libErrorMessages k)) ∧
    (∀ err : Int, (∀ k, val k ≠ toUint32 err) →
      MapLibError val err = some ("unknown error: " ++ toString err)) := by
  refine ⟨MapLibError_of_key val hv, ?_, ?_, ?_, MapLibError_of_absent val⟩
  · intro k
    exact ⟨libErrorMessages_no_percent k,
      Errorf0_of_no_percent _ (libErrorMessages_no_percent k)⟩
  · intro a b hab hEq
    rw [MapLibError_of_key val hv a, MapLibError_of_key val hv b] at hEq
    exact hab (libErrorMessages_injective (Option.some.inj hEq))
  · intro err k h
    exact MapLibError_of_trunc_key val hv k err h

theorem MapLibError_classification_witness :
    ValidCodes declOrder ∧
    MapLibError declOrder (declOrder LIB_INVALID_SESSION_STATE) = some "Invalid session state" ∧
    MapLibError declOrder 4294967302 = some "Invalid session state" ∧
    MapLibError declOrder 26 = some "unknown error: 26" :=
  ⟨validCodes_declOrder,
    (MapLibError_classification declOrder validCodes_declOrder).1 LIB_INVALID_SESSION_STATE,
    (MapLibError_classification declOrder validCodes_declOrder).2.2.2.1 4294967302
      LIB_INVALID_SESSION_STATE (by decide),
    (MapLibError_classification declOrder validCodes_declOrder).2.2.2.2 26
      (by intro k; cases k <;> decide)⟩

/-! ## The cgo wrappers -/

theorem returnHandle_translates {σ κ η : Type} (lib : SchnorrLib σ κ η) (r : Nat × Int × σ) :
    TranslatesCode lib.val 0 r.1 (returnHandle lib r).1 := by
  unfold TranslatesCode returnHandle
  by_cases h : r.1 = 0
  · simp [h]
  · simp [h, MapLibError_ne_none]

theorem returnBytes_translates {σ κ η : Type} (lib : SchnorrLib σ κ η) (r : Nat × TssBuffer × σ) :
    (r.1 ≠ 0 → (returnBytes lib r).1 = some (none, MapLibError lib.val (r.1 : Int))) ∧
    (∀ ret, (returnBytes lib r).1 = some ret → TranslatesCode lib.val none r.1 ret) := by
  unfold TranslatesCode returnBytes
  by_cases h : r.1 = 0
  · simp only [h, ne_eq, not_true_eq_false, if_false, false_implies, true_and]
    intro ret hret
    cases hc : CGoBytes (lib.mem r.2.2) r.2.1.ptr (toCInt r.2.1.len) with
    | none => simp [hc] at hret
    | some b =>
      simp [hc] at hret
      subst hret
      simp
  · simp only [h, ne_eq, not_false_eq_true, if_true, true_implies, true_and]
    intro ret hret
    simp at hret
    subst hret
    simp [MapLibError_ne_none]

theorem returnBytes_buffer {σ κ η : Type} (lib : SchnorrLib σ κ η) (r : Nat × TssBuffer × σ) :
    TranslatesBuffer lib.val none r.1 r.2.1.len (returnBytes lib r).1 := by
  refine ⟨(returnBytes_translates lib r).1, ?_, ?_, (returnBytes_translates lib r).2⟩
  · intro hc hlen
    unfold returnBytes CGoBytes
    rw [if_neg (not_not.mpr hc), if_neg (not_lt.mpr hlen)]
    exact ⟨_, rfl⟩
  · intro hc hlen
    unfold returnBytes CGoBytes
    rw [if_neg (not_not.mpr hc), if_pos hlen]
    rfl

theorem receiver_buffer {σ κ η : Type} (lib : SchnorrLib σ κ η) (session : Handle)
    (message : GoBytes) (index : Nat) (s : σ) :
    TranslatesBuffer lib.val ""
      (lib.schnorr_keygen_session_message_receiver (lib.cHandle session) (lib.cGoSlice message)
        (toUint32 index) s).1
      (lib.schnorr_keygen_session_message_receiver (lib.cHandle session) (lib.cGoSlice message)
        (toUint32 index) s).2.1.len
      (SchnorrKeygenSessionMessageReceiver lib session message index s).1 := by
  have key : ∀ r : Nat × TssBuffer × σ, TranslatesBuffer lib.val "" r.1 r.2.1.len
      (if r.1 ≠ 0 then
        (some ("", MapLibError lib.val (r.1 : Int)), lib.tss_buffer_free r.2.1 r.2.2)
      else if r.2.1.len = 0 then
        (some ("", (none : GoError)), lib.tss_buffer_free r.2.1 r.2.2)
      else
        ((CGoBytes (lib.mem r.2.2) r.2.1.ptr (toCInt r.2.1.len)).map
            (fun buf => (goString buf, (none : GoError))),
          lib.tss_buffer_free r.2.1 r.2.2)).1 := by
    intro r
    have h0 : toCInt 0 = 0 := by decide
    by_cases hc : r.1 = 0
    · rw [if_neg (not_not.mpr hc)]
      by_cases hl : r.2.1.len = 0
      · rw [if_pos hl]
        refine ⟨fun h => absurd hc h, fun _ _ => ⟨"", rfl⟩, ?_, ?_⟩
        · intro _ hneg
          rw [hl, h0] at hneg
          exact absurd hneg (by decide)
        · intro ret hret
          have hr : ret = ("", none) := (Option.some.inj hret).symm
          subst hr
          simp [TranslatesCode, hc]
      · rw [if_neg hl]
        unfold CGoBytes
        by_cases hneg : toCInt r.2.1.len < 0
        · rw [if_pos hneg]
          refine ⟨fun h => absurd hc h, fun _ hpos => absurd hneg (not_lt.mpr hpos),
            fun _ _ => rfl, ?_⟩
          intro ret hret
          cases hret
        · rw [if_neg hneg]
          refine ⟨fun h => absurd hc h, fun _ _ => ⟨_, rfl⟩, fun _ h => absurd h hneg, ?_⟩
          intro ret hret
          have hr := (Option.some.inj hret).symm
          subst hr
          simp [TranslatesCode, hc]
    · rw [if_pos hc]
      refine ⟨fun _ => rfl, fun h => absurd h hc, fun h => absurd h hc, ?_⟩
      intro ret hret
      have hr : ret = ("", MapLibError lib.val (r.1 : Int)) := (Option.some.inj hret).symm
      subst hr
      simp [TranslatesCode, hc, MapLibError_ne_none]
  exact key _

theorem stringBytes_pin (id : String) (hid : id ≠ "") :
    ∃ p, pinFirst (stringBytes id) ⟨[]⟩ = some (stringBytes id, p) := by
  unfold stringBytes
  cases hd : id.data with
  | nil =>
    exfalso
    apply hid
    apply String.ext
    rw [hd]
  | cons c cs => exact ⟨_, rfl⟩

/-- C9 (as stated, refuted): the engine answers SchnorrSignSessionFinish with
code 0 and a buffer of len 2147483648; `C.int(len)` is -2147483648,
`C.GoBytes` panics, and the wrapper returns nothing: for this input the code
is 0 and no nil error is returned. -/
theorem SchnorrSignSessionFinish_panics_on_code_zero :
    ((fixedLib 0 0 ⟨0, 2147483648⟩).schnorr_sign_session_finish
      ((fixedLib 0 0 ⟨0, 2147483648⟩).cHandle 5) 0).1 = 0 ∧
    toCInt 2147483648 = -2147483648 ∧
    (SchnorrSignSessionFinish (fixedLib 0 0 ⟨0, 2147483648⟩) 5 0).1 = none ∧
    ¬ ∃ ret : GoBytes × GoError,
      (SchnorrSignSessionFinish (fixedLib 0 0 ⟨0, 2147483648⟩) 5 0).1 = some ret ∧
      ret.2 = none := by
  have hnone : (SchnorrSignSessionFinish (fixedLib 0 0 ⟨0, 2147483648⟩) 5 0).1 = none := by
    decide
  refine ⟨by decide, by decide, hnone, ?_⟩
  rintro ⟨ret, hret, _⟩
  rw [hnone] at hret
  cases hret

/-- C9 (amended): SchnorrKeygenSessionFinish, SchnorrSignSessionFromSetup,
SchnorrKeyshareFromBytes, SchnorrSignSessionFree and
SchnorrKeygenSessionInputMessage return for every library, state and marshalled
input; the returned error is non-nil exactly when the engine's code is
non-zero; it is then MapLibError(code) and the value is the zero value
(Handle 0, false); for code 0 the error is nil. SchnorrKeyshareToBytes,
SchnorrSignSessionFinish, SchnorrDecodeMessage and
SchnorrKeygenSessionMessageReceiver copy an engine buffer with
`C.GoBytes(ptr, C.int(len))`: for a non-zero code they return the zero value
(nil, "") and MapLibError(code); for code 0 they return a nil error when
`C.int(len)` is not negative and panic, returning nothing, when it is; every
pair they return obeys the same contract. SchnorrKeyImporterNew panics before
the engine is called when the id is empty, leaving the engine untouched; for
any other id it returns and obeys the contract of the handle wrappers. -/
theorem wrappers_translate_code {σ κ η : Type} (lib : SchnorrLib σ κ η) (s : σ)
    (session share : Handle) (setup id buf message : GoBytes) (index : Nat)
    (schnorr_key_importer_new : κ → CSlice → σ → Nat × Int × σ) (name : String) :
    TranslatesCode lib.val 0 (lib.schnorr_keygen_session_finish (lib.cHandle session) s).1
      (SchnorrKeygenSessionFinish lib session s).1 ∧
    TranslatesCode lib.val 0
      (lib.schnorr_sign_session_from_setup (lib.cGoSlice setup) (lib.cGoSlice id)
        (lib.cHandle share) s).1
      (SchnorrSignSessionFromSetup lib setup id share s).1 ∧
    TranslatesCode lib.val 0 (lib.schnorr_keyshare_from_bytes (lib.cGoSlice buf) s).1
      (SchnorrKeyshareFromBytes lib buf s).1 ∧
    TranslatesCode lib.val () (lib.schnorr_sign_session_free (lib.cHandle session) s).1
      ((), (SchnorrSignSessionFree lib session s).1) ∧
    TranslatesCode lib.val false
      (lib.schnorr_keygen_session_input_message (lib.cHandle session) (lib.cGoSlice message) s).1
      (SchnorrKeygenSessionInputMessage lib session message s).1 ∧
    TranslatesBuffer lib.val none (lib.schnorr_keyshare_to_bytes (lib.cHandle share) s).1
      (lib.schnorr_keyshare_to_bytes (lib.cHandle share) s).2.1.len
      (SchnorrKeyshareToBytes lib share s).1 ∧
    TranslatesBuffer lib.val none (lib.schnorr_sign_session_finish (lib.cHandle session) s).1
      (lib.schnorr_sign_session_finish (lib.cHandle session) s).2.1.len
      (SchnorrSignSessionFinish lib session s).1 ∧
    TranslatesBuffer lib.val none (lib.schnorr_decode_message (lib.cGoSlice setup) s).1
      (lib.schnorr_decode_message (lib.cGoSlice setup) s).2.1.len
      (SchnorrDecodeMessage lib setup s).1 ∧
    TranslatesBuffer lib.val ""
      (lib.schnorr_keygen_session_message_receiver (lib.cHandle session) (lib.cGoSlice message)
        (toUint32 index) s).1
      (lib.schnorr_keygen_session_message_receiver (lib.cHandle session) (lib.cGoSlice message)
        (toUint32 index) s).2.1.len
      (SchnorrKeygenSessionMessageReceiver lib session message index s).1 ∧
    SchnorrKeyImporterNew lib schnorr_key_importer_new setup "" s = (none, s) ∧
    (name ≠ "" → ∃ ret,
      (SchnorrKeyImporterNew lib schnorr_key_importer_new setup name s).1 = some ret ∧
      TranslatesCode lib.val 0
        (schnorr_key_importer_new (lib.cGoSlice setup) (stringBytes name) s).1 ret) := by
  refine ⟨returnHandle_translates lib _, returnHandle_translates lib _,
    returnHandle_translates lib _, ?_, ?_, returnBytes_buffer lib _, returnBytes_buffer lib _,
    returnBytes_buffer lib _, receiver_buffer lib session message index s, rfl, ?_⟩
  · unfold TranslatesCode SchnorrSignSessionFree
    by_cases h : (lib.schnorr_sign_session_free (lib.cHandle session) s).1 = 0
    · simp [h]
    · simp [h, MapLibError_ne_none]
  · unfold TranslatesCode SchnorrKeygenSessionInputMessage
    by_cases h : (lib.schnorr_keygen_session_input_message (lib.cHandle session)
        (lib.cGoSlice message) s).1 = 0
    · simp [h]
    · simp [h, MapLibError_ne_none]
  · intro hname
    obtain ⟨p, hp⟩ := stringBytes_pin name hname
    unfold SchnorrKeyImporterNew
    rw [hp]
    exact ⟨_, rfl, returnHandle_translates lib _⟩

theorem toCInt_of_lt (n : Nat) (h : n < 2147483648) : toCInt n = (n : Int) := by
  unfold toCInt
  have h1 : n % 4294967296 = n := Nat.mod_eq_of_lt (by omega)
  rw [h1, if_pos h]

theorem returnBytes_copy {σ κ η : Type} (lib : SchnorrLib σ κ η) (r : Nat × TssBuffer × σ)
    (hcode : r.1 = 0) (hlen : r.2.1.len < 2147483648) :
    returnBytes lib r =
      (some (some (bufferBytes lib r.2.2 r.2.1), none), lib.tss_buffer_free r.2.1 r.2.2) := by
  unfold returnBytes CGoBytes bufferBytes
  rw [toCInt_of_lt _ hlen]
  simp [hcode]

theorem bufferBytes_length {σ κ η : Type} (lib : SchnorrLib σ κ η) (s : σ) (buf : TssBuffer) :
    (bufferBytes lib s buf).length = buf.len := by
  simp [bufferBytes]

theorem bufferBytes_get {σ κ η : Type} (lib : SchnorrLib σ κ η) (s : σ) (buf : TssBuffer)
    (i : Nat) (h : i < buf.len) :
    (bufferBytes lib s buf)[i]? = some (lib.mem s (buf.ptr + i)) := by
  simp [bufferBytes, List.getElem?_map, List.getElem?_range h]

/-- C10 (as stated, refuted): the engine answers SchnorrKeyshareToBytes with
code 0 and a buffer of len 4294967297 at address 10; the wrapper passes
`C.int(len)` = 1 to `C.GoBytes` and returns a slice of length 1, not of
length 4294967297. (With len 2147483648 the converted length is negative and
the wrapper returns nothing at all: `C.GoBytes` panics.) -/
theorem SchnorrKeyshareToBytes_truncates_len :
    (fixedLib 0 0 ⟨10, 4294967297⟩).schnorr_keyshare_to_bytes 5 0 = (0, ⟨10, 4294967297⟩, 1) ∧
    (SchnorrKeyshareToBytes (fixedLib 0 0 ⟨10, 4294967297⟩) 5 0).1 = some (some [10], none) ∧
    GoBytes.len (some [10]) ≠ 4294967297 ∧
    (SchnorrKeyshareToBytes (fixedLib 0 0 ⟨10, 2147483648⟩) 5 0).1 = none := by
  decide

/-- C10 (amended): for SchnorrKeyshareToBytes, SchnorrSignSessionFinish and
SchnorrDecodeMessage, when the engine returns code 0 and the buffer's len is
below 2^31, the wrapper returns, with a nil error, a non-nil slice whose
length is the buffer's len and whose i-th byte is the i-th byte of the buffer
as it was before `tss_buffer_free` ran; the deferred free has then been applied
to the engine state, whatever it does to the buffer. -/
theorem byte_wrappers_copy {σ κ η : Type} (lib : SchnorrLib σ κ η) (s : σ)
    (share session : Handle) (setup : GoBytes) :
    (∀ r, r = lib.schnorr_keyshare_to_bytes (lib.cHandle share) s → r.1 = 0 →
      r.2.1.len < 2147483648 →
      ∃ bs, SchnorrKeyshareToBytes lib share s =
          (some (some bs, none), lib.tss_buffer_free r.2.1 r.2.2) ∧
        bs.length = r.2.1.len ∧
        ∀ i, i < r.2.1.len → bs[i]? = some (lib.mem r.2.2 (r.2.1.ptr + i))) ∧
    (∀ r, r = lib.schnorr_sign_session_finish (lib.cHandle session) s → r.1 = 0 →
      r.2.1.len < 2147483648 →
      ∃ bs, SchnorrSignSessionFinish lib session s =
          (some (some bs, none), lib.tss_buffer_free r.2.1 r.2.2) ∧
        bs.length = r.2.1.len ∧
        ∀ i, i < r.2.1.len → bs[i]? = some (lib.mem r.2.2 (r.2.1.ptr + i))) ∧
    (∀ r, r = lib.schnorr_decode_message (lib.cGoSlice setup) s → r.1 = 0 →
      r.2.1.len < 2147483648 →
      ∃ bs, SchnorrDecodeMessage lib setup s =
          (some (some bs, none), lib.tss_buffer_free r.2.1 r.2.2) ∧
        bs.length = r.2.1.len ∧
        ∀ i, i < r.2.1.len → bs[i]? = some (lib.mem r.2.2 (r.2.1.ptr + i))) := by
  refine ⟨?_, ?_, ?_⟩ <;>
  · intro r hr hcode hlen
    refine ⟨bufferBytes lib r.2.2 r.2.1, ?_, bufferBytes_length lib _ _,
      fun i hi => bufferBytes_get lib _ _ i hi⟩
    subst hr
    exact returnBytes_copy lib _ hcode hlen

theorem byte_wrappers_copy_witness :
    ((fixedLib 0 0 ⟨10, 3⟩).schnorr_keyshare_to_bytes 5 0).1 = 0 ∧
    ((fixedLib 0 0 ⟨10, 3⟩).schnorr_keyshare_to_bytes 5 0).2.1.len < 2147483648 ∧
    ∃ bs, SchnorrKeyshareToBytes (fixedLib 0 0 ⟨10, 3⟩) 5 0 = (some (some bs, none), 2) ∧
      bs.length = 3 ∧ ∀ i, i < 3 → bs[i]? = some ((10 + i) % 256) :=
  ⟨rfl, by decide,
    (byte_wrappers_copy (fixedLib 0 0 ⟨10, 3⟩) 0 5 5 none).1 _ rfl rfl (by decide)⟩


/-! ## The router loops: invariants -/

section RouterInvariant

variable {σ γ ρ : Type} {tests : LoopTests γ} {api : SessionApi σ γ ρ}
  {S : Participant → Prop} {P : Option (Handle × GoBytes) → LoopState σ γ ρ → Prop}
  {Q : String → LoopState σ γ ρ → Prop}

theorem callInput_msgq (api : SessionApi σ γ ρ) (session : Handle) (msg : GoBytes)
    (st : LoopState σ γ ρ) : (callInput api session msg st).2.msgq = st.msgq := rfl

theorem callFinish_msgq (api : SessionApi σ γ ρ) (session : Handle)
    (st : LoopState σ γ ρ) : (callFinish api session st).2.msgq = st.msgq := rfl

theorem resolveRecipients_outcome (inv : DrainInvariant tests api S P Q) (p : Participant)
    (hs : S p) (buf : GoBytes) (remaining idx : Nat) (st : LoopState σ γ ρ)
    (h : P (some (p.Session, buf)) st) :
    PhaseOutcome (P (some (p.Session, buf))) Q
      (resolveRecipients tests api p.Session buf remaining idx st) := by
  induction remaining generalizing idx st with
  | zero => exact h
  | succ k ih =>
    have hr := inv.receiver st p buf idx hs h
    unfold resolveRecipients
    generalize callReceiver api p.Session buf idx st = r at hr
    obtain ⟨⟨name, err⟩, st1⟩ := r
    cases err with
    | some e => exact hr.1 e rfl
    | none =>
      simp only
      cases hd : tests.receiverDone name with
      | true => simpa using hr.2.1 rfl hd
      | false => simpa using ih _ _ (hr.2.2 rfl hd)

theorem drainSession_outcome (inv : DrainInvariant tests api S P Q) (n : Nat) (p : Participant)
    (hs : S p) (fuel : Nat) (st : LoopState σ γ ρ) (h : ∃ cur, P cur st) :
    PhaseOutcome (fun st1 => ∃ cur, P cur st1) Q (drainSession tests api n p.Session fuel st) := by
  induction fuel generalizing st with
  | zero => exact h
  | succ k ih =>
    obtain ⟨cur, h⟩ := h
    have ho := inv.output cur st p hs h
    unfold drainSession
    generalize callOutput api p.Session st = r at ho
    obtain ⟨⟨buf, err⟩, st1⟩ := r
    cases err with
    | some e => exact ho.1 e rfl
    | none =>
      simp only
      have h1 : P (some (p.Session, buf)) st1 := ho.2 rfl
      cases hd : tests.outputDone buf with
      | true =>
        simp only [if_true]
        exact ⟨_, h1⟩
      | false =>
        have hr := resolveRecipients_outcome inv p hs buf n 0 st1 h1
        simp only [Bool.false_eq_true, if_false]
        generalize resolveRecipients tests api p.Session buf n 0 st1 = r2 at hr
        obtain ⟨x, st2⟩ := r2
        cases x with
        | some x =>
          cases x with
          | error e => exact hr
          | fuel => exact ⟨_, hr⟩
        | none => exact ih st2 ⟨_, hr⟩

theorem drainAll_outcome (inv : DrainInvariant tests api S P Q) (n fuel : Nat)
    (ps : List Participant) (hps : ∀ p ∈ ps, S p) (st : LoopState σ γ ρ)
    (h : ∃ cur, P cur st) :
    PhaseOutcome (fun st1 => ∃ cur, P cur st1) Q (drainAll tests api n fuel ps st) := by
  induction ps generalizing st with
  | nil => exact h
  | cons p rest ih =>
    have hd := drainSession_outcome inv n p (hps p (List.mem_cons_self _ _)) fuel st h
    unfold drainAll
    generalize drainSession tests api n p.Session fuel st = r at hd
    obtain ⟨x, st1⟩ := r
    cases x with
    | some x => exact hd
    | none => exact ih (fun q hq => hps q (List.mem_cons_of_mem _ hq)) st1 hd

theorem feedSession_outcome (inv : FeedInvariant api S P Q) (p : Participant)
    (hs : S p) (msgs : List GoBytes) (st : LoopState σ γ ρ)
    (hm : ∀ m ∈ msgs, m ∈ st.msgq p.ID) (h : ∃ cur, P cur st) :
    PhaseOutcome (fun st1 => ∃ cur, P cur st1) Q (feedSession api p.Session msgs st) := by
  induction msgs generalizing st with
  | nil => exact h
  | cons msg rest ih =>
    obtain ⟨cur, h⟩ := h
    have hi := inv.input cur st p msg hs (hm msg (List.mem_cons_self _ _)) h
    have hq := callInput_msgq api p.Session msg st
    unfold feedSession
    generalize callInput api p.Session msg st = r at hi hq
    obtain ⟨⟨fin, err⟩, st1⟩ := r
    have hm1 : ∀ m ∈ rest, m ∈ st1.msgq p.ID := fun m hmem => by
      simp only at hq
      rw [hq]
      exact hm m (List.mem_cons_of_mem _ hmem)
    cases err with
    | some e => cases fin <;> exact hi.1 e rfl
    | none =>
      have h1 : P none st1 := hi.2 rfl
      cases fin with
      | false => exact ih st1 hm1 ⟨_, h1⟩
      | true =>
        have hf := inv.finish st1 p hs h1
        have hq2 := callFinish_msgq api p.Session st1
        simp only
        generalize callFinish api p.Session st1 = r2 at hf hq2
        obtain ⟨⟨share, err2⟩, st2⟩ := r2
        cases err2 with
        | some e => exact hf.1 e rfl
        | none =>
          refine ih _ (fun m hmem => ?_) ⟨_, hf.2 rfl⟩
          simp only at hq2
          simp only [hq2]
          exact hm1 m hmem

theorem feedAll_outcome (inv : FeedInvariant api S P Q)
    (ps : List Participant) (hps : ∀ p ∈ ps, S p) (st : LoopState σ γ ρ)
    (h : ∃ cur, P cur st) :
    PhaseOutcome (fun st1 => ∃ cur, P cur st1) Q (feedAll api ps st) := by
  induction ps generalizing st with
  | nil => exact h
  | cons p rest ih =>
    have hd := feedSession_outcome inv p (hps p (List.mem_cons_self _ _))
      (st.msgq p.ID) st (fun _ hm => hm) h
    unfold feedAll
    generalize feedSession api p.Session (st.msgq p.ID) st = r at hd
    obtain ⟨x, st1⟩ := r
    cases x with
    | some x => exact hd
    | none => exact ih (fun q hq => hps q (List.mem_cons_of_mem _ hq)) st1 hd

theorem pass_outcome (inv : StepInvariant tests api S P Q) (parties : List Participant)
    (hps : ∀ p ∈ parties, S p) (fuel : Nat) (st : LoopState σ γ ρ) (h : ∃ cur, P cur st) :
    PhaseOutcome (fun st1 => ∃ cur, P cur st1) Q (pass tests api parties fuel st) := by
  have hd := drainAll_outcome inv.drain parties.length fuel parties hps st h
  unfold pass
  generalize drainAll tests api parties.length fuel parties st = r at hd
  obtain ⟨x, st1⟩ := r
  cases x with
  | some x => exact hd
  | none => exact feedAll_outcome inv.feed parties hps st1 hd

theorem routerLoop_outcome (inv : StepInvariant tests api S P Q) (parties : List Participant)
    (hps : ∀ p ∈ parties, S p) (fuel passes : Nat) (st : LoopState σ γ ρ)
    (h : ∃ cur, P cur st) :
    LoopOutcome parties.length (fun st1 => ∃ cur, P cur st1) Q
      (routerLoop tests api parties fuel passes st) := by
  induction passes generalizing st with
  | zero =>
    unfold routerLoop
    split
    · next hlen => exact ⟨h, rfl, hlen⟩
    · exact h
  | succ k ih =>
    unfold routerLoop
    split
    · next hlen => exact ⟨h, rfl, hlen⟩
    · have hp := pass_outcome inv parties hps fuel st h
      generalize pass tests api parties fuel st = r at hp
      obtain ⟨x, st1⟩ := r
      cases x with
      | none => exact ih st1 hp
      | some x =>
        cases x with
        | error e => exact hp
        | fuel => exact hp

end RouterInvariant


/-! ## The router loops: errors, results, frees -/

section RouterResults

variable {σ γ ρ : Type}

theorem callOutput_trace (api : SessionApi σ γ ρ) (session : Handle) (st : LoopState σ γ ρ) :
    (callOutput api session st).2.trace =
      st.trace ++ [Event.output session (callOutput api session st).1.1
        (callOutput api session st).1.2] := rfl

theorem callReceiver_trace (api : SessionApi σ γ ρ) (session : Handle) (buf : GoBytes)
    (idx : Nat) (st : LoopState σ γ ρ) :
    (callReceiver api session buf idx st).2.trace =
      st.trace ++ [Event.receiver session buf idx (callReceiver api session buf idx st).1.1
        (callReceiver api session buf idx st).1.2] := rfl

theorem callInput_trace (api : SessionApi σ γ ρ) (session : Handle) (msg : GoBytes)
    (st : LoopState σ γ ρ) :
    (callInput api session msg st).2.trace =
      st.trace ++ [Event.input session msg (callInput api session msg st).1.1
        (callInput api session msg st).1.2] := rfl

theorem callFinish_trace (api : SessionApi σ γ ρ) (session : Handle) (st : LoopState σ γ ρ) :
    (callFinish api session st).2.trace =
      st.trace ++ [Event.finish session (callFinish api session st).1.1
        (callFinish api session st).1.2] := rfl

theorem noError_invariant (tests : LoopTests γ) (api : SessionApi σ γ ρ) :
    StepInvariant tests api (fun _ => True) (fun _ => NoError) EndsWithError := by
  refine ⟨⟨?_, ?_⟩, ⟨?_, ?_⟩⟩
  · intro cur st p _ h
    refine ⟨fun err he => ⟨st.trace, _, callOutput_trace api p.Session st, h, he⟩, fun he => ?_⟩
    intro ev hev
    rw [callOutput_trace, List.mem_append, List.mem_singleton] at hev
    rcases hev with hev | hev
    · exact h ev hev
    · rw [hev]; exact he
  · intro st p buf idx _ h
    have key : (callReceiver api p.Session buf idx st).1.2 = none →
        NoError (callReceiver api p.Session buf idx st).2 := by
      intro he ev hev
      rw [callReceiver_trace, List.mem_append, List.mem_singleton] at hev
      rcases hev with hev | hev
      · exact h ev hev
      · rw [hev]; exact he
    exact ⟨fun err he => ⟨st.trace, _, callReceiver_trace api p.Session buf idx st, h, he⟩,
      fun he _ => key he, fun he _ => key he⟩
  · intro cur st p msg _ _ h
    refine ⟨fun err he => ⟨st.trace, _, callInput_trace api p.Session msg st, h, he⟩,
      fun he => ?_⟩
    intro ev hev
    rw [callInput_trace, List.mem_append, List.mem_singleton] at hev
    rcases hev with hev | hev
    · exact h ev hev
    · rw [hev]; exact he
  · intro st p _ h
    refine ⟨fun err he => ⟨st.trace, _, callFinish_trace api p.Session st, h, he⟩, fun he => ?_⟩
    intro ev hev
    have hev2 : ev ∈ (callFinish api p.Session st).2.trace := hev
    rw [callFinish_trace, List.mem_append, List.mem_singleton] at hev2
    rcases hev2 with hev2 | hev2
    · exact h ev hev2
    · rw [hev2]; exact he

theorem error_is_last (tests : LoopTests γ) (api : SessionApi σ γ ρ)
    (parties : List Participant) (fuel passes : Nat) (eng : σ)
    (pre post : List (Event γ ρ)) (ev : Event γ ρ)
    (htr : (routerLoop tests api parties fuel passes (initState eng)).2.trace = pre ++ ev :: post)
    (hev : ev.err ≠ none) :
    post = [] ∧
    (routerLoop tests api parties fuel passes (initState eng)).1 =
      LoopResult.returned none ev.err := by
  have hout := routerLoop_outcome (noError_invariant tests api) parties (fun _ _ => trivial)
    fuel passes (initState eng) ⟨none, fun _ h => by simp [initState] at h⟩
  generalize routerLoop tests api parties fuel passes (initState eng) = out at hout htr
  obtain ⟨res, st⟩ := out
  simp only at htr
  have clean : (∃ cur : Option (Handle × GoBytes), NoError st) → False := by
    rintro ⟨_, hc⟩
    exact hev (hc ev (by rw [htr]; simp))
  cases res with
  | outOfFuel => exact (clean hout).elim
  | returned sh err =>
    cases sh with
    | some sh =>
      cases err with
      | none => exact (clean hout.1).elim
      | some e => exact hout.elim
    | none =>
      cases err with
      | none => exact hout.elim
      | some e =>
        obtain ⟨pre2, ev2, htr2, hpre2, hev2⟩ := hout
        rw [htr] at htr2
        rcases List.eq_nil_or_concat post with hp | ⟨post2, z, hp⟩
        · subst hp
          have := List.append_inj' htr2 rfl
          have hEq : ev = ev2 := by simpa using this.2
          subst hEq
          exact ⟨rfl, by rw [hev2]⟩
        · subst hp
          have h2 : (pre ++ ev :: post2) ++ [z] = pre2 ++ [ev2] := by
            simpa using htr2
          have := List.append_inj' h2 rfl
          exact (hev (hpre2 ev (by rw [← this.1]; simp))).elim

end RouterResults


section RouterProperties

variable {σ γ ρ : Type}

theorem sharesFromFinish_invariant (tests : LoopTests γ) (api : SessionApi σ γ ρ)
    (S : Participant → Prop) :
    StepInvariant tests api S
      (fun _ => SharesFromFinish (fun s => ∃ p, S p ∧ p.Session = s))
      (fun _ _ => True) := by
  refine ⟨⟨?_, ?_⟩, ⟨?_, ?_⟩⟩
  · intro cur st p hp h
    refine ⟨fun _ _ => trivial, fun _ => ⟨?_, ?_⟩⟩
    · rw [callOutput_trace, List.filterMap_append]
      simpa [finishedShare] using h.1
    · intro ev hev
      rw [callOutput_trace, List.mem_append, List.mem_singleton] at hev
      rcases hev with hev | hev
      · exact h.2 ev hev
      · rw [hev]; exact ⟨p, hp, rfl⟩
  · intro st p buf idx hp h
    have key : SharesFromFinish (fun s => ∃ p, S p ∧ p.Session = s)
        (callReceiver api p.Session buf idx st).2 := by
      refine ⟨?_, ?_⟩
      · rw [callReceiver_trace, List.filterMap_append]
        simpa [finishedShare] using h.1
      · intro ev hev
        rw [callReceiver_trace, List.mem_append, List.mem_singleton] at hev
        rcases hev with hev | hev
        · exact h.2 ev hev
        · rw [hev]; exact ⟨p, hp, rfl⟩
    exact ⟨fun _ _ => trivial, fun _ _ => key, fun _ _ => key⟩
  · intro cur st p msg hp _ h
    refine ⟨fun _ _ => trivial, fun _ => ⟨?_, ?_⟩⟩
    · rw [callInput_trace, List.filterMap_append]
      simpa [finishedShare] using h.1
    · intro ev hev
      rw [callInput_trace, List.mem_append, List.mem_singleton] at hev
      rcases hev with hev | hev
      · exact h.2 ev hev
      · rw [hev]; exact ⟨p, hp, rfl⟩
  · intro st p hp h
    refine ⟨fun _ _ => trivial, fun he => ⟨?_, ?_⟩⟩
    · show (callFinish api p.Session st).2.shares ++ [(callFinish api p.Session st).1.1] =
        List.filterMap finishedShare (callFinish api p.Session st).2.trace
      rw [callFinish_trace, List.filterMap_append, he]
      have hs : (callFinish api p.Session st).2.shares = st.shares := rfl
      rw [hs, h.1]
      simp [finishedShare]
    · intro ev hev
      have hev2 : ev ∈ (callFinish api p.Session st).2.trace := hev
      rw [callFinish_trace, List.mem_append, List.mem_singleton] at hev2
      rcases hev2 with hev2 | hev2
      · exact h.2 ev hev2
      · rw [hev2]; exact ⟨p, hp, rfl⟩

theorem neverFreed_invariant (tests : LoopTests γ) (api : SessionApi σ γ ρ) :
    StepInvariant tests api (fun _ => True) (fun _ => NeverFreed) (fun _ => NeverFreed) := by
  have step : ∀ (tr : List (Event γ ρ)) (e : Event γ ρ), (∀ ev ∈ tr, ev.isFree = false) →
      e.isFree = false → ∀ ev ∈ tr ++ [e], ev.isFree = false := by
    intro tr e h he ev hev
    rw [List.mem_append, List.mem_singleton] at hev
    rcases hev with hev | hev
    · exact h ev hev
    · rw [hev]; exact he
  refine ⟨⟨?_, ?_⟩, ⟨?_, ?_⟩⟩
  · intro cur st p _ h
    exact ⟨fun _ _ => step _ _ h rfl, fun _ => step _ _ h rfl⟩
  · intro st p buf idx _ h
    exact ⟨fun _ _ => step _ _ h rfl, fun _ _ => step _ _ h rfl, fun _ _ => step _ _ h rfl⟩
  · intro cur st p msg _ _ h
    exact ⟨fun _ _ => step _ _ h rfl, fun _ => step _ _ h rfl⟩
  · intro st p _ h
    exact ⟨fun _ _ => step _ _ h rfl, fun _ => step _ _ h rfl⟩

theorem routerLoop_never_frees (tests : LoopTests γ) (api : SessionApi σ γ ρ)
    (parties : List Participant) (fuel passes : Nat) (eng : σ) :
    NeverFreed (routerLoop tests api parties fuel passes (initState eng)).2 := by
  have hout := routerLoop_outcome (neverFreed_invariant tests api) parties (fun _ _ => trivial)
    fuel passes (initState eng) ⟨none, fun _ h => by simp [initState] at h⟩
  generalize routerLoop tests api parties fuel passes (initState eng) = out at hout
  obtain ⟨res, st⟩ := out
  cases res with
  | outOfFuel =>
    obtain ⟨_, hn⟩ := hout
    exact hn
  | returned sh err =>
    cases sh with
    | some sh =>
      cases err with
      | none =>
        obtain ⟨⟨_, hn⟩, _⟩ := hout
        exact hn
      | some e => exact hout.elim
    | none =>
      cases err with
      | none => exact hout.elim
      | some e => exact hout

theorem routerLoop_returns_finish_results (tests : LoopTests γ) (api : SessionApi σ γ ρ)
    (parties : List Participant) (fuel passes : Nat) (eng : σ) (shares : Option (List ρ))
    (st : LoopState σ γ ρ)
    (h : routerLoop tests api parties fuel passes (initState eng) =
      (LoopResult.returned shares none, st)) :
    ∃ sh, shares = some sh ∧ sh.length = parties.length ∧
      sh = st.trace.filterMap finishedShare ∧
      ∀ x ∈ sh, ∃ p ∈ parties, Event.finish p.Session x none ∈ st.trace := by
  have hout := routerLoop_outcome (sharesFromFinish_invariant tests api (fun p => p ∈ parties))
    parties (fun _ hp => hp) fuel passes (initState eng)
    ⟨none, rfl, fun _ hev => by simp [initState] at hev⟩
  rw [h] at hout
  cases shares with
  | none => exact hout.elim
  | some sh =>
    obtain ⟨⟨_, hsh, hS⟩, hEq, hlen⟩ := hout
    refine ⟨sh, rfl, hlen, by rw [hEq, hsh], ?_⟩
    intro x hx
    rw [hEq, hsh, List.mem_filterMap] at hx
    obtain ⟨ev, hev, hfx⟩ := hx
    obtain ⟨p, hp, hps⟩ := hS ev hev
    refine ⟨p, hp, ?_⟩
    cases ev with
    | finish s r e =>
      cases e with
      | none =>
        simp only [finishedShare, Option.some.injEq] at hfx
        subst hfx
        simp only [Event.session] at hps
        rw [hps]
        exact hev
      | some e => simp [finishedShare] at hfx
    | output _ _ _ => simp [finishedShare] at hfx
    | receiver _ _ _ _ _ => simp [finishedShare] at hfx
    | input _ _ _ _ => simp [finishedShare] at hfx
    | free _ _ => simp [finishedShare] at hfx

/-- C4: whenever RunKeygenLoop returns with a nil error for a party list of
length n, the returned list is non-nil and holds exactly n handles; it is the
list of the results of the finish calls that returned no error, in call order,
and each of them was returned by a finish call on the session of one of the
parties. For the empty party list the loop returns the empty list at once:
the engine state is untouched and no call is logged. -/
theorem RunKeygenLoop_returns_keyshares (api : SessionApi σ String Handle) (fuel : Nat)
    (parties : List Participant) (eng : σ) :
    (∀ shares st, RunKeygenLoop api fuel parties eng = (LoopResult.returned shares none, st) →
      ∃ sh, shares = some sh ∧ sh.length = parties.length ∧
        sh = st.trace.filterMap finishedShare ∧
        ∀ x ∈ sh, ∃ p ∈ parties, Event.finish p.Session x none ∈ st.trace) ∧
    (RunKeygenLoop api fuel [] eng).1 = LoopResult.returned (some []) none ∧
    (RunKeygenLoop api fuel [] eng).2.eng = eng ∧
    (RunKeygenLoop api fuel [] eng).2.trace = [] := by
  refine ⟨fun shares st h =>
    routerLoop_returns_finish_results keygenTests api parties fuel fuel eng shares st h, ?_⟩
  cases fuel <;> simp [RunKeygenLoop, routerLoop, initState]

theorem RunKeygenLoop_returns_keyshares_witness :
    (RunKeygenLoop (scriptedApi ["p1"] 2) 3 [⟨1, "p1"⟩] (0, 0)).1 =
      LoopResult.returned (some [42]) none ∧
    ∃ sh, some [42] = some sh ∧ sh.length = [(⟨1, "p1"⟩ : Participant)].length ∧
      sh = (RunKeygenLoop (scriptedApi ["p1"] 2) 3 [⟨1, "p1"⟩] (0, 0)).2.trace.filterMap
        finishedShare ∧
      ∀ x ∈ sh, ∃ p ∈ [(⟨1, "p1"⟩ : Participant)], Event.finish p.Session x none ∈
        (RunKeygenLoop (scriptedApi ["p1"] 2) 3 [⟨1, "p1"⟩] (0, 0)).2.trace :=
  ⟨by decide,
    (RunKeygenLoop_returns_keyshares (scriptedApi ["p1"] 2) 3 [⟨1, "p1"⟩] (0, 0)).1
      (some [42]) _ (Prod.ext (by decide) rfl)⟩

/-- C5: in RunKeygenLoop and in runSignLoop, a wrapper call that returns an
error is the last call the loop makes, and the loop then returns nil together
with exactly that error: whenever the log of calls splits as
`pre ++ ev :: post` with `ev` a call that returned a non-nil error, `post` is
empty (no further call, no retry) and the result is (nil, that error). -/
theorem loops_return_first_error (fuel : Nat) (parties : List Participant) (eng : σ) :
    (∀ (api : SessionApi σ String Handle) pre ev post,
      (RunKeygenLoop api fuel parties eng).2.trace = pre ++ ev :: post → ev.err ≠ none →
      post = [] ∧ (RunKeygenLoop api fuel parties eng).1 = LoopResult.returned none ev.err) ∧
    (∀ (api : SessionApi σ GoBytes GoBytes) pre ev post,
      (runSignLoop api fuel parties eng).2.trace = pre ++ ev :: post → ev.err ≠ none →
      post = [] ∧ (runSignLoop api fuel parties eng).1 = LoopResult.returned none ev.err) :=
  ⟨fun api pre ev post h he =>
      error_is_last keygenTests api parties fuel fuel eng pre post ev h he,
    fun api pre ev post h he =>
      error_is_last signTests api parties fuel fuel eng pre post ev h he⟩

theorem loops_return_first_error_witness :
    (RunKeygenLoop failingApi 2 [⟨1, "p1"⟩, ⟨2, "p2"⟩] 0).2.trace =
      [] ++ Event.output 1 none (some "Invalid session state") :: [] ∧
    (Event.output 1 none (some "Invalid session state") : Event String Handle).err ≠ none ∧
    ([] : List (Event String Handle)) = [] ∧
    (RunKeygenLoop failingApi 2 [⟨1, "p1"⟩, ⟨2, "p2"⟩] 0).1 =
      LoopResult.returned none (some "Invalid session state") :=
  ⟨by decide, by decide,
    (loops_return_first_error 2 [⟨1, "p1"⟩, ⟨2, "p2"⟩] 0).1 failingApi []
      (Event.output 1 none (some "Invalid session state")) [] (by decide) (by decide)⟩

/-- C3 (evaluation at the failing input): one party whose first input call
reports finished. RunKeygenLoop calls finish once and returns the share, and
the log of its calls ends with the finish call: the session-free wrapper is
never called on session 1. -/
theorem RunKeygenLoop_leaves_session_unfreed :
    (RunKeygenLoop (scriptedApi ["p1"] 1) 3 [⟨1, "p1"⟩] (0, 0)).1 =
      LoopResult.returned (some [42]) none ∧
    (RunKeygenLoop (scriptedApi ["p1"] 1) 3 [⟨1, "p1"⟩] (0, 0)).2.trace =
      [Event.output 1 (some [7]) none, Event.receiver 1 (some [7]) 0 "p1" none,
       Event.output 1 none none, Event.input 1 (some [7]) true none,
       Event.finish 1 42 none] ∧
    ∀ ev ∈ (RunKeygenLoop (scriptedApi ["p1"] 1) 3 [⟨1, "p1"⟩] (0, 0)).2.trace,
      ev.isFree = false := by
  decide

end RouterProperties


/-! ## The router loops: what a probe, a drain and a feed do -/

section RouterPhases

variable {σ γ ρ : Type}

theorem resolveRecipients_spec (tests : LoopTests γ) (api : SessionApi σ γ ρ) (session : Handle)
    (buf : GoBytes) (remaining idx : Nat) (st : LoopState σ γ ρ) :
    ∃ names : List γ, ∃ last : List (Event γ ρ),
      names.length ≤ remaining ∧ (∀ r ∈ names, tests.receiverDone r = false) ∧
      (resolveRecipients tests api session buf remaining idx st).2.msgq =
        names.foldl (fun q r => pushMsg q (tests.receiverKey r) buf) st.msgq ∧
      (resolveRecipients tests api session buf remaining idx st).2.trace =
        st.trace ++
          (names.enumFrom idx).map (fun ir => Event.receiver session buf ir.1 ir.2 none) ++
          last ∧
      (((resolveRecipients tests api session buf remaining idx st).1 = none ∧
          names.length = remaining ∧ last = []) ∨
        ((resolveRecipients tests api session buf remaining idx st).1 = none ∧
          names.length < remaining ∧
          ∃ r, tests.receiverDone r = true ∧
            last = [Event.receiver session buf (idx + names.length) r none]) ∨
        (∃ e r, (resolveRecipients tests api session buf remaining idx st).1 =
            some (Exit.error e) ∧
          names.length < remaining ∧
          last = [Event.receiver session buf (idx + names.length) r (some e)])) := by
  induction remaining generalizing idx st with
  | zero => exact ⟨[], [], by simp [resolveRecipients]⟩
  | succ k ih =>
    have ht := callReceiver_trace api session buf idx st
    have hq : (callReceiver api session buf idx st).2.msgq = st.msgq := rfl
    unfold resolveRecipients
    generalize callReceiver api session buf idx st = r at ht hq
    obtain ⟨⟨name, err⟩, st1⟩ := r
    simp only at ht hq
    cases err with
    | some e =>
      refine ⟨[], [Event.receiver session buf idx name (some e)], by simp, by simp, ?_, ?_, ?_⟩
      · simp [hq]
      · simp [ht]
      · exact Or.inr (Or.inr ⟨e, name, rfl, by simp, by simp⟩)
    | none =>
      simp only
      cases hd : tests.receiverDone name with
      | true =>
        refine ⟨[], [Event.receiver session buf idx name none], by simp, by simp, ?_, ?_, ?_⟩
        · simp [hq]
        · simp [ht]
        · exact Or.inr (Or.inl ⟨by simp, by simp, name, hd, by simp⟩)
      | false =>
        simp only [Bool.false_eq_true, if_false]
        obtain ⟨names, last, hlen, hnd, hm, htr, hcase⟩ := ih (idx + 1)
          { st1 with msgq := pushMsg st1.msgq (tests.receiverKey name) buf }
        refine ⟨name :: names, last, by simp [hlen], ?_, ?_, ?_, ?_⟩
        · intro r hr
          rcases List.mem_cons.mp hr with h | h
          · rw [h]; exact hd
          · exact hnd r h
        · rw [hm]
          simp [hq]
        · rw [htr]
          simp [ht, List.enumFrom]
        · have e1 : idx + (name :: names).length = idx + 1 + names.length := by
            simp; omega
          rw [e1]
          rcases hcase with h | h | h
          · exact Or.inl ⟨h.1, by simp [h.2.1], h.2.2⟩
          · exact Or.inr (Or.inl ⟨h.1, by simp [h.2.1], h.2.2⟩)
          · obtain ⟨e, r, h1, h2, h3⟩ := h
            exact Or.inr (Or.inr ⟨e, r, h1, by simp [h2], h3⟩)

theorem feedSession_spec (api : SessionApi σ γ ρ) (session : Handle) (msgs : List GoBytes)
    (st st2 : LoopState σ γ ρ) (h : feedSession api session msgs st = (none, st2)) :
    inputsOf st2.trace = inputsOf st.trace ++ msgs.map (fun m => (session, m)) ∧
    st2.msgq = st.msgq := by
  induction msgs generalizing st with
  | nil =>
    simp only [feedSession, Prod.mk.injEq, true_and] at h
    subst h
    simp
  | cons msg rest ih =>
    have ht := callInput_trace api session msg st
    have hq := callInput_msgq api session msg st
    unfold feedSession at h
    generalize callInput api session msg st = r at ht hq h
    obtain ⟨⟨fin, err⟩, st1⟩ := r
    simp only at ht hq
    cases err with
    | some e => cases fin <;> simp at h
    | none =>
      cases fin with
      | false =>
        obtain ⟨h1, h2⟩ := ih st1 h
        refine ⟨?_, by rw [h2, hq]⟩
        rw [h1, ht]
        simp [inputsOf, inputCall]
      | true =>
        have ht2 := callFinish_trace api session st1
        have hq2 := callFinish_msgq api session st1
        simp only at h
        generalize callFinish api session st1 = r2 at ht2 hq2 h
        obtain ⟨⟨share, err2⟩, st3⟩ := r2
        simp only at ht2 hq2
        cases err2 with
        | some e => simp at h
        | none =>
          obtain ⟨h1, h2⟩ := ih _ h
          refine ⟨?_, by rw [h2]; simp only [hq2, hq]⟩
          rw [h1]
          simp [ht2, ht, inputsOf, inputCall]

theorem feedAll_spec (api : SessionApi σ γ ρ) (ps : List Participant)
    (st st2 : LoopState σ γ ρ) (h : feedAll api ps st = (none, st2)) :
    inputsOf st2.trace =
      inputsOf st.trace ++ ps.flatMap (fun p => (st.msgq p.ID).map (fun m => (p.Session, m))) ∧
    st2.msgq = st.msgq := by
  induction ps generalizing st with
  | nil =>
    simp only [feedAll, Prod.mk.injEq, true_and] at h
    subst h
    simp
  | cons p rest ih =>
    unfold feedAll at h
    have hs := feedSession_spec api p.Session (st.msgq p.ID) st
    generalize feedSession api p.Session (st.msgq p.ID) st = r at hs h
    obtain ⟨x, st1⟩ := r
    cases x with
    | some x => simp at h
    | none =>
      obtain ⟨h1, h2⟩ := hs st1 rfl
      obtain ⟨h3, h4⟩ := ih st1 h
      refine ⟨?_, by rw [h4, h2]⟩
      rw [h3, h1, h2]
      simp

/-- While draining, no input call is made and every mailbox only grows at its end. -/
theorem drain_keeps_inputs (tests : LoopTests γ) (api : SessionApi σ γ ρ)
    (st0 : LoopState σ γ ρ) :
    DrainInvariant tests api (fun _ => True)
      (fun _ st => inputsOf st.trace = inputsOf st0.trace ∧
        ∀ key, ∃ t, st.msgq key = st0.msgq key ++ t)
      (fun _ st => inputsOf st.trace = inputsOf st0.trace ∧
        ∀ key, ∃ t, st.msgq key = st0.msgq key ++ t) := by
  refine ⟨?_, ?_⟩
  · intro cur st p _ h
    have key : inputsOf (callOutput api p.Session st).2.trace = inputsOf st0.trace ∧
        ∀ key, ∃ t, (callOutput api p.Session st).2.msgq key = st0.msgq key ++ t := by
      refine ⟨?_, h.2⟩
      rw [callOutput_trace, ← h.1]
      simp [inputsOf, inputCall]
    exact ⟨fun _ _ => key, fun _ => key⟩
  · intro st p buf idx _ h
    have key : inputsOf (callReceiver api p.Session buf idx st).2.trace = inputsOf st0.trace ∧
        ∀ key, ∃ t, (callReceiver api p.Session buf idx st).2.msgq key = st0.msgq key ++ t := by
      refine ⟨?_, h.2⟩
      rw [callReceiver_trace, ← h.1]
      simp [inputsOf, inputCall]
    refine ⟨fun _ _ => key, fun _ _ => key, fun _ _ => ⟨key.1, fun k => ?_⟩⟩
    obtain ⟨t, ht⟩ := key.2 k
    simp only [pushMsg]
    split
    · exact ⟨t ++ [buf], by rw [ht, List.append_assoc]⟩
    · exact ⟨t, ht⟩

theorem pass_spec (tests : LoopTests γ) (api : SessionApi σ γ ρ) (parties : List Participant)
    (fuel : Nat) (st st2 : LoopState σ γ ρ) (h : pass tests api parties fuel st = (none, st2)) :
    inputsOf st2.trace =
      inputsOf st.trace ++
        parties.flatMap (fun p => (st2.msgq p.ID).map (fun m => (p.Session, m))) ∧
    ∀ key, ∃ t, st2.msgq key = st.msgq key ++ t := by
  unfold pass at h
  have hd := drainAll_outcome (drain_keeps_inputs tests api st) parties.length fuel parties
    (fun _ _ => trivial) st ⟨none, rfl, fun _ => ⟨[], by simp⟩⟩
  generalize drainAll tests api parties.length fuel parties st = r at hd h
  obtain ⟨x, st1⟩ := r
  cases x with
  | some x => simp at h
  | none =>
    obtain ⟨_, hin, hpre⟩ := hd
    obtain ⟨h1, h2⟩ := feedAll_spec api parties st1 st2 h
    refine ⟨?_, fun key => by rw [h2]; exact hpre key⟩
    rw [h1, hin, h2]

/-- C1 (as stated, refuted): one party, one message addressed to it, and a
session that reports finished at its second input call. The message is
drained once (one output call returns it, one probe resolves "p1"), yet it is
passed to the input of session 1 twice: in the first pass and again in the
second, after which the loop returns the share. The same run of runSignLoop
feeds the message twice as well. -/
theorem RunKeygenLoop_feeds_message_again :
    (RunKeygenLoop (scriptedApi ["p1"] 2) 3 [⟨1, "p1"⟩] (0, 0)).1 =
      LoopResult.returned (some [42]) none ∧
    (RunKeygenLoop (scriptedApi ["p1"] 2) 3 [⟨1, "p1"⟩] (0, 0)).2.trace =
      [Event.output 1 (some [7]) none, Event.receiver 1 (some [7]) 0 "p1" none,
       Event.output 1 none none, Event.input 1 (some [7]) false none,
       Event.output 1 none none, Event.input 1 (some [7]) true none,
       Event.finish 1 42 none] ∧
    (inputsOf (RunKeygenLoop (scriptedApi ["p1"] 2) 3 [⟨1, "p1"⟩] (0, 0)).2.trace).count
      (1, some [7]) = 2 ∧
    (runSignLoop (scriptedSignApi [some [112, 49]] 2) 3 [⟨1, "p1"⟩] (0, 0)).2.trace =
      [Event.output 1 (some [7]) none, Event.receiver 1 (some [7]) 0 (some [112, 49]) none,
       Event.output 1 (some []) none, Event.input 1 (some [7]) false none,
       Event.output 1 (some []) none, Event.input 1 (some [7]) true none,
       Event.finish 1 (some [1, 2]) none] := by
  decide

/-- C1 (amended): a pass of the outer loop of RunKeygenLoop or runSignLoop
that runs to its end is one iteration of the loop, and in it the input calls
made are exactly, for each party in list
order, one call per entry of that party's mailbox in mailbox order; a pass
only appends to mailboxes and never removes an entry. Hence every message
that is in a party's mailbox when a pass starts, in particular every message
fed in an earlier pass, is passed to that party's input again in this pass. -/
theorem pass_feeds_whole_mailboxes (tests : LoopTests γ) (api : SessionApi σ γ ρ)
    (parties : List Participant) (fuel : Nat) (st st2 : LoopState σ γ ρ)
    (h : pass tests api parties fuel st = (none, st2)) :
    (∀ passes, st.shares.length ≠ parties.length →
      routerLoop tests api parties fuel (passes + 1) st =
        routerLoop tests api parties fuel passes st2) ∧
    ∃ fed, inputsOf st2.trace = inputsOf st.trace ++ fed ∧
      fed = parties.flatMap (fun p => (st2.msgq p.ID).map (fun m => (p.Session, m))) ∧
      (∀ key, ∃ t, st2.msgq key = st.msgq key ++ t) ∧
      ∀ p ∈ parties, ∀ m ∈ st.msgq p.ID, (p.Session, m) ∈ fed := by
  obtain ⟨h1, h2⟩ := pass_spec tests api parties fuel st st2 h
  refine ⟨fun passes hne => by simp [routerLoop, hne, h], _, h1, rfl, h2, ?_⟩
  intro p hp m hm
  rw [List.mem_flatMap]
  refine ⟨p, hp, ?_⟩
  obtain ⟨t, ht⟩ := h2 p.ID
  rw [ht, List.mem_map]
  exact ⟨m, List.mem_append_left _ hm, rfl⟩

theorem pass_feeds_whole_mailboxes_witness :
    pass keygenTests (scriptedApi ["p1"] 2) [⟨1, "p1"⟩] 3 afterFirstPass =
      (none, (pass keygenTests (scriptedApi ["p1"] 2) [⟨1, "p1"⟩] 3 afterFirstPass).2) ∧
    afterFirstPass.msgq "p1" = [some [7]] ∧
    inputsOf afterFirstPass.trace = [(1, some [7])] ∧
    (∀ passes, afterFirstPass.shares.length ≠ [(⟨1, "p1"⟩ : Participant)].length →
      routerLoop keygenTests (scriptedApi ["p1"] 2) [⟨1, "p1"⟩] 3 (passes + 1) afterFirstPass =
        routerLoop keygenTests (scriptedApi ["p1"] 2) [⟨1, "p1"⟩] 3 passes
          (pass keygenTests (scriptedApi ["p1"] 2) [⟨1, "p1"⟩] 3 afterFirstPass).2) ∧
    ∃ fed,
      inputsOf (pass keygenTests (scriptedApi ["p1"] 2) [⟨1, "p1"⟩] 3 afterFirstPass).2.trace =
        inputsOf afterFirstPass.trace ++ fed ∧
      fed = [(⟨1, "p1"⟩ : Participant)].flatMap (fun p =>
        ((pass keygenTests (scriptedApi ["p1"] 2) [⟨1, "p1"⟩] 3 afterFirstPass).2.msgq p.ID).map
          (fun m => (p.Session, m))) ∧
      (∀ key, ∃ t,
        (pass keygenTests (scriptedApi ["p1"] 2) [⟨1, "p1"⟩] 3 afterFirstPass).2.msgq key =
          afterFirstPass.msgq key ++ t) ∧
      ∀ p ∈ [(⟨1, "p1"⟩ : Participant)], ∀ m ∈ afterFirstPass.msgq p.ID, (p.Session, m) ∈ fed :=
  ⟨Prod.ext (by decide) rfl, by decide, by decide,
    pass_feeds_whole_mailboxes keygenTests (scriptedApi ["p1"] 2) [⟨1, "p1"⟩] 3 afterFirstPass _
      (Prod.ext (by decide) rfl)⟩

/-- C2 (as stated, refuted): one party "p1" and a message whose recipients are
"p2" at index 0 and "p1" at index 1, the first empty result being at index 2.
With len(parties) = 1 the probe stops after index 0: the message is appended
to the mailbox of "p2" only, the mailbox of "p1" stays empty, and the log of
the whole run holds a single receiver call. -/
theorem RunKeygenLoop_probe_stops_at_party_count :
    ((scriptedApi ["p2", "p1"] 1).MessageReceiver 1 (some [7]) 0 (1, 0)).1 = ("p2", none) ∧
    ((scriptedApi ["p2", "p1"] 1).MessageReceiver 1 (some [7]) 1 (1, 0)).1 = ("p1", none) ∧
    ((scriptedApi ["p2", "p1"] 1).MessageReceiver 1 (some [7]) 2 (1, 0)).1 = ("", none) ∧
    (RunKeygenLoop (scriptedApi ["p2", "p1"] 1) 3 [⟨1, "p1"⟩] (0, 0)).2.msgq "p2" = [some [7]] ∧
    (RunKeygenLoop (scriptedApi ["p2", "p1"] 1) 3 [⟨1, "p1"⟩] (0, 0)).2.msgq "p1" = [] ∧
    (RunKeygenLoop (scriptedApi ["p2", "p1"] 1) 3 [⟨1, "p1"⟩] (0, 0)).2.trace =
      [Event.output 1 (some [7]) none, Event.receiver 1 (some [7]) 0 "p2" none,
       Event.output 1 none none, Event.output 1 none none, Event.output 1 none none] := by
  decide

/-- C2 (amended): for a message `buf` drained from `session` in RunKeygenLoop,
the probe calls the receiver wrapper for index 0, 1, 2, ... and appends `buf`
to the mailbox of each name returned, in order, until the first index whose
result is empty or an error, or until index len(parties), whichever comes
first: the names appended to are all non-empty and at most len(parties) many;
either all len(parties) indexes gave a name, or the next call returned the
empty string, or the next call returned an error and the probe returns it. -/
theorem RunKeygenLoop_probe_spec (api : SessionApi σ String Handle)
    (parties : List Participant) (session : Handle) (buf : GoBytes)
    (st : LoopState σ String Handle) :
    ∃ names : List String, ∃ last : List (Event String Handle),
      names.length ≤ parties.length ∧ (∀ r ∈ names, r ≠ "") ∧
      (resolveRecipients keygenTests api session buf parties.length 0 st).2.msgq =
        names.foldl (fun q r => pushMsg q r buf) st.msgq ∧
      (resolveRecipients keygenTests api session buf parties.length 0 st).2.trace =
        st.trace ++
          (names.enumFrom 0).map (fun ir => Event.receiver session buf ir.1 ir.2 none) ++
          last ∧
      (((resolveRecipients keygenTests api session buf parties.length 0 st).1 = none ∧
          names.length = parties.length ∧ last = []) ∨
        ((resolveRecipients keygenTests api session buf parties.length 0 st).1 = none ∧
          names.length < parties.length ∧
          last = [Event.receiver session buf names.length "" none]) ∨
        (∃ e r, (resolveRecipients keygenTests api session buf parties.length 0 st).1 =
            some (Exit.error e) ∧
          names.length < parties.length ∧
          last = [Event.receiver session buf names.length r (some e)])) := by
  obtain ⟨names, last, h1, h2, h3, h4, h5⟩ :=
    resolveRecipients_spec keygenTests api session buf parties.length 0 st
  refine ⟨names, last, h1, ?_, h3, h4, ?_⟩
  · intro r hr hEq
    have := h2 r hr
    simp [keygenTests, hEq] at this
  · simp only [Nat.zero_add] at h5
    rcases h5 with h | h | h
    · exact Or.inl h
    · obtain ⟨ha, hb, r, hr, hl⟩ := h
      have hr2 : r = "" := by simpa [keygenTests] using hr
      subst hr2
      exact Or.inr (Or.inl ⟨ha, hb, hl⟩)
    · exact Or.inr (Or.inr h)

theorem foldl_scanStep_snoc (tr : List (Event γ ρ)) (ev : Event γ ρ) :
    (tr ++ [ev]).foldl scanStep (none, true) = scanStep (tr.foldl scanStep (none, true)) ev := by
  simp [List.foldl_append]

theorem deliveredTo_snoc (tests : LoopTests γ) (key : String) (tr : List (Event γ ρ))
    (ev : Event γ ρ) :
    deliveredTo tests key (tr ++ [ev]) =
      deliveredTo tests key tr ++ (delivery tests key ev).toList := by
  unfold deliveredTo
  rw [List.filterMap_append]
  cases h : delivery tests key ev <;> simp [List.filterMap, h]

theorem routedInOrder_invariant (tests : LoopTests γ) (api : SessionApi σ γ ρ) :
    StepInvariant tests api (fun _ => True) (RoutedInOrder tests)
      (fun _ => RoutedInOrder tests none) := by
  refine ⟨⟨?_, ?_⟩, ⟨?_, ?_⟩⟩
  · intro cur st p _ h
    obtain ⟨hm, hok, _⟩ := h
    have hq : (callOutput api p.Session st).2.msgq = st.msgq := rfl
    have ht := callOutput_trace api p.Session st
    generalize callOutput api p.Session st = r at hq ht
    obtain ⟨⟨buf, err⟩, st1⟩ := r
    simp only at hq ht
    refine ⟨fun e he => ⟨?_, ?_, fun hc => (hc rfl).elim⟩, fun he => ⟨?_, ?_, fun _ => ?_⟩⟩
    · intro key
      simp only at he
      rw [hq, ht, deliveredTo_snoc, hm key]
      simp [delivery]
    · simp only at he
      rw [ht, foldl_scanStep_snoc, he]
      simpa [scanStep] using hok
    · intro key
      rw [hq, ht, deliveredTo_snoc, hm key]
      simp [delivery]
    · simp only at he
      rw [ht, foldl_scanStep_snoc, he]
      simpa [scanStep] using hok
    · simp only at he
      rw [ht, foldl_scanStep_snoc, he]
      simp [scanStep]
  · intro st p buf idx _ h
    obtain ⟨hm, hok, hcur⟩ := h
    have hcur2 := hcur (by simp)
    have hq : (callReceiver api p.Session buf idx st).2.msgq = st.msgq := rfl
    have ht := callReceiver_trace api p.Session buf idx st
    generalize callReceiver api p.Session buf idx st = r at hq ht
    obtain ⟨⟨name, err⟩, st1⟩ := r
    simp only at hq ht
    have hscan : List.foldl scanStep (none, true) st1.trace = (some (p.Session, buf), true) := by
      rw [ht, foldl_scanStep_snoc]
      have hpair : List.foldl scanStep (none, true) st.trace = (some (p.Session, buf), true) :=
        Prod.ext hcur2 hok
      rw [hpair]
      simp [scanStep]
    refine ⟨fun e he => ⟨?_, by rw [hscan], fun hc => (hc rfl).elim⟩,
      fun he hd => ⟨?_, by rw [hscan], fun _ => by rw [hscan]⟩,
      fun he hd => ⟨?_, by simp only; rw [hscan], fun _ => by simp only; rw [hscan]⟩⟩
    · intro key
      simp only at he
      rw [hq, ht, deliveredTo_snoc, hm key, he]
      simp [delivery]
    · intro key
      simp only at he hd
      rw [hq, ht, deliveredTo_snoc, hm key, he]
      simp [delivery, hd]
    · intro key
      simp only at he hd
      simp only [pushMsg]
      rw [hq, ht, deliveredTo_snoc, hm key, he]
      by_cases hk : key = tests.receiverKey name
      · simp [delivery, hd, hk]
      · have hk2 : ¬ tests.receiverKey name = key := fun hEq => hk hEq.symm
        simp [delivery, hd, hk, hk2]
  · intro cur st p msg _ _ h
    obtain ⟨hm, hok, _⟩ := h
    have hq := callInput_msgq api p.Session msg st
    have ht := callInput_trace api p.Session msg st
    have key : RoutedInOrder tests none (callInput api p.Session msg st).2 := by
      refine ⟨fun key => ?_, ?_, fun hc => (hc rfl).elim⟩
      · rw [hq, ht, deliveredTo_snoc, hm key]
        simp [delivery]
      · rw [ht, foldl_scanStep_snoc]
        simpa [scanStep] using hok
    exact ⟨fun _ _ => key, fun _ => key⟩
  · intro st p _ h
    obtain ⟨hm, hok, _⟩ := h
    have hq := callFinish_msgq api p.Session st
    have ht := callFinish_trace api p.Session st
    have key : RoutedInOrder tests none (callFinish api p.Session st).2 := by
      refine ⟨fun key => ?_, ?_, fun hc => (hc rfl).elim⟩
      · rw [hq, ht, deliveredTo_snoc, hm key]
        simp [delivery]
      · rw [ht, foldl_scanStep_snoc]
        simpa [scanStep] using hok
    exact ⟨fun _ _ => key, fun _ => ⟨key.1, key.2.1, fun hc => (hc rfl).elim⟩⟩

theorem routerLoop_final {tests : LoopTests γ} {api : SessionApi σ γ ρ}
    {P : Option (Handle × GoBytes) → LoopState σ γ ρ → Prop} {Q : String → LoopState σ γ ρ → Prop}
    (inv : StepInvariant tests api (fun _ => True) P Q) (R : LoopState σ γ ρ → Prop)
    (hP : ∀ cur st, P cur st → R st) (hQ : ∀ e st, Q e st → R st)
    (parties : List Participant) (fuel passes : Nat) (st : LoopState σ γ ρ)
    (h : ∃ cur, P cur st) :
    R (routerLoop tests api parties fuel passes st).2 := by
  have hout := routerLoop_outcome inv parties (fun _ _ => trivial) fuel passes st h
  generalize routerLoop tests api parties fuel passes st = out at hout
  obtain ⟨res, st2⟩ := out
  cases res with
  | outOfFuel =>
    obtain ⟨c, hc⟩ := hout
    exact hP c _ hc
  | returned sh err =>
    cases sh with
    | some sh =>
      cases err with
      | none =>
        obtain ⟨⟨c, hc⟩, _⟩ := hout
        exact hP c _ hc
      | some e => exact hout.elim
    | none =>
      cases err with
      | none => exact hout.elim
      | some e => exact hQ e _ hout

theorem drainAll_append (tests : LoopTests γ) (api : SessionApi σ γ ρ) (n fuel : Nat)
    (ps qs : List Participant) (st : LoopState σ γ ρ) :
    drainAll tests api n fuel (ps ++ qs) st =
      andThen (drainAll tests api n fuel ps st) (drainAll tests api n fuel qs) := by
  induction ps generalizing st with
  | nil => simp [drainAll, andThen]
  | cons p rest ih =>
    simp only [List.cons_append, drainAll]
    generalize drainSession tests api n p.Session fuel st = r
    obtain ⟨x, st1⟩ := r
    cases x with
    | some x => rfl
    | none => exact ih st1

theorem drain_segment_invariant (tests : LoopTests γ) (api : SessionApi σ γ ρ)
    (session : Handle) (st0 : LoopState σ γ ρ) :
    DrainInvariant tests api (fun p => p.Session = session)
      (fun _ st => ∃ seg, st.trace = st0.trace ++ seg ∧
        ∀ ev ∈ seg, ev.session = session ∧ inputCall ev = none)
      (fun _ st => ∃ seg, st.trace = st0.trace ++ seg ∧
        ∀ ev ∈ seg, ev.session = session ∧ inputCall ev = none) := by
  have step : ∀ (tr : List (Event γ ρ)) (e : Event γ ρ),
      (∃ seg, tr = st0.trace ++ seg ∧ ∀ ev ∈ seg, ev.session = session ∧ inputCall ev = none) →
      (e.session = session ∧ inputCall e = none) →
      ∃ seg, tr ++ [e] = st0.trace ++ seg ∧
        ∀ ev ∈ seg, ev.session = session ∧ inputCall ev = none := by
    rintro tr e ⟨seg, hseg, hall⟩ he
    refine ⟨seg ++ [e], by rw [hseg, List.append_assoc], ?_⟩
    intro ev hev
    rw [List.mem_append, List.mem_singleton] at hev
    rcases hev with hev | hev
    · exact hall ev hev
    · rw [hev]; exact he
  refine ⟨?_, ?_⟩
  · intro cur st p hp h
    have key := step _ (Event.output p.Session (callOutput api p.Session st).1.1
      (callOutput api p.Session st).1.2) h ⟨hp, rfl⟩
    exact ⟨fun _ _ => key, fun _ => key⟩
  · intro st p buf idx hp h
    have key := step _ (Event.receiver p.Session buf idx
      (callReceiver api p.Session buf idx st).1.1
      (callReceiver api p.Session buf idx st).1.2) h ⟨hp, rfl⟩
    exact ⟨fun _ _ => key, fun _ _ => key, fun _ _ => key⟩

theorem drainSession_segment (tests : LoopTests γ) (api : SessionApi σ γ ρ) (n fuel : Nat)
    (p : Participant) (st : LoopState σ γ ρ) :
    ∃ seg, (drainSession tests api n p.Session fuel st).2.trace = st.trace ++ seg ∧
      ∀ ev ∈ seg, ev.session = p.Session ∧ inputCall ev = none := by
  have hout := drainSession_outcome (drain_segment_invariant tests api p.Session st) n p rfl
    fuel st ⟨none, [], by simp, by simp⟩
  generalize drainSession tests api n p.Session fuel st = out at hout
  obtain ⟨x, st2⟩ := out
  cases x with
  | none =>
    obtain ⟨_, h⟩ := hout
    exact h
  | some x =>
    cases x with
    | error e => exact hout
    | fuel =>
      obtain ⟨_, h⟩ := hout
      exact h

/-- C6: in RunKeygenLoop, (1) at the end of every run each mailbox holds, in
call order, the messages that the receiver calls resolved to its key, and
(2) every receiver call probes the message returned by the latest output call,
on the same session, so mailbox order is drain order; (3) the drain phase
handles the parties in list order, each party's session being drained to its
end before the next party's, and (4) the calls made while draining a party are
output and receiver calls on that party's session; (5) in a pass that runs to
its end the messages are fed party by party in list order, each party
receiving the entries of its mailbox in mailbox order. -/
theorem RunKeygenLoop_routes_in_order (api : SessionApi σ String Handle) (fuel : Nat)
    (parties : List Participant) (eng : σ) :
    (∀ key, (RunKeygenLoop api fuel parties eng).2.msgq key =
      deliveredTo keygenTests key (RunKeygenLoop api fuel parties eng).2.trace) ∧
    ProbesFollowDrain (RunKeygenLoop api fuel parties eng).2.trace ∧
    (∀ ps qs st, drainAll keygenTests api parties.length fuel (ps ++ qs) st =
      andThen (drainAll keygenTests api parties.length fuel ps st)
        (drainAll keygenTests api parties.length fuel qs)) ∧
    (∀ (p : Participant) st, ∃ seg,
      (drainSession keygenTests api parties.length p.Session fuel st).2.trace = st.trace ++ seg ∧
      ∀ ev ∈ seg, ev.session = p.Session ∧ inputCall ev = none) ∧
    (∀ st st2, pass keygenTests api parties fuel st = (none, st2) →
      inputsOf st2.trace =
        inputsOf st.trace ++
          parties.flatMap (fun p => (st2.msgq p.ID).map (fun m => (p.Session, m)))) := by
  have hfinal := routerLoop_final (routedInOrder_invariant keygenTests api)
    (fun st => (∀ key, st.msgq key = deliveredTo keygenTests key st.trace) ∧
      ProbesFollowDrain st.trace)
    (fun _ _ h => ⟨h.1, h.2.1⟩) (fun _ _ h => ⟨h.1, h.2.1⟩) parties fuel fuel (initState eng)
    ⟨none, fun _ => rfl, rfl, fun hc => (hc rfl).elim⟩
  exact ⟨hfinal.1, hfinal.2, drainAll_append keygenTests api parties.length fuel,
    drainSession_segment keygenTests api parties.length fuel,
    fun st st2 h => (pass_spec keygenTests api parties fuel st st2 h).1⟩

theorem RunKeygenLoop_routes_in_order_witness :
    pass keygenTests (scriptedApi ["p2", "p1"] 2) [⟨1, "p1"⟩, ⟨2, "p2"⟩] 3 (initState (0, 0)) =
      (none, (pass keygenTests (scriptedApi ["p2", "p1"] 2) [⟨1, "p1"⟩, ⟨2, "p2"⟩] 3
        (initState (0, 0))).2) ∧
    inputsOf (pass keygenTests (scriptedApi ["p2", "p1"] 2) [⟨1, "p1"⟩, ⟨2, "p2"⟩] 3
        (initState (0, 0))).2.trace = [(1, some [7]), (2, some [7])] ∧
    inputsOf (pass keygenTests (scriptedApi ["p2", "p1"] 2) [⟨1, "p1"⟩, ⟨2, "p2"⟩] 3
        (initState (0, 0))).2.trace =
      inputsOf (initState (0, 0) : LoopState (Nat × Nat) String Handle).trace ++
        [(⟨1, "p1"⟩ : Participant), ⟨2, "p2"⟩].flatMap (fun p =>
          ((pass keygenTests (scriptedApi ["p2", "p1"] 2) [⟨1, "p1"⟩, ⟨2, "p2"⟩] 3
            (initState (0, 0))).2.msgq p.ID).map (fun m => (p.Session, m))) :=
  ⟨Prod.ext (by decide) rfl, by decide,
    (RunKeygenLoop_routes_in_order (scriptedApi ["p2", "p1"] 2) 3 [⟨1, "p1"⟩, ⟨2, "p2"⟩]
      (0, 0)).2.2.2.2 _ _ (Prod.ext (by decide) rfl)⟩

end RouterPhases

/-! ## The cgo wrappers of go-dkls -/

section DklsWrappers

variable {σ : Type}

theorem CGoBytes_of_small (mem : Nat → Nat) (ptr len : Nat) (h : len < 2147483648) :
    CGoBytes mem ptr (toCInt len) = some (some ((List.range len).map (fun i => mem (ptr + i)))) := by
  unfold CGoBytes
  rw [toCInt_of_lt _ h]
  simp

theorem CGoBytes_ne_some_none (mem : Nat → Nat) (ptr : Nat) (n : Int) :
    CGoBytes mem ptr n ≠ some none := by
  unfold CGoBytes
  split <;> simp

theorem dkls_returnBytes_copy (lib : DklsLib σ) (r : Nat × TssBuffer × σ)
    (hcode : r.1 = 0) (hlen : r.2.1.len < 2147483648) :
    lib.returnBytes r =
      (some (some (lib.bufferBytes r.2.2 r.2.1), none), lib.tss_buffer_free r.2.1 r.2.2) := by
  unfold DklsLib.returnBytes DklsLib.bufferBytes
  rw [CGoBytes_of_small _ _ _ hlen]
  simp [hcode]

theorem dkls_returnBytes_error (lib : DklsLib σ) (r : Nat × TssBuffer × σ) (hcode : r.1 ≠ 0) :
    lib.returnBytes r =
      (some (none, MapLibError lib.val (r.1 : Int)), lib.tss_buffer_free r.2.1 r.2.2) := by
  unfold DklsLib.returnBytes
  simp [hcode]

theorem dkls_bufferBytes_length (lib : DklsLib σ) (s : σ) (buf : TssBuffer) :
    (lib.bufferBytes s buf).length = buf.len := by
  simp [DklsLib.bufferBytes]

/-- C11 (as stated, refuted): the engine reports success with a message buffer
of len 4294967296, so a message is pending; `C.int(len)` is 0, and both
output wrappers return a slice of length 0 with a nil error. -/
theorem output_wrappers_empty_on_wrapped_len :
    (fixedDkls 0 0 ⟨10, 4294967296⟩).dkls_keygen_session_output_message 5 0 =
      (0, ⟨10, 4294967296⟩, 1) ∧
    (fixedDkls 0 0 ⟨10, 4294967296⟩).dkls_sign_session_output_message 5 0 =
      (0, ⟨10, 4294967296⟩, 1) ∧
    (DklsKeygenSessionOutputMessage (fixedDkls 0 0 ⟨10, 4294967296⟩) 5 0).1 =
      some (some [], none) ∧
    (DklsSignSessionOutputMessage (fixedDkls 0 0 ⟨10, 4294967296⟩) 5 0).1 =
      some (some [], none) ∧
    GoBytes.len (some []) = 0 := by
  decide

/-- C11 (amended): DklsKeygenSessionOutputMessage returns (nil, nil) exactly
when the engine reports success with a zero-length buffer. For a buffer whose
len is below 2^31: on success with a non-empty buffer the keygen wrapper
returns the non-empty message bytes, the sign wrapper returns the buffer's
bytes on every success, and for both wrappers a result of length 0 with a nil
error is returned exactly when the engine reports success with a zero-length
buffer. -/
theorem output_wrappers_empty_iff (lib : DklsLib σ) (session : Handle) (s : σ) :
    ((DklsKeygenSessionOutputMessage lib session s).1 = some (none, none) ↔
      (lib.dkls_keygen_session_output_message (cHandle session) s).1 = 0 ∧
      (lib.dkls_keygen_session_output_message (cHandle session) s).2.1.len = 0) ∧
    ((lib.dkls_keygen_session_output_message (cHandle session) s).1 = 0 →
      0 < (lib.dkls_keygen_session_output_message (cHandle session) s).2.1.len →
      (lib.dkls_keygen_session_output_message (cHandle session) s).2.1.len < 2147483648 →
      ∃ bs, (DklsKeygenSessionOutputMessage lib session s).1 = some (some bs, none) ∧
        bs ≠ [] ∧
        bs = lib.bufferBytes (lib.dkls_keygen_session_output_message (cHandle session) s).2.2
          (lib.dkls_keygen_session_output_message (cHandle session) s).2.1) ∧
    ((lib.dkls_keygen_session_output_message (cHandle session) s).2.1.len < 2147483648 →
      ((∃ b, (DklsKeygenSessionOutputMessage lib session s).1 = some (b, none) ∧ b.len = 0) ↔
        (lib.dkls_keygen_session_output_message (cHandle session) s).1 = 0 ∧
        (lib.dkls_keygen_session_output_message (cHandle session) s).2.1.len = 0)) ∧
    ((lib.dkls_sign_session_output_message (cHandle session) s).1 = 0 →
      (lib.dkls_sign_session_output_message (cHandle session) s).2.1.len < 2147483648 →
      (DklsSignSessionOutputMessage lib session s).1 =
        some (some (lib.bufferBytes (lib.dkls_sign_session_output_message (cHandle session) s).2.2
          (lib.dkls_sign_session_output_message (cHandle session) s).2.1), none)) ∧
    ((lib.dkls_sign_session_output_message (cHandle session) s).2.1.len < 2147483648 →
      ((∃ b, (DklsSignSessionOutputMessage lib session s).1 = some (b, none) ∧ b.len = 0) ↔
        (lib.dkls_sign_session_output_message (cHandle session) s).1 = 0 ∧
        (lib.dkls_sign_session_output_message (cHandle session) s).2.1.len = 0)) := by
  unfold DklsKeygenSessionOutputMessage DklsSignSessionOutputMessage
  generalize lib.dkls_keygen_session_output_message (cHandle session) s = rk
  generalize lib.dkls_sign_session_output_message (cHandle session) s = rs
  refine ⟨?_, ?_, ?_, ?_, ?_⟩
  · by_cases hc : rk.1 = 0
    · by_cases hl : rk.2.1.len = 0
      · simp [hc, hl]
      · simp only [hc, hl, ne_eq, not_true_eq_false, if_false, and_false, iff_false]
        intro h
        cases hg : CGoBytes (lib.mem rk.2.2) rk.2.1.ptr (toCInt rk.2.1.len) with
        | none => simp [hg] at h
        | some b =>
          simp only [hg, Option.map_some', Option.some.injEq, Prod.mk.injEq, and_true] at h
          exact CGoBytes_ne_some_none _ _ _ (by rw [hg, h])
    · simp [hc, MapLibError_ne_none]
  · intro hc hpos hlt
    have hl : rk.2.1.len ≠ 0 := by omega
    refine ⟨_, ?_, ?_, rfl⟩
    · simp [hc, hl, CGoBytes_of_small _ _ _ hlt, DklsLib.bufferBytes]
    · intro hnil
      have := dkls_bufferBytes_length lib rk.2.2 rk.2.1
      rw [hnil] at this
      simp at this
      omega
  · intro hlt
    by_cases hc : rk.1 = 0
    · by_cases hl : rk.2.1.len = 0
      · simp [hc, hl, GoBytes.len]
      · simp only [hc, hl, ne_eq, not_true_eq_false, if_false, and_false, iff_false,
          CGoBytes_of_small _ _ _ hlt, Option.map_some', Option.some.injEq, Prod.mk.injEq,
          and_true, not_exists, not_and]
        intro b hb
        rw [← hb]
        simp only [GoBytes.len, List.length_map, List.length_range]
        exact hl
    · simp [hc, MapLibError_ne_none]
  · intro hc hlt
    rw [dkls_returnBytes_copy lib rs hc hlt]
  · intro hlt
    by_cases hc : rs.1 = 0
    · rw [dkls_returnBytes_copy lib rs hc hlt]
      simp only [Option.some.injEq, Prod.mk.injEq, and_true, exists_eq_left', hc, true_and]
      simp [GoBytes.len, dkls_bufferBytes_length]
    · rw [dkls_returnBytes_error lib rs hc]
      simp [hc, MapLibError_ne_none]

theorem output_wrappers_empty_iff_witness :
    (DklsKeygenSessionOutputMessage (fixedDkls 0 0 ⟨10, 0⟩) 5 0).1 = some (none, none) ∧
    ((fixedDkls 0 0 ⟨10, 3⟩).dkls_sign_session_output_message (cHandle 5) 0).1 = 0 ∧
    ((fixedDkls 0 0 ⟨10, 3⟩).dkls_sign_session_output_message (cHandle 5) 0).2.1.len <
      2147483648 ∧
    (DklsSignSessionOutputMessage (fixedDkls 0 0 ⟨10, 3⟩) 5 0).1 =
      some (some ((fixedDkls 0 0 ⟨10, 3⟩).bufferBytes
        ((fixedDkls 0 0 ⟨10, 3⟩).dkls_sign_session_output_message (cHandle 5) 0).2.2
        ((fixedDkls 0 0 ⟨10, 3⟩).dkls_sign_session_output_message (cHandle 5) 0).2.1), none) :=
  ⟨(output_wrappers_empty_iff (fixedDkls 0 0 ⟨10, 0⟩) 5 0).1.mpr ⟨rfl, rfl⟩, rfl, by decide,
    (output_wrappers_empty_iff (fixedDkls 0 0 ⟨10, 3⟩) 5 0).2.2.2.1 rfl (by decide)⟩

end DklsWrappers

section DklsMarshalling

variable {σ : Type}

theorem returnFinished_true_iff (lib : DklsLib σ) (code : Nat) (fin : Bool) (s : σ) :
    (lib.returnFinished code fin s).1 = some (true, none) ↔ code = 0 ∧ fin = true := by
  unfold DklsLib.returnFinished
  by_cases h : code = 0
  · simp [h]
  · simp [h]

/-- C12: DklsKeygenSessionInputMessage and DklsSignSessionInputMessage return
(true, nil) exactly when the call reaches the engine (the message is
marshalled) and the engine returns code 0 with a non-zero finished flag; when
the engine returns code 0 with flag 0 they return (false, nil); when it
returns a non-zero code they return (false, MapLibError(code)), whatever the
flag. -/
theorem input_wrappers_finished (lib : DklsLib σ) (session : Handle) (message : GoBytes)
    (s : σ) :
    ((DklsKeygenSessionInputMessage lib session message s).1 = some (true, none) ↔
      ∃ c p, cGoSlice message ⟨[]⟩ = some (c, p) ∧
        (lib.dkls_keygen_session_input_message (cHandle session) c s).1 = 0 ∧
        (lib.dkls_keygen_session_input_message (cHandle session) c s).2.1 ≠ 0) ∧
    (∀ c p, cGoSlice message ⟨[]⟩ = some (c, p) →
      ((lib.dkls_keygen_session_input_message (cHandle session) c s).1 = 0 →
        (lib.dkls_keygen_session_input_message (cHandle session) c s).2.1 = 0 →
        (DklsKeygenSessionInputMessage lib session message s).1 = some (false, none)) ∧
      ((lib.dkls_keygen_session_input_message (cHandle session) c s).1 ≠ 0 →
        (DklsKeygenSessionInputMessage lib session message s).1 =
          some (false, MapLibError lib.val
            ((lib.dkls_keygen_session_input_message (cHandle session) c s).1 : Int)) ∧
        MapLibError lib.val
          ((lib.dkls_keygen_session_input_message (cHandle session) c s).1 : Int) ≠ none)) ∧
    ((DklsSignSessionInputMessage lib session message s).1 = some (true, none) ↔
      ∃ c p, cGoSlice message ⟨[]⟩ = some (c, p) ∧
        (lib.dkls_sign_session_input_message (cHandle session) c s).1 = 0 ∧
        (lib.dkls_sign_session_input_message (cHandle session) c s).2.1 ≠ 0) ∧
    (∀ c p, cGoSlice message ⟨[]⟩ = some (c, p) →
      ((lib.dkls_sign_session_input_message (cHandle session) c s).1 = 0 →
        (lib.dkls_sign_session_input_message (cHandle session) c s).2.1 = 0 →
        (DklsSignSessionInputMessage lib session message s).1 = some (false, none)) ∧
      ((lib.dkls_sign_session_input_message (cHandle session) c s).1 ≠ 0 →
        (DklsSignSessionInputMessage lib session message s).1 =
          some (false, MapLibError lib.val
            ((lib.dkls_sign_session_input_message (cHandle session) c s).1 : Int)) ∧
        MapLibError lib.val
          ((lib.dkls_sign_session_input_message (cHandle session) c s).1 : Int) ≠ none)) := by
  unfold DklsKeygenSessionInputMessage DklsSignSessionInputMessage
  cases hm : cGoSlice message ⟨[]⟩ with
  | none => simp
  | some cp =>
    obtain ⟨c, p⟩ := cp
    refine ⟨?_, ?_, ?_, ?_⟩
    · simp only [returnFinished_true_iff, decide_eq_true_eq, Option.some.injEq, Prod.mk.injEq]
      constructor
      · intro h
        exact ⟨c, p, ⟨rfl, rfl⟩, h⟩
      · rintro ⟨c2, p2, ⟨hc, _⟩, h⟩
        subst hc
        exact h
    · intro c2 p2 hcp
      simp only [Option.some.injEq, Prod.mk.injEq] at hcp
      obtain ⟨hc, _⟩ := hcp
      subst hc
      refine ⟨fun h0 hf => ?_, fun hne => ⟨?_, MapLibError_ne_none _ _⟩⟩
      · simp [DklsLib.returnFinished, h0, hf]
      · simp [DklsLib.returnFinished, hne]
    · simp only [returnFinished_true_iff, decide_eq_true_eq, Option.some.injEq, Prod.mk.injEq]
      constructor
      · intro h
        exact ⟨c, p, ⟨rfl, rfl⟩, h⟩
      · rintro ⟨c2, p2, ⟨hc, _⟩, h⟩
        subst hc
        exact h
    · intro c2 p2 hcp
      simp only [Option.some.injEq, Prod.mk.injEq] at hcp
      obtain ⟨hc, _⟩ := hcp
      subst hc
      refine ⟨fun h0 hf => ?_, fun hne => ⟨?_, MapLibError_ne_none _ _⟩⟩
      · simp [DklsLib.returnFinished, h0, hf]
      · simp [DklsLib.returnFinished, hne]

theorem input_wrappers_finished_witness :
    (DklsKeygenSessionInputMessage (fixedDkls 0 1 ⟨0, 0⟩) 5 (some [7]) 0).1 = some (true, none) ∧
    cGoSlice (some [7]) ⟨[]⟩ = some (some [7], ⟨[[7]]⟩) ∧
    ((fixedDkls 6 1 ⟨0, 0⟩).dkls_sign_session_input_message (cHandle 5) (some [7]) 0).1 ≠ 0 ∧
    (DklsSignSessionInputMessage (fixedDkls 6 1 ⟨0, 0⟩) 5 (some [7]) 0).1 =
      some (false, MapLibError (fixedDkls 6 1 ⟨0, 0⟩).val
        (((fixedDkls 6 1 ⟨0, 0⟩).dkls_sign_session_input_message (cHandle 5) (some [7]) 0).1 :
          Int)) :=
  ⟨(input_wrappers_finished (fixedDkls 0 1 ⟨0, 0⟩) 5 (some [7]) 0).1.mpr
      ⟨some [7], ⟨[[7]]⟩, rfl, rfl, by decide⟩,
    rfl, by decide,
    (((input_wrappers_finished (fixedDkls 6 1 ⟨0, 0⟩) 5 (some [7]) 0).2.2.2 (some [7])
      ⟨[[7]]⟩ rfl).2 (by decide)).1⟩

/-- C14 (evaluation at the failing input): for a non-nil slice of length 0,
`cGoSlice` and `cTssBuffer` panic at `&byteArray[0]`, and so do the wrappers
that marshal through them: DklsKeygenSessionInputMessage with an empty
message and DklsKeyshareFromBytes with an empty buffer return nothing, for
every engine, and never reach it. -/
theorem cGoSlice_panics_on_empty_slice (lib : DklsLib σ) (session : Handle) (s : σ)
    (pinner : Pinner) :
    cGoSlice (some []) pinner = none ∧
    cTssBuffer (some []) pinner = none ∧
    DklsKeygenSessionInputMessage lib session (some []) s = (none, s) ∧
    DklsKeyshareFromBytes lib (some []) s = (none, s) :=
  ⟨rfl, rfl, rfl, rfl⟩

/-- C15: for a nil byte slice `cGoSlice` returns the null pointer and leaves
the pinner as it was; so whenever the setup argument is marshalled,
DklsKeygenSessionFromSetup with a nil id calls the engine with that setup and
a null id, and returns (0, MapLibError(code)) for a non-zero code and
(handle, nil) for code 0. -/
theorem DklsKeygenSessionFromSetup_nil_id (lib : DklsLib σ) (setup : GoBytes) (s : σ) :
    (∀ pinner, cGoSlice none pinner = some (none, pinner)) ∧
    (∀ cSetup pinner, cGoSlice setup ⟨[]⟩ = some (cSetup, pinner) →
      ((lib.dkls_keygen_session_from_setup cSetup none s).1 ≠ 0 →
        DklsKeygenSessionFromSetup lib setup none s =
          (some (0, MapLibError lib.val
            ((lib.dkls_keygen_session_from_setup cSetup none s).1 : Int)),
            (lib.dkls_keygen_session_from_setup cSetup none s).2.2)) ∧
      ((lib.dkls_keygen_session_from_setup cSetup none s).1 = 0 →
        DklsKeygenSessionFromSetup lib setup none s =
          (some ((lib.dkls_keygen_session_from_setup cSetup none s).2.1, none),
            (lib.dkls_keygen_session_from_setup cSetup none s).2.2))) := by
  refine ⟨fun _ => rfl, fun cSetup pinner h => ?_⟩
  unfold DklsKeygenSessionFromSetup
  rw [h]
  simp only [cGoSlice, DklsLib.returnHandle]
  exact ⟨fun hne => by simp [hne], fun h0 => by simp [h0]⟩

theorem DklsKeygenSessionFromSetup_nil_id_witness :
    cGoSlice (some [1, 2]) ⟨[]⟩ = some (some [1, 2], ⟨[[1, 2]]⟩) ∧
    ((fixedDkls 0 9 ⟨0, 0⟩).dkls_keygen_session_from_setup (some [1, 2]) none 0).1 = 0 ∧
    DklsKeygenSessionFromSetup (fixedDkls 0 9 ⟨0, 0⟩) (some [1, 2]) none 0 =
      (some (((fixedDkls 0 9 ⟨0, 0⟩).dkls_keygen_session_from_setup (some [1, 2]) none 0).2.1,
        none),
        ((fixedDkls 0 9 ⟨0, 0⟩).dkls_keygen_session_from_setup (some [1, 2]) none 0).2.2) :=
  ⟨rfl, rfl,
    ((DklsKeygenSessionFromSetup_nil_id (fixedDkls 0 9 ⟨0, 0⟩) (some [1, 2]) 0).2 (some [1, 2])
      ⟨[[1, 2]]⟩ rfl).2 rfl⟩

/-- C16 (evaluation at the failing inputs): each of the five operations panics
at the index expression `x[0]` of an empty slice and returns nothing, for
every engine: DklsQcSetupMsgNew with an empty ids list, with an empty old
party list and with an empty new party list; DklsQcSessionFromSetup with an
empty setup message and with an empty id; DklsQcSessionInputMessage with an
empty message; DklsKeyImportInitiatorNew with an empty private key;
DklsKeyImporter with an empty id. -/
theorem unguarded_pins_panic (lib : DklsLib σ) (h : Handle) (s : σ) :
    (DklsQcSetupMsgNew lib h 2 [] [0, 1] [1, 2] s).1 = none ∧
    (DklsQcSetupMsgNew lib h 2 ["p1", "p2"] [] [1, 2] s).1 = none ∧
    (DklsQcSetupMsgNew lib h 2 ["p1", "p2"] [0, 1] [] s).1 = none ∧
    (DklsQcSessionFromSetup lib (some []) "p1" h s).1 = none ∧
    (DklsQcSessionFromSetup lib (some [1]) "" h s).1 = none ∧
    (DklsQcSessionInputMessage lib h (some []) s).1 = none ∧
    (DklsKeyImportInitiatorNew lib (some []) none 2 ["p1", "p2"] s).1 = none ∧
    (DklsKeyImporter lib (some [1]) "" s).1 = none := by
  refine ⟨rfl, ?_, ?_, rfl, rfl, rfl, rfl, rfl⟩
  · have hj : pinFirst (joinIds ["p1", "p2"]) ⟨[]⟩ =
        some (some [112, 49, 0, 112, 50], ⟨[[112, 49, 0, 112, 50]]⟩) := by decide
    unfold DklsQcSetupMsgNew
    rw [hj]
    rfl
  · have hj : pinFirst (joinIds ["p1", "p2"]) ⟨[]⟩ =
        some (some [112, 49, 0, 112, 50], ⟨[[112, 49, 0, 112, 50]]⟩) := by decide
    unfold DklsQcSetupMsgNew
    rw [hj]
    rfl

end DklsMarshalling

/-! ## The engine contracts behind the go-dkls wrappers -/

section DklsContracts

variable {σ : Type}

theorem toUint32_add_wrap (x : Int) : toUint32 (x + 4294967296) = toUint32 x := by
  unfold toUint32
  rw [Int.add_emod_self]

theorem toUint32_natCast_le (i : Nat) : toUint32 (i : Int) ≤ i := by
  unfold toUint32
  have := Nat.mod_le i 4294967296
  omega

theorem toCInt_toNat_le (n : Nat) : (toCInt n).toNat ≤ n := by
  unfold toCInt
  have := Nat.mod_le n 4294967296
  split <;> omega

theorem CGoBytes_eq_take (mem : Nat → Nat) (ptr len : Nat) :
    CGoBytes mem ptr (toCInt len) =
      if toCInt len < 0 then none
      else some (some (((List.range len).map (fun i => mem (ptr + i))).take (toCInt len).toNat)) := by
  unfold CGoBytes
  split
  · rfl
  · rw [← List.map_take, List.take_range, Nat.min_eq_left (toCInt_toNat_le len)]

theorem dkls_returnBytes_congr (lib : DklsLib σ) (r1 r2 : Nat × TssBuffer × σ)
    (hc : r1.1 = r2.1) (hb : lib.outBytes r1 = lib.outBytes r2) :
    (lib.returnBytes r1).1 = (lib.returnBytes r2).1 := by
  have hl : r1.2.1.len = r2.2.1.len := by
    have := congrArg List.length hb
    simpa [DklsLib.outBytes, dkls_bufferBytes_length] using this
  unfold DklsLib.outBytes DklsLib.bufferBytes at hb
  unfold DklsLib.returnBytes
  rw [hl] at hb
  rw [CGoBytes_eq_take, CGoBytes_eq_take, hc, hl, hb]
  by_cases h : r2.1 = 0 <;> simp [h]

theorem dkls_returnBytes_gives (lib : DklsLib σ) (r : Nat × TssBuffer × σ) (bs : Bytes)
    (h : lib.Gives r bs) :
    lib.returnBytes r = (some (some bs, none), lib.tss_buffer_free r.2.1 r.2.2) := by
  rw [dkls_returnBytes_copy lib r h.1 h.2.1]
  have := h.2.2
  unfold DklsLib.outBytes at this
  rw [this]

theorem cGoSlice_eq_some (x : GoBytes) (pinner : Pinner) (c : CSlice) (p : Pinner)
    (h : cGoSlice x pinner = some (c, p)) : c = x := by
  unfold cGoSlice at h
  split at h
  · cases h; rfl
  · cases h
  · cases h; rfl

theorem cGoSlice_of_ne_nil (bs : Bytes) (pinner : Pinner) (h : bs ≠ []) :
    ∃ p, cGoSlice (some bs) pinner = some (some bs, p) := by
  cases bs with
  | nil => exact absurd rfl h
  | cons b rest => exact ⟨_, rfl⟩

theorem range_map_getD (bs : Bytes) :
    (List.range bs.length).map (fun i => bs.getD (0 + i) 0) = bs := by
  apply List.ext_getElem
  · simp
  · intro i h1 h2
    simp [List.getD_eq_getElem?_getD, List.getElem?_eq_getElem h2]

theorem toy_outBytes_emit (bs : Bytes) (s : ToyState) :
    toyDkls.outBytes (toyEmit bs s) = bs :=
  range_map_getD bs

theorem toy_outBytes_fail (k : LibError) (s : ToyState) :
    toyDkls.outBytes (toyFail k s) = [] := rfl

theorem toy_gives_emit (bs : Bytes) (s : ToyState) (h : bs.length < 2147483648) :
    toyDkls.Gives (toyEmit bs s) bs :=
  ⟨rfl, h, toy_outBytes_emit bs s⟩

theorem toyReply_pure (r : Except LibError Bytes) (s1 s2 : ToyState) :
    (toyReply r s1).1 = (toyReply r s2).1 ∧
      toyDkls.outBytes (toyReply r s1) = toyDkls.outBytes (toyReply r s2) := by
  cases r with
  | error k => exact ⟨rfl, rfl⟩
  | ok bs => exact ⟨rfl, (toy_outBytes_emit bs s1).trans (toy_outBytes_emit bs s2).symm⟩

theorem toy_decode_key_id_pure : PureDecode toyDkls toyDkls.dkls_decode_key_id :=
  fun c s1 s2 => toyReply_pure (toyKeyId c) s1 s2

theorem toy_decode_message_pure : PureDecode toyDkls toyDkls.dkls_decode_message :=
  fun c s1 s2 => toyReply_pure (toyMessage c) s1 s2

theorem toy_decode_party_name_pure (i : Nat) :
    PureDecode toyDkls (fun c => toyDkls.dkls_decode_party_name c i) :=
  fun c s1 s2 => toyReply_pure (toyPartyName c i) s1 s2

/-- C13 (code bug): `DklsDecodePartyName` passes its Go int index as
`C.uint32_t(index)`, so for every engine index + 2^32 is answered as index.
The trial setup message `toySetup` names one party (N = 1) and the trial
engine's decode primitive fails for every index from 1 on; the wrapper fails
for index 1, yet for index 2^32, which is not below N, it returns the name of
party 0 and a nil error. -/
theorem DklsDecodePartyName_wraps_index :
    (∀ (τ : Type) (lib : DklsLib τ) (setup : GoBytes) (index : Int) (s : τ),
      DklsDecodePartyName lib setup (index + 4294967296) s =
        DklsDecodePartyName lib setup index s) ∧
    (idNames (some [112, 49])).length = 1 ∧
    (∀ i s, (toyDkls.dkls_decode_party_name (some toySetup) (i + 1) s).1 =
      declOrder LIB_INVALID_BUFFER_SIZE) ∧
    declOrder LIB_INVALID_BUFFER_SIZE ≠ 0 ∧
    (DklsDecodePartyName toyDkls (some toySetup) 1 toyStart).1 =
      some (none, some "Received a buffer with invalid size") ∧
    (DklsDecodePartyName toyDkls (some toySetup) 4294967296 toyStart).1 =
      some (some [112, 49], none) := by
  refine ⟨?_, by decide, ?_, by decide, by decide, by decide⟩
  · intro τ lib setup index s
    unfold DklsDecodePartyName
    rw [toUint32_add_wrap]
  · intro i s
    rfl

/-- C17: when the three decode primitives of the engine are functions of their
input bytes, `DklsDecodeKeyID`, `DklsDecodeMessage` and `DklsDecodePartyName`
(with the same index) return the same result for the same setup bytes in any
two engine states, and so in particular in two successive calls; the wrapper
hands the engine the bytes of `setup` themselves and returns nothing that
stands for a changed `setup`. -/
theorem decode_wrappers_idempotent (lib : DklsLib σ)
    (hk : PureDecode lib lib.dkls_decode_key_id)
    (hm : PureDecode lib lib.dkls_decode_message)
    (hp : ∀ i, PureDecode lib (fun c => lib.dkls_decode_party_name c i))
    (setup : GoBytes) (index : Int) :
    (∀ s1 s2, (DklsDecodeKeyID lib setup s1).1 = (DklsDecodeKeyID lib setup s2).1) ∧
    (∀ s1 s2, (DklsDecodeMessage lib setup s1).1 = (DklsDecodeMessage lib setup s2).1) ∧
    (∀ s1 s2, (DklsDecodePartyName lib setup index s1).1 =
      (DklsDecodePartyName lib setup index s2).1) ∧
    (∀ s, (DklsDecodeKeyID lib setup (DklsDecodeKeyID lib setup s).2).1 =
      (DklsDecodeKeyID lib setup s).1) ∧
    (∀ s, (DklsDecodeMessage lib setup (DklsDecodeMessage lib setup s).2).1 =
      (DklsDecodeMessage lib setup s).1) ∧
    (∀ s, (DklsDecodePartyName lib setup index (DklsDecodePartyName lib setup index s).2).1 =
      (DklsDecodePartyName lib setup index s).1) ∧
    (∀ pinner c p, cGoSlice setup pinner = some (c, p) → c = setup) := by
  have h1 : ∀ s1 s2, (DklsDecodeKeyID lib setup s1).1 = (DklsDecodeKeyID lib setup s2).1 := by
    intro s1 s2
    unfold DklsDecodeKeyID
    cases cGoSlice setup ⟨[]⟩ with
    | none => rfl
    | some q => exact dkls_returnBytes_congr lib _ _ (hk q.1 s1 s2).1 (hk q.1 s1 s2).2
  have h2 : ∀ s1 s2, (DklsDecodeMessage lib setup s1).1 = (DklsDecodeMessage lib setup s2).1 := by
    intro s1 s2
    unfold DklsDecodeMessage
    cases cGoSlice setup ⟨[]⟩ with
    | none => rfl
    | some q => exact dkls_returnBytes_congr lib _ _ (hm q.1 s1 s2).1 (hm q.1 s1 s2).2
  have h3 : ∀ s1 s2, (DklsDecodePartyName lib setup index s1).1 =
      (DklsDecodePartyName lib setup index s2).1 := by
    intro s1 s2
    unfold DklsDecodePartyName
    cases cGoSlice setup ⟨[]⟩ with
    | none => rfl
    | some q =>
      exact dkls_returnBytes_congr lib _ _ (hp (toUint32 index) q.1 s1 s2).1
        (hp (toUint32 index) q.1 s1 s2).2
  exact ⟨h1, h2, h3, fun s => h1 _ s, fun s => h2 _ s, fun s => h3 _ s,
    fun pinner c p h => cGoSlice_eq_some setup pinner c p h⟩

theorem decode_wrappers_idempotent_witness :
    PureDecode toyDkls toyDkls.dkls_decode_key_id ∧
    (DklsDecodeKeyID toyDkls (some toySetup) toyStart).1 = some (some [1], none) ∧
    (DklsDecodeKeyID toyDkls (some toySetup)
      (DklsDecodeKeyID toyDkls (some toySetup) toyStart).2).1 =
      (DklsDecodeKeyID toyDkls (some toySetup) toyStart).1 :=
  ⟨toy_decode_key_id_pure, by decide,
    (decode_wrappers_idempotent toyDkls toy_decode_key_id_pure toy_decode_message_pure
      toy_decode_party_name_pure (some toySetup) 0).2.2.2.1 toyStart⟩

end DklsContracts

section DklsRoundTrips

variable {σ : Type}

theorem dkls_returnBytes_ok (lib : DklsLib σ) (r : Nat × TssBuffer × σ) (out : GoBytes)
    (h : (lib.returnBytes r).1 = some (out, none)) :
    r.1 = 0 ∧ (r.2.1.len < 2147483648 → out = some (lib.outBytes r)) := by
  by_cases hcode : r.1 = 0
  · refine ⟨hcode, fun hlen => ?_⟩
    rw [dkls_returnBytes_copy lib r hcode hlen] at h
    simp only [Option.some.injEq, Prod.mk.injEq, and_true] at h
    exact h.symm
  · rw [dkls_returnBytes_error lib r hcode] at h
    simp only [Option.some.injEq, Prod.mk.injEq] at h
    exact absurd h.2 (MapLibError_ne_none _ _)

theorem dkls_decode_of_gives (lib : DklsLib σ) (prim : CSlice → σ → Nat × TssBuffer × σ)
    (blob bs : Bytes) (s : σ) (hb : blob ≠ []) (h : lib.Gives (prim (some blob) s) bs) :
    (match cGoSlice (some blob) ⟨[]⟩ with
      | none => ((none : Option (GoBytes × GoError)), s)
      | some (c, _) => lib.returnBytes (prim c s)).1 = some (some bs, none) := by
  obtain ⟨p, hp⟩ := cGoSlice_of_ne_nil blob ⟨[]⟩ hb
  rw [hp]
  show (lib.returnBytes (prim (some blob) s)).1 = _
  rw [dkls_returnBytes_gives lib _ bs h]

theorem toyField_encode (a rest : Bytes) :
    toyField (a.length :: (a ++ rest)) = some (a, rest) := by
  simp [toyField]

theorem toyParse_encode (keyID chainPath msg ids : CSlice) :
    toyParse (toyEncode keyID chainPath msg ids) =
      some (keyID.getD [], chainPath.getD [], msg.getD [], ids.getD []) := by
  unfold toyParse toyEncode
  simp only [List.cons_append, toyField_encode]

theorem idNames_getD (ids : CSlice) : idNames (some (ids.getD [])) = idNames ids := by
  cases ids <;> rfl

theorem toy_setup_codec : SetupCodecContract toyDkls := by
  intro keyID chainPath msg ids s h
  have hv : toyValid keyID chainPath msg ids := by
    by_contra hn
    have hc : (toyDkls.dkls_sign_setupmsg_new keyID chainPath msg ids s).1 =
        declOrder LIB_SETUP_MESSAGE_VALIDATION := by
      show (if toyValid keyID chainPath msg ids then
          toyEmit (toyEncode keyID chainPath msg ids) s
        else toyFail LIB_SETUP_MESSAGE_VALIDATION s).1 = _
      rw [if_neg hn]
      rfl
    rw [hc] at h
    exact absurd h (by decide)
  have he : toyDkls.dkls_sign_setupmsg_new keyID chainPath msg ids s =
      toyEmit (toyEncode keyID chainPath msg ids) s := by
    show (if toyValid keyID chainPath msg ids then
        toyEmit (toyEncode keyID chainPath msg ids) s
      else toyFail LIB_SETUP_MESSAGE_VALIDATION s) = _
    rw [if_pos hv]
  rw [he, toy_outBytes_emit]
  obtain ⟨h1, h2, h3, h4, h5⟩ := hv
  refine ⟨?_, ?_, ?_, ?_⟩
  · show (toyEncode keyID chainPath msg ids).length < 2147483648
    simp only [toyEncode, List.cons_append, List.length_cons, List.length_append]
    omega
  · simp [toyEncode]
  · intro s2
    have hm : toyMessage (some (toyEncode keyID chainPath msg ids)) = .ok (msg.getD []) := by
      simp [toyMessage, toyParse_encode]
    show toyDkls.Gives (toyReply (toyMessage _) s2) _
    rw [hm]
    exact toy_gives_emit _ _ (by omega)
  · intro s2 i hi
    have hget : (idNames ids)[i]? = some ((idNames ids)[i]) := List.getElem?_eq_getElem hi
    have hm : toyPartyName (some (toyEncode keyID chainPath msg ids)) i =
        .ok ((idNames ids)[i]) := by
      simp [toyPartyName, toyParse_encode, idNames_getD, hget]
    have hmem := h5 _ (List.getElem_mem hi)
    refine ⟨(idNames ids)[i], hmem.1, ?_⟩
    show toyDkls.Gives (toyReply (toyPartyName _ i) s2) _
    rw [hm]
    exact toy_gives_emit _ _ (by omega)

theorem toy_from_bytes (res : Bytes) (s1 : ToyState) (h0 : res ≠ [])
    (hl : res.length < 2147483648) :
    toyDkls.dkls_presign_from_bytes (some res) s1 =
      (0, (s1.presigs.length : Int) + 1, { s1 with presigs := s1.presigs ++ [res] }) := by
  cases res with
  | nil => exact absurd rfl h0
  | cons b bs =>
    show (if (b :: bs).length < 2147483648 then _ else _) = _
    rw [if_pos hl]

theorem toy_to_bytes (res : Bytes) (s1 : ToyState) :
    toyDkls.dkls_presign_to_bytes ((s1.presigs.length : Int) + 1)
        { s1 with presigs := s1.presigs ++ [res] } =
      toyEmit res { s1 with presigs := s1.presigs ++ [res] } := by
  have hi : ((s1.presigs.length : Int) + 1 - 1).toNat = s1.presigs.length := by omega
  have hg : (s1.presigs ++ [res])[((s1.presigs.length : Int) + 1 - 1).toNat]? = some res := by
    rw [hi]
    simp
  have h1 : (1 : Int) ≤ (s1.presigs.length : Int) + 1 := by omega
  show (match (s1.presigs ++ [res])[((s1.presigs.length : Int) + 1 - 1).toNat]? with
    | some b => if 1 ≤ (s1.presigs.length : Int) + 1 then toyEmit b _ else toyFail _ _
    | none => toyFail _ _) = _
  rw [hg]
  show (if 1 ≤ (s1.presigs.length : Int) + 1 then _ else _) = _
  rw [if_pos h1]

theorem toyFinish_live (h : Int) (s : ToyState) (hl : toyLive h s) :
    ∃ res, s.pending.lookup h = some res ∧
      toyFinish h s =
        if 0 < res.length ∧ res.length < 2147483648 then
          toyEmit res { s with finished := h :: s.finished }
        else toyFail LIB_SIGNGEN_ERROR { s with finished := h :: s.finished } := by
  obtain ⟨hnf, hsome⟩ := hl
  obtain ⟨res, hres⟩ := Option.isSome_iff_exists.mp hsome
  refine ⟨res, hres, ?_⟩
  unfold toyFinish
  rw [if_neg hnf, hres]

theorem toy_presign : PresignContract toyDkls toyLive := by
  intro h s hl hcode
  obtain ⟨res, _, hf⟩ := toyFinish_live h s hl
  have hf2 : toyDkls.dkls_sign_session_finish h s = toyFinish h s := rfl
  rw [hf2, hf] at hcode ⊢
  by_cases hr : 0 < res.length ∧ res.length < 2147483648
  · rw [if_pos hr]
    rw [toy_outBytes_emit]
    have h0 : res ≠ [] := by
      intro h0
      rw [h0] at hr
      exact absurd hr.1 (by decide)
    refine ⟨hr.2, h0, fun s1 => ?_⟩
    rw [toy_from_bytes res s1 h0 hr.2]
    refine ⟨rfl, ?_, ?_⟩
    · show (s1.presigs.length : Int) + 1 ≠ 0
      omega
    · show toyDkls.Gives (toyDkls.dkls_presign_to_bytes ((s1.presigs.length : Int) + 1) _) res
      rw [toy_to_bytes]
      exact toy_gives_emit _ _ hr.2
  · rw [if_neg hr] at hcode
    have hne : declOrder LIB_SIGNGEN_ERROR ≠ 0 := by decide
    exact absurd hcode hne

/-- C18: over an engine whose setup codec round-trips (`SetupCodecContract`),
whenever `DklsSignSetupMsgNew(keyID, nil, msg, ids)` succeeds with the setup
message `setup`, `DklsDecodeMessage(setup)` succeeds in every engine state and
returns exactly the bytes of `msg`, and `DklsDecodePartyName(setup, i)`
succeeds with a non-empty name for every index `i` below the number of names
in `ids`. -/
theorem sign_setup_round_trip (lib : DklsLib σ) (hc : SetupCodecContract lib)
    (keyID msg ids setup : GoBytes) (s : σ)
    (hnew : (DklsSignSetupMsgNew lib keyID none msg ids s).1 = some (setup, none)) :
    (∀ s2, (DklsDecodeMessage lib setup s2).1 = some (some (msg.getD []), none)) ∧
    (∀ s2 (i : Nat), i < (idNames ids).length →
      ∃ name, name ≠ [] ∧
        (DklsDecodePartyName lib setup (i : Int) s2).1 = some (some name, none)) := by
  unfold DklsSignSetupMsgNew at hnew
  cases hk : cGoSlice keyID ⟨[]⟩ with
  | none => rw [hk] at hnew; cases hnew
  | some q1 =>
    obtain ⟨ck, p1⟩ := q1
    rw [hk] at hnew
    have hcp : cGoSlice none p1 = some (none, p1) := rfl
    simp only [hcp] at hnew
    cases hm : cGoSlice msg p1 with
    | none => rw [hm] at hnew; cases hnew
    | some q2 =>
      obtain ⟨cm, p2⟩ := q2
      rw [hm] at hnew
      simp only at hnew
      cases hi : cGoSlice ids p2 with
      | none => rw [hi] at hnew; cases hnew
      | some q3 =>
        obtain ⟨ci, p3⟩ := q3
        rw [hi] at hnew
        simp only at hnew
        have em : cm = msg := cGoSlice_eq_some _ _ _ _ hm
        have ei : ci = ids := cGoSlice_eq_some _ _ _ _ hi
        subst em ei
        obtain ⟨hcode, hout⟩ := dkls_returnBytes_ok lib _ setup hnew
        obtain ⟨hlen, hne, hmsg, hname⟩ := hc ck none cm ci s hcode
        have hs := hout hlen
        subst hs
        refine ⟨fun s2 => ?_, fun s2 i hi2 => ?_⟩
        · exact dkls_decode_of_gives lib lib.dkls_decode_message _ _ s2 hne (hmsg s2)
        · have hlt : toUint32 (i : Int) < (idNames ci).length :=
            lt_of_le_of_lt (toUint32_natCast_le i) hi2
          obtain ⟨name, hn0, hg⟩ := hname s2 (toUint32 (i : Int)) hlt
          exact ⟨name, hn0,
            dkls_decode_of_gives lib (fun c => lib.dkls_decode_party_name c (toUint32 (i : Int)))
              _ _ s2 hne hg⟩

theorem sign_setup_round_trip_witness :
    SetupCodecContract toyDkls ∧
    (DklsSignSetupMsgNew toyDkls (some [1]) none (some [9, 9]) (some [112, 49]) toyStart).1 =
      some (some toySetup, none) ∧
    (∀ s2, (DklsDecodeMessage toyDkls (some toySetup) s2).1 = some (some [9, 9], none)) ∧
    (∀ s2 (i : Nat), i < 1 →
      ∃ name, name ≠ [] ∧
        (DklsDecodePartyName toyDkls (some toySetup) (i : Int) s2).1 = some (some name, none)) :=
  ⟨toy_setup_codec, by decide,
    sign_setup_round_trip toyDkls toy_setup_codec (some [1]) (some [9, 9]) (some [112, 49])
      (some toySetup) toyStart (by decide)⟩

/-- C19: over an engine whose presignature serialization round-trips
(`PresignContract`), for every byte string `bytes` that `DklsSignSessionFinish`
returns with a nil error for a presign session, `DklsPresignFromBytes(bytes)`
succeeds in every engine state with a non-zero handle, and
`DklsPresignToBytes` of that handle, called next, returns exactly `bytes`. -/
theorem presign_round_trip (lib : DklsLib σ) (presign : Int → σ → Prop)
    (hc : PresignContract lib presign) (session : Handle) (s : σ) (bytes : GoBytes)
    (hp : presign (cHandle session) s)
    (hfin : (DklsSignSessionFinish lib session s).1 = some (bytes, none)) :
    ∀ s1, ∃ h : Handle, h ≠ 0 ∧
      (DklsPresignFromBytes lib bytes s1).1 = some (h, none) ∧
      (DklsPresignToBytes lib h (DklsPresignFromBytes lib bytes s1).2).1 =
        some (bytes, none) := by
  unfold DklsSignSessionFinish at hfin
  obtain ⟨hcode, hout⟩ := dkls_returnBytes_ok lib _ bytes hfin
  obtain ⟨hlen, hne, hrt⟩ := hc (cHandle session) s hp hcode
  have hs := hout hlen
  subst hs
  intro s1
  obtain ⟨hf0, hh, hg⟩ := hrt s1
  obtain ⟨p, hpin⟩ := cGoSlice_of_ne_nil _ ⟨[]⟩ hne
  have hfrom : DklsPresignFromBytes lib
      (some (lib.outBytes (lib.dkls_sign_session_finish (cHandle session) s))) s1 =
      (some ((lib.dkls_presign_from_bytes
          (some (lib.outBytes (lib.dkls_sign_session_finish (cHandle session) s))) s1).2.1, none),
        (lib.dkls_presign_from_bytes
          (some (lib.outBytes (lib.dkls_sign_session_finish (cHandle session) s))) s1).2.2) := by
    unfold DklsPresignFromBytes
    rw [hpin]
    simp [DklsLib.returnHandle, hf0]
  refine ⟨_, hh, by rw [hfrom], ?_⟩
  rw [hfrom]
  exact congrArg Prod.fst (dkls_returnBytes_gives lib _ _ hg)

theorem presign_round_trip_witness :
    PresignContract toyDkls toyLive ∧ toyLive (cHandle 7) toyStart ∧
    (DklsSignSessionFinish toyDkls 7 toyStart).1 = some (some [80, 1, 2], none) ∧
    (∀ s1, ∃ h : Handle, h ≠ 0 ∧
      (DklsPresignFromBytes toyDkls (some [80, 1, 2]) s1).1 = some (h, none) ∧
      (DklsPresignToBytes toyDkls h (DklsPresignFromBytes toyDkls (some [80, 1, 2]) s1).2).1 =
        some (some [80, 1, 2], none)) :=
  ⟨toy_presign, by decide, by decide,
    presign_round_trip toyDkls toyLive toy_presign 7 toyStart (some [80, 1, 2])
      (by decide) (by decide)⟩

end DklsRoundTrips

section FinishOnce

variable {σ τ κ η : Type}

theorem dkls_returnBytes_state (lib : DklsLib σ) (r : Nat × TssBuffer × σ) :
    (lib.returnBytes r).2 = lib.tss_buffer_free r.2.1 r.2.2 := by
  unfold DklsLib.returnBytes
  split <;> rfl

theorem returnBytes_state (lib : SchnorrLib τ κ η) (r : Nat × TssBuffer × τ) :
    (returnBytes lib r).2 = lib.tss_buffer_free r.2.1 r.2.2 := by
  unfold returnBytes
  split <;> rfl

theorem returnBytes_error (lib : SchnorrLib τ κ η) (r : Nat × TssBuffer × τ) (hcode : r.1 ≠ 0) :
    (returnBytes lib r).1 = some (none, MapLibError lib.val (r.1 : Int)) := by
  unfold returnBytes
  rw [if_pos hcode]

theorem returnHandle_state (lib : SchnorrLib τ κ η) (r : Nat × Int × τ) :
    (returnHandle lib r).2 = r.2.2 := by
  unfold returnHandle
  split <;> rfl

theorem returnHandle_error (lib : SchnorrLib τ κ η) (r : Nat × Int × τ) (hcode : r.1 ≠ 0) :
    (returnHandle lib r).1 = (0, MapLibError lib.val (r.1 : Int)) := by
  unfold returnHandle
  rw [if_pos hcode]

theorem returnHandle_ok (lib : SchnorrLib τ κ η) (r : Nat × Int × τ) (hcode : r.1 = 0) :
    (returnHandle lib r).1 = (r.2.1, none) := by
  unfold returnHandle
  simp [hcode]

theorem toyEmit_finished (bs : Bytes) (s : ToyState) : (toyEmit bs s).2.2.finished = s.finished :=
  rfl

theorem toyFail_finished (k : LibError) (s : ToyState) :
    (toyFail k s).2.2.finished = s.finished := rfl

theorem toyReply_finished (r : Except LibError Bytes) (s : ToyState) :
    (toyReply r s).2.2.finished = s.finished := by
  cases r <;> rfl

theorem toyFinish_finished (h h2 : Int) (s : ToyState) (hfin : h ∈ s.finished) :
    h ∈ (toyFinish h2 s).2.2.finished := by
  unfold toyFinish
  split
  · exact hfin
  · split
    · exact hfin
    · split <;> exact List.mem_cons_of_mem _ hfin

theorem toyDkls_step_finished (h : Int) (s s2 : ToyState) (hfin : h ∈ s.finished)
    (hstep : toyDkls.Step s s2) : h ∈ s2.finished := by
  cases hstep with
  | buffer_free buf => exact hfin
  | keygen_setupmsg_new t keyID ids => exact hfin
  | keygen_session_from_setup setup id => exact hfin
  | keygen_session_output_message h2 => exact hfin
  | keygen_session_input_message h2 msg => exact hfin
  | sign_setupmsg_new keyID chainPath msg ids =>
    show h ∈ (if toyValid keyID chainPath msg ids then
      toyEmit (toyEncode keyID chainPath msg ids) s
      else toyFail LIB_SETUP_MESSAGE_VALIDATION s).2.2.finished
    split <;> exact hfin
  | sign_session_output_message h2 => exact hfin
  | sign_session_input_message h2 msg => exact hfin
  | sign_session_finish h2 => exact toyFinish_finished h h2 s hfin
  | decode_key_id setup =>
    show h ∈ (toyReply (toyKeyId setup) s).2.2.finished
    rw [toyReply_finished]
    exact hfin
  | decode_message setup =>
    show h ∈ (toyReply (toyMessage setup) s).2.2.finished
    rw [toyReply_finished]
    exact hfin
  | decode_party_name setup i =>
    show h ∈ (toyReply (toyPartyName setup i) s).2.2.finished
    rw [toyReply_finished]
    exact hfin
  | keyshare_from_bytes buf => exact hfin
  | presign_from_bytes buf =>
    show h ∈ (toyDkls.dkls_presign_from_bytes buf s).2.2.finished
    simp only [toyDkls]
    split
    · split <;> exact hfin
    · exact hfin
  | presign_to_bytes h2 =>
    show h ∈ (toyDkls.dkls_presign_to_bytes h2 s).2.2.finished
    simp only [toyDkls]
    split
    · split <;> exact hfin
    · exact hfin
  | qc_setupmsg_new h2 ids olds t news => exact hfin
  | qc_session_from_setup setup id h2 => exact hfin
  | qc_session_input_message h2 msg => exact hfin
  | key_import_initiator_new key chain t ids => exact hfin
  | key_importer_new setup id => exact hfin

theorem toySchnorr_keygen_finished (h h2 : Int) (s : ToyState) (hfin : h ∈ s.finished) :
    h ∈ (toySchnorr.schnorr_keygen_session_finish h2 s).2.2.finished := by
  show h ∈ (if h2 ∈ s.finished then (declOrder LIB_INVALID_SESSION_STATE, (0 : Int), s)
    else
      match s.pending.lookup h2 with
      | none => (declOrder LIB_INVALID_HANDLE, 0, s)
      | some _ => (0, 1000 + h2, { s with finished := h2 :: s.finished })).2.2.finished
  split
  · exact hfin
  · split
    · exact hfin
    · exact List.mem_cons_of_mem _ hfin

theorem toySchnorr_step_finished (h session : Int) (s s2 : ToyState) (hfin : h ∈ s.finished)
    (hstep : toySchnorr.Step session s s2) : h ∈ s2.finished := by
  cases hstep with
  | buffer_free buf => exact hfin
  | keygen_session_finish h2 => exact toySchnorr_keygen_finished h h2 s hfin
  | keygen_session_input_message h2 msg => exact hfin
  | keygen_session_message_receiver h2 msg i => exact hfin
  | sign_session_from_setup setup id h2 => exact hfin
  | sign_session_finish h2 => exact toyFinish_finished h h2 s hfin
  | sign_session_free h2 hne => exact hfin
  | keyshare_from_bytes buf => exact hfin
  | keyshare_to_bytes h2 => exact hfin
  | decode_message setup => exact hfin

theorem toyFinish_again (h : Int) (s : ToyState) (hfin : h ∈ s.finished) :
    (toyFinish h s).1 = declOrder LIB_INVALID_SESSION_STATE := by
  unfold toyFinish
  rw [if_pos hfin]
  rfl

theorem toyFinish_first (h : Int) (s : ToyState) (hl : toyLive h s) :
    h ∈ (toyFinish h s).2.2.finished := by
  obtain ⟨res, _, hf⟩ := toyFinish_live h s hl
  rw [hf]
  split <;> exact List.mem_cons_self _ _

theorem toy_finish_once :
    FinishOnceContract (declOrder LIB_INVALID_SESSION_STATE) toyFinish
      (fun _ => toyDkls.Step) toyLive :=
  ⟨fun h s => h ∈ s.finished, toyFinish_first, toyFinish_again,
    fun h s s2 hfin hstep => toyDkls_step_finished h s s2 hfin hstep⟩

theorem toy_sign_finish_once :
    FinishOnceContract (declOrder LIB_INVALID_SESSION_STATE) toyFinish
      toySchnorr.Step toyLive :=
  ⟨fun h s => h ∈ s.finished, toyFinish_first, toyFinish_again,
    fun h s s2 hfin hstep => toySchnorr_step_finished h h s s2 hfin hstep⟩

theorem toy_keygen_finish_once :
    FinishOnceContract (declOrder LIB_INVALID_SESSION_STATE)
      toySchnorr.schnorr_keygen_session_finish toySchnorr.Step toyLive := by
  refine ⟨fun h s => h ∈ s.finished, ?_, ?_,
    fun h s s2 hfin hstep => toySchnorr_step_finished h h s s2 hfin hstep⟩
  · intro h s hl
    obtain ⟨hnf, hsome⟩ := hl
    obtain ⟨res, hres⟩ := Option.isSome_iff_exists.mp hsome
    show h ∈ (if h ∈ s.finished then (declOrder LIB_INVALID_SESSION_STATE, (0 : Int), s)
      else
        match s.pending.lookup h with
        | none => (declOrder LIB_INVALID_HANDLE, 0, s)
        | some _ => (0, 1000 + h, { s with finished := h :: s.finished })).2.2.finished
    rw [if_neg hnf, hres]
    exact List.mem_cons_self _ _
  · intro h s hfin
    show (if h ∈ s.finished then (declOrder LIB_INVALID_SESSION_STATE, (0 : Int), s)
      else
        match s.pending.lookup h with
        | none => (declOrder LIB_INVALID_HANDLE, 0, s)
        | some _ => (0, 1000 + h, { s with finished := h :: s.finished })).1 = _
    rw [if_pos hfin]

theorem finalized_of_reach (step : σ → σ → Prop) (fin : σ → Prop)
    (hkeep : ∀ s s2, fin s → step s s2 → fin s2) (s s2 : σ) (h0 : fin s)
    (hreach : Relation.ReflTransGen step s s2) : fin s2 := by
  induction hreach with
  | refl => exact h0
  | tail _ hstep ih => exact hkeep _ _ ih hstep

theorem dkls_finish_reach (lib : DklsLib σ) (session : Handle) (s : σ) :
    Relation.ReflTransGen lib.Step (lib.dkls_sign_session_finish (cHandle session) s).2.2
      (DklsSignSessionFinish lib session s).2 ∧
    Relation.ReflTransGen lib.Step s (DklsSignSessionFinish lib session s).2 := by
  have h1 : lib.Step (lib.dkls_sign_session_finish (cHandle session) s).2.2
      (DklsSignSessionFinish lib session s).2 := by
    unfold DklsSignSessionFinish
    rw [dkls_returnBytes_state]
    exact DklsLib.Step.buffer_free _ _
  exact ⟨Relation.ReflTransGen.single h1,
    Relation.ReflTransGen.tail
      (Relation.ReflTransGen.single (DklsLib.Step.sign_session_finish (cHandle session) s)) h1⟩

theorem schnorr_sign_finish_reach (lib : SchnorrLib τ κ η) (session : η) (h : Handle) (t : τ) :
    Relation.ReflTransGen (lib.Step session)
      (lib.schnorr_sign_session_finish (lib.cHandle h) t).2.2
      (SchnorrSignSessionFinish lib h t).2 ∧
    Relation.ReflTransGen (lib.Step session) t (SchnorrSignSessionFinish lib h t).2 := by
  have h1 : lib.Step session (lib.schnorr_sign_session_finish (lib.cHandle h) t).2.2
      (SchnorrSignSessionFinish lib h t).2 := by
    unfold SchnorrSignSessionFinish
    rw [returnBytes_state]
    exact SchnorrLib.Step.buffer_free _ _
  exact ⟨Relation.ReflTransGen.single h1,
    Relation.ReflTransGen.tail
      (Relation.ReflTransGen.single (SchnorrLib.Step.sign_session_finish (lib.cHandle h) t)) h1⟩

theorem schnorr_keygen_finish_reach (lib : SchnorrLib τ κ η) (session : η) (h : Handle) (t : τ) :
    Relation.ReflTransGen (lib.Step session)
      (lib.schnorr_keygen_session_finish (lib.cHandle h) t).2.2
      (SchnorrKeygenSessionFinish lib h t).2 ∧
    Relation.ReflTransGen (lib.Step session) t (SchnorrKeygenSessionFinish lib h t).2 := by
  unfold SchnorrKeygenSessionFinish
  rw [returnHandle_state]
  exact ⟨Relation.ReflTransGen.refl,
    Relation.ReflTransGen.single (SchnorrLib.Step.keygen_session_finish (lib.cHandle h) t)⟩

/-- C20: over an engine whose finish primitives finalize the session for good
(`FinishOnceContract`), for each of `DklsSignSessionFinish`,
`SchnorrSignSessionFinish` and `SchnorrKeygenSessionFinish`: the first call
returns the outcome the engine reported (the translated error for a non-zero
code, otherwise the result bytes or the handle with a nil error), and for a
live session every later call on it returns no result and the error "Invalid
session state": the call may come after any sequence of calls of the engine,
on this or any other session and by any wrapper, other than the freeing of
the session itself. -/
theorem finish_wrappers_once (dkls : DklsLib σ) (schnorr : SchnorrLib τ κ η)
    (liveD : Int → σ → Prop) (liveS liveK : η → τ → Prop)
    (hvd : ValidCodes dkls.val) (hnd : dkls.val LIB_INVALID_SESSION_STATE ≠ 0)
    (hvs : ValidCodes schnorr.val) (hns : schnorr.val LIB_INVALID_SESSION_STATE ≠ 0)
    (hd : FinishOnceContract (dkls.val LIB_INVALID_SESSION_STATE)
      dkls.dkls_sign_session_finish (fun _ => dkls.Step) liveD)
    (hs : FinishOnceContract (schnorr.val LIB_INVALID_SESSION_STATE)
      schnorr.schnorr_sign_session_finish schnorr.Step liveS)
    (hk : FinishOnceContract (schnorr.val LIB_INVALID_SESSION_STATE)
      schnorr.schnorr_keygen_session_finish schnorr.Step liveK)
    (session : Handle) :
    (∀ s,
      ((dkls.dkls_sign_session_finish (cHandle session) s).1 ≠ 0 →
        (DklsSignSessionFinish dkls session s).1 =
          some (none, MapLibError dkls.val
            ((dkls.dkls_sign_session_finish (cHandle session) s).1 : Int))) ∧
      ((dkls.dkls_sign_session_finish (cHandle session) s).1 = 0 →
        (dkls.dkls_sign_session_finish (cHandle session) s).2.1.len < 2147483648 →
        (DklsSignSessionFinish dkls session s).1 =
          some (some (dkls.outBytes (dkls.dkls_sign_session_finish (cHandle session) s)),
            none)) ∧
      (liveD (cHandle session) s → ∀ s2,
        Relation.ReflTransGen dkls.Step
          (dkls.dkls_sign_session_finish (cHandle session) s).2.2 s2 →
        (DklsSignSessionFinish dkls session s2).1 =
          some (none, some "Invalid session state"))) ∧
    (∀ t,
      ((schnorr.schnorr_sign_session_finish (schnorr.cHandle session) t).1 ≠ 0 →
        (SchnorrSignSessionFinish schnorr session t).1 =
          some (none, MapLibError schnorr.val
            ((schnorr.schnorr_sign_session_finish (schnorr.cHandle session) t).1 : Int))) ∧
      ((schnorr.schnorr_sign_session_finish (schnorr.cHandle session) t).1 = 0 →
        (schnorr.schnorr_sign_session_finish (schnorr.cHandle session) t).2.1.len <
          2147483648 →
        (SchnorrSignSessionFinish schnorr session t).1 =
          some (some (bufferBytes schnorr
            (schnorr.schnorr_sign_session_finish (schnorr.cHandle session) t).2.2
            (schnorr.schnorr_sign_session_finish (schnorr.cHandle session) t).2.1), none)) ∧
      (liveS (schnorr.cHandle session) t → ∀ t2,
        Relation.ReflTransGen (schnorr.Step (schnorr.cHandle session))
          (schnorr.schnorr_sign_session_finish (schnorr.cHandle session) t).2.2 t2 →
        (SchnorrSignSessionFinish schnorr session t2).1 =
          some (none, some "Invalid session state"))) ∧
    (∀ t,
      ((schnorr.schnorr_keygen_session_finish (schnorr.cHandle session) t).1 ≠ 0 →
        (SchnorrKeygenSessionFinish schnorr session t).1 =
          (0, MapLibError schnorr.val
            ((schnorr.schnorr_keygen_session_finish (schnorr.cHandle session) t).1 : Int))) ∧
      ((schnorr.schnorr_keygen_session_finish (schnorr.cHandle session) t).1 = 0 →
        (SchnorrKeygenSessionFinish schnorr session t).1 =
          ((schnorr.schnorr_keygen_session_finish (schnorr.cHandle session) t).2.1, none)) ∧
      (liveK (schnorr.cHandle session) t → ∀ t2,
        Relation.ReflTransGen (schnorr.Step (schnorr.cHandle session))
          (schnorr.schnorr_keygen_session_finish (schnorr.cHandle session) t).2.2 t2 →
        (SchnorrKeygenSessionFinish schnorr session t2).1 =
          (0, some "Invalid session state"))) := by
  have hmd : MapLibError dkls.val (dkls.val LIB_INVALID_SESSION_STATE : Int) =
      some "Invalid session state" := MapLibError_of_key dkls.val hvd _
  have hms : MapLibError schnorr.val (schnorr.val LIB_INVALID_SESSION_STATE : Int) =
      some "Invalid session state" := MapLibError_of_key schnorr.val hvs _
  obtain ⟨finD, hd1, hd2, hd3⟩ := hd
  obtain ⟨finS, hs1, hs2, hs3⟩ := hs
  obtain ⟨finK, hk1, hk2, hk3⟩ := hk
  refine ⟨fun s => ⟨?_, ?_, ?_⟩, fun t => ⟨?_, ?_, ?_⟩, fun t => ⟨?_, ?_, ?_⟩⟩
  · intro hc
    exact congrArg Prod.fst (dkls_returnBytes_error dkls _ hc)
  · intro hc hl
    exact congrArg Prod.fst (dkls_returnBytes_copy dkls _ hc hl)
  · intro hl s2 hreach
    have hfin := finalized_of_reach dkls.Step (finD (cHandle session))
      (hd3 (cHandle session)) _ s2 (hd1 _ _ hl) hreach
    have hcode := hd2 _ _ hfin
    have hne : (dkls.dkls_sign_session_finish (cHandle session) s2).1 ≠ 0 := by
      rw [hcode]
      exact hnd
    have hres := congrArg Prod.fst (dkls_returnBytes_error dkls _ hne)
    rw [hcode, hmd] at hres
    exact hres
  · intro hc
    exact returnBytes_error schnorr _ hc
  · intro hc hl
    exact congrArg Prod.fst (returnBytes_copy schnorr _ hc hl)
  · intro hl t2 hreach
    have hfin := finalized_of_reach (schnorr.Step (schnorr.cHandle session))
      (finS (schnorr.cHandle session)) (hs3 (schnorr.cHandle session)) _ t2 (hs1 _ _ hl) hreach
    have hcode := hs2 _ _ hfin
    have hne : (schnorr.schnorr_sign_session_finish (schnorr.cHandle session) t2).1 ≠ 0 := by
      rw [hcode]
      exact hns
    have hres := returnBytes_error schnorr _ hne
    rw [hcode, hms] at hres
    exact hres
  · intro hc
    exact returnHandle_error schnorr _ hc
  · intro hc
    exact returnHandle_ok schnorr _ hc
  · intro hl t2 hreach
    have hfin := finalized_of_reach (schnorr.Step (schnorr.cHandle session))
      (finK (schnorr.cHandle session)) (hk3 (schnorr.cHandle session)) _ t2 (hk1 _ _ hl) hreach
    have hcode := hk2 _ _ hfin
    have hne : (schnorr.schnorr_keygen_session_finish (schnorr.cHandle session) t2).1 ≠ 0 := by
      rw [hcode]
      exact hns
    have hres := returnHandle_error schnorr _ hne
    rw [hcode, hms] at hres
    exact hres

theorem finish_wrappers_once_witness :
    toyLive (cHandle 7) toyPair ∧
    (DklsSignSessionFinish toyDkls 7 toyPair).1 = some (some [80, 1, 2], none) ∧
    (DklsSignSessionFinish toyDkls 8 (DklsSignSessionFinish toyDkls 7 toyPair).2).1 =
      some (some [81], none) ∧
    (DklsSignSessionFinish toyDkls 7
      (DklsSignSessionFinish toyDkls 8 (DklsSignSessionFinish toyDkls 7 toyPair).2).2).1 =
      some (none, some "Invalid session state") ∧
    (SchnorrSignSessionFinish toySchnorr 7
      (SchnorrSignSessionFinish toySchnorr 8
        (SchnorrSignSessionFinish toySchnorr 7 toyPair).2).2).1 =
      some (none, some "Invalid session state") ∧
    (SchnorrKeygenSessionFinish toySchnorr 7 toyPair).1 = (1007, none) ∧
    (SchnorrKeygenSessionFinish toySchnorr 7
      (SchnorrKeygenSessionFinish toySchnorr 8
        (SchnorrKeygenSessionFinish toySchnorr 7 toyPair).2).2).1 =
      (0, some "Invalid session state") :=
  ⟨by decide, by decide, by decide,
    ((finish_wrappers_once toyDkls toySchnorr toyLive toyLive toyLive validCodes_declOrder
      (by decide) validCodes_declOrder (by decide) toy_finish_once toy_sign_finish_once
      toy_keygen_finish_once 7).1 toyPair).2.2 (by decide) _
      (Relation.ReflTransGen.trans (dkls_finish_reach toyDkls 7 toyPair).1
        (dkls_finish_reach toyDkls 8 _).2),
    ((finish_wrappers_once toyDkls toySchnorr toyLive toyLive toyLive validCodes_declOrder
      (by decide) validCodes_declOrder (by decide) toy_finish_once toy_sign_finish_once
      toy_keygen_finish_once 7).2.1 toyPair).2.2 (by decide) _
      (Relation.ReflTransGen.trans (schnorr_sign_finish_reach toySchnorr 7 7 toyPair).1
        (schnorr_sign_finish_reach toySchnorr 7 8 _).2),
    by decide,
    ((finish_wrappers_once toyDkls toySchnorr toyLive toyLive toyLive validCodes_declOrder
      (by decide) validCodes_declOrder (by decide) toy_finish_once toy_sign_finish_once
      toy_keygen_finish_once 7).2.2 toyPair).2.2 (by decide) _
      (Relation.ReflTransGen.trans (schnorr_keygen_finish_reach toySchnorr 7 7 toyPair).1
        (schnorr_keygen_finish_reach toySchnorr 7 8 _).2)⟩

end FinishOnce

/-! ## Handles, party indexes, thresholds and error values -/

section WrapperArguments

variable {σ κ η : Type}

theorem pinFirst_eq_some (x : GoBytes) (pinner : Pinner) (c : CSlice) (p : Pinner)
    (h : pinFirst x pinner = some (c, p)) : c = x := by
  unfold pinFirst at h
  split at h
  · cases h
  · cases h
  · cases h; rfl

theorem toUint32_of_nonneg (t : Int) (h0 : 0 ≤ t) (h1 : t < 4294967296) :
    toUint32 t = t.toNat := by
  unfold toUint32
  rw [Int.emod_eq_of_lt h0 h1]

theorem toUint32_of_neg (t : Int) (h0 : -4294967296 ≤ t) (h1 : t < 0) :
    toUint32 t = (t + 4294967296).toNat := by
  unfold toUint32
  have h : t % 4294967296 = t + 4294967296 := by omega
  rw [h]

/-- C30: MapLibError never returns a nil error, for any numbering of the header
constants and any integer code; for the success code LIB_OK of an admissible
header the text is "ok", still a non-nil error; and a byte- or handle-returning
wrapper tail that takes its error branch (a non-zero engine code) returns a
non-nil error to the caller. -/
theorem MapLibError_never_nil (val : LibError → Nat) (hv : ValidCodes val) :
    (∀ err : Int, MapLibError val err ≠ none) ∧
    (∀ err : Int, ∃ text, MapLibError val err = some text) ∧
    MapLibError val (val LIB_OK : Int) = some "ok" ∧
    (∀ (lib : SchnorrLib σ κ η) (r : Nat × TssBuffer × σ), r.1 ≠ 0 →
      ∃ e, (returnBytes lib r).1 = some (none, some e)) ∧
    (∀ (lib : SchnorrLib σ κ η) (r : Nat × Int × σ), r.1 ≠ 0 →
      ∃ e, (returnHandle lib r).1 = (0, some e)) ∧
    (∀ (lib : DklsLib σ) (r : Nat × TssBuffer × σ), r.1 ≠ 0 →
      ∃ e, (lib.returnBytes r).1 = some (none, some e)) := by
  have hex : ∀ (v : LibError → Nat) (err : Int), ∃ text, MapLibError v err = some text := by
    intro v err
    cases h : MapLibError v err with
    | none => exact absurd h (MapLibError_ne_none v err)
    | some text => exact ⟨text, rfl⟩
  refine ⟨MapLibError_ne_none val, hex val, MapLibError_of_key val hv LIB_OK, ?_, ?_, ?_⟩
  · intro lib r hr
    obtain ⟨e, he⟩ := hex lib.val (r.1 : Int)
    exact ⟨e, by rw [returnBytes_error lib r hr, he]⟩
  · intro lib r hr
    obtain ⟨e, he⟩ := hex lib.val (r.1 : Int)
    exact ⟨e, by rw [returnHandle_error lib r hr, he]⟩
  · intro lib r hr
    obtain ⟨e, he⟩ := hex lib.val (r.1 : Int)
    exact ⟨e, by rw [dkls_returnBytes_error lib r hr, he]⟩

theorem MapLibError_never_nil_witness :
    ValidCodes declOrder ∧ MapLibError declOrder 0 = some "ok" ∧
    MapLibError declOrder 12345 = some "unknown error: 12345" ∧
    MapLibError declOrder 12345 ≠ none :=
  ⟨validCodes_declOrder, by decide, by decide,
    (MapLibError_never_nil (σ := Nat) (κ := GoBytes) (η := Handle) declOrder
      validCodes_declOrder).1 12345⟩

/-- C21: `cHandle` keeps the integer of every Handle, 0 included. Whenever the
setup message and the id are marshalled (neither is empty), the wrapper
DklsQcSessionFromSetup calls the engine with the handle `keyshare` itself,
also for `keyshare = 0`, and its result is decided by the engine's code alone:
(0, MapLibError(code)) for a non-zero code, (handle, nil) for code 0. -/
theorem DklsQcSessionFromSetup_passes_handle (lib : DklsLib σ) (setupMsg : GoBytes)
    (id : String) (keyshare : Handle) (s : σ) (cSetupMsg cID : CSlice) (p1 p2 : Pinner)
    (hsetup : pinFirst setupMsg ⟨[]⟩ = some (cSetupMsg, p1))
    (hid : pinFirst (stringBytes id) p1 = some (cID, p2)) :
    cHandle keyshare = keyshare ∧ cHandle 0 = 0 ∧
    cSetupMsg = setupMsg ∧ cID = stringBytes id ∧
    DklsQcSessionFromSetup lib setupMsg id keyshare s =
      lib.returnHandle (lib.dkls_qc_session_from_setup setupMsg (stringBytes id) keyshare s) ∧
    ((lib.dkls_qc_session_from_setup setupMsg (stringBytes id) keyshare s).1 ≠ 0 →
      DklsQcSessionFromSetup lib setupMsg id keyshare s =
        (some (0, MapLibError lib.val
          ((lib.dkls_qc_session_from_setup setupMsg (stringBytes id) keyshare s).1 : Int)),
          (lib.dkls_qc_session_from_setup setupMsg (stringBytes id) keyshare s).2.2)) ∧
    ((lib.dkls_qc_session_from_setup setupMsg (stringBytes id) keyshare s).1 = 0 →
      DklsQcSessionFromSetup lib setupMsg id keyshare s =
        (some ((lib.dkls_qc_session_from_setup setupMsg (stringBytes id) keyshare s).2.1, none),
          (lib.dkls_qc_session_from_setup setupMsg (stringBytes id) keyshare s).2.2)) := by
  have e1 : cSetupMsg = setupMsg := pinFirst_eq_some _ _ _ _ hsetup
  have e2 : cID = stringBytes id := pinFirst_eq_some _ _ _ _ hid
  subst e1
  have hw : DklsQcSessionFromSetup lib cSetupMsg id keyshare s =
      lib.returnHandle (lib.dkls_qc_session_from_setup cSetupMsg (stringBytes id) keyshare s) := by
    unfold DklsQcSessionFromSetup
    rw [hsetup]
    simp only []
    rw [hid, e2]
    rfl
  refine ⟨rfl, rfl, rfl, e2, hw, fun hne => ?_, fun h0 => ?_⟩
  · rw [hw]
    simp [DklsLib.returnHandle, hne]
  · rw [hw]
    simp [DklsLib.returnHandle, h0]

theorem DklsQcSessionFromSetup_passes_handle_witness :
    pinFirst (some [1, 2]) ⟨[]⟩ = some (some [1, 2], ⟨[[1, 2]]⟩) ∧
    pinFirst (stringBytes "p3") ⟨[[1, 2]]⟩ = some (some [112, 51], ⟨[[1, 2], [112, 51]]⟩) ∧
    DklsQcSessionFromSetup (fixedDkls 0 9 ⟨0, 0⟩) (some [1, 2]) "p3" 0 5 = (some (9, none), 6) ∧
    DklsQcSessionFromSetup (fixedDkls 0 9 ⟨0, 0⟩) (some [1, 2]) "p3" 0 5 =
      (fixedDkls 0 9 ⟨0, 0⟩).returnHandle
        ((fixedDkls 0 9 ⟨0, 0⟩).dkls_qc_session_from_setup (some [1, 2]) (stringBytes "p3") 0 5) :=
  ⟨by decide, by decide, by decide,
    (DklsQcSessionFromSetup_passes_handle (fixedDkls 0 9 ⟨0, 0⟩) (some [1, 2]) "p3" 0 5
      (some [1, 2]) (some [112, 51]) ⟨[[1, 2]]⟩ ⟨[[1, 2], [112, 51]]⟩ (by decide)
      (by decide)).2.2.2.2.1⟩

/-- C24: the old and the new party-index lists of DklsQcSetupMsgNew are encoded
by `partyBytes`, one byte per entry and in order: the encoding has the length
of the list, its j-th byte is the j-th index modulo 256, an index in 0..255 is
encoded as itself, and the encoded bytes equal the caller's indexes exactly
when every index lies in 0..255; whenever the three slices are marshalled, the
engine is called with exactly these two encodings. -/
theorem partyBytes_encodes_indexes (lib : DklsLib σ) (keyshare : Handle) (threshold : Int)
    (ids : List String) (oldParties newParties : List Int) (s : σ) :
    (∀ parties : List Int, ∃ bs : Bytes, partyBytes parties = some bs ∧
      bs.length = parties.length ∧
      (∀ j : Nat, bs[j]? = (parties[j]?).map (fun i : Int => (i % 256).toNat)) ∧
      (∀ (j : Nat) (i : Int), parties[j]? = some i → 0 ≤ i → i < 256 →
        bs[j]? = some i.toNat ∧ ((i.toNat : Nat) : Int) = i) ∧
      (bs.map (fun b : Nat => (b : Int)) = parties ↔ ∀ i ∈ parties, 0 ≤ i ∧ i < 256)) ∧
    (∀ cIds cOld cNew p1 p2 p3,
      pinFirst (joinIds ids) ⟨[]⟩ = some (cIds, p1) →
      pinFirst (partyBytes oldParties) p1 = some (cOld, p2) →
      pinFirst (partyBytes newParties) p2 = some (cNew, p3) →
      DklsQcSetupMsgNew lib keyshare threshold ids oldParties newParties s =
        lib.returnBytes
          (lib.dkls_qc_setupmsg_new keyshare (joinIds ids) (partyBytes oldParties)
            (toUint32 threshold) (partyBytes newParties) s)) := by
  refine ⟨fun parties => ⟨parties.map (fun i : Int => (i % 256).toNat), rfl, by simp, ?_, ?_, ?_⟩, ?_⟩
  · intro j
    simp [List.getElem?_map]
  · intro j i hj h0 h1
    refine ⟨?_, Int.toNat_of_nonneg h0⟩
    rw [List.getElem?_map, hj]
    simp only [Option.map_some']
    rw [Int.emod_eq_of_lt h0 h1]
  · rw [List.map_map]
    constructor
    · intro h i hi
      have hi2 := hi
      rw [← h] at hi2
      obtain ⟨k, _, hk⟩ := List.mem_map.mp hi2
      simp only [Function.comp] at hk
      omega
    · intro h
      have : ∀ i ∈ parties, ((fun b : Nat => (b : Int)) ∘ fun i : Int => (i % 256).toNat) i = id i := by
        intro i hi
        have := h i hi
        simp only [Function.comp, id]
        omega
      rw [List.map_congr_left this, List.map_id]
  · intro cIds cOld cNew p1 p2 p3 h1 h2 h3
    have e1 := pinFirst_eq_some _ _ _ _ h1
    have e2 := pinFirst_eq_some _ _ _ _ h2
    have e3 := pinFirst_eq_some _ _ _ _ h3
    unfold DklsQcSetupMsgNew
    rw [h1]
    simp only []
    rw [h2]
    simp only []
    rw [h3, e1, e2, e3]
    rfl

end WrapperArguments

section KeygenSetup

variable {σ η : Type}

theorem partyBytes_encodes_indexes_witness :
    partyBytes [0, 1] = some [0, 1] ∧ partyBytes [1, 2, 3] = some [1, 2, 3] ∧
    partyBytes [256, -1] = some [0, 255] ∧
    DklsQcSetupMsgNew (fixedDkls 0 9 ⟨0, 2⟩) 7 2 ["p1", "p2"] [0, 1] [1, 2, 3] 5 =
      (fixedDkls 0 9 ⟨0, 2⟩).returnBytes
        ((fixedDkls 0 9 ⟨0, 2⟩).dkls_qc_setupmsg_new 7 (joinIds ["p1", "p2"]) (partyBytes [0, 1])
          (toUint32 2) (partyBytes [1, 2, 3]) 5) :=
  ⟨by decide, by decide, by decide,
    (partyBytes_encodes_indexes (fixedDkls 0 9 ⟨0, 2⟩) 7 2 ["p1", "p2"] [0, 1] [1, 2, 3] 5).2
      (some [112, 49, 0, 112, 50]) (some [0, 1]) (some [1, 2, 3])
      ⟨[[112, 49, 0, 112, 50]]⟩ ⟨[[112, 49, 0, 112, 50], [0, 1]]⟩
      ⟨[[112, 49, 0, 112, 50], [0, 1], [1, 2, 3]]⟩ (by decide) (by decide) (by decide)⟩

/-- C25: DklsKeygenSetupMsgNew and SchnorrKeygenSetupMsgNew marshal alike. Given
that the `cGoSlice` of go-schnorr returns what the `cGoSlice` of go-dkls does
(the null pointer for nil, the slice itself otherwise), for every threshold,
key id and ids that go-dkls marshals: both wrappers call their engine primitive
with the threshold reduced modulo 2^32, the key id and the ids, and return the
translation of its answer. The threshold passed is `t` itself for
0 ≤ t < 2^31 and `t + 2^32` for a negative int32 `t`, which neither wrapper
rejects. Over one engine the two wrappers return the same. -/
theorem keygen_setup_wrappers_agree (dkls : DklsLib σ) (schnorr : SchnorrLib σ CSlice η)
    (prim : Nat → CSlice → CSlice → σ → Nat × TssBuffer × σ)
    (hslice : ∀ b pinner c p, cGoSlice b pinner = some (c, p) → schnorr.cGoSlice b = c)
    (t : Int) (keyID ids : GoBytes) (s : σ) (ckeyIDs cIDs : CSlice) (p1 p2 : Pinner)
    (hkey : cGoSlice keyID ⟨[]⟩ = some (ckeyIDs, p1))
    (hids : cGoSlice ids p1 = some (cIDs, p2)) :
    ckeyIDs = keyID ∧ cIDs = ids ∧
    (∀ pinner, cGoSlice none pinner = some (none, pinner)) ∧
    schnorr.cGoSlice none = none ∧
    DklsKeygenSetupMsgNew dkls t keyID ids s =
      dkls.returnBytes (dkls.dkls_keygen_setupmsg_new (toUint32 t) keyID ids s) ∧
    SchnorrKeygenSetupMsgNew schnorr prim t keyID ids s =
      returnBytes schnorr (prim (toUint32 t) keyID ids s) ∧
    (0 ≤ t → t < 2147483648 → toUint32 t = t.toNat ∧ ((t.toNat : Nat) : Int) = t) ∧
    (-2147483648 ≤ t → t < 0 →
      toUint32 t = (t + 4294967296).toNat ∧ (((t + 4294967296).toNat : Nat) : Int) = t + 4294967296) ∧
    (prim = dkls.dkls_keygen_setupmsg_new → schnorr.val = dkls.val → schnorr.mem = dkls.mem →
      schnorr.tss_buffer_free = dkls.tss_buffer_free →
      SchnorrKeygenSetupMsgNew schnorr prim t keyID ids s =
        DklsKeygenSetupMsgNew dkls t keyID ids s) := by
  have e1 : ckeyIDs = keyID := cGoSlice_eq_some _ _ _ _ hkey
  have e2 : cIDs = ids := cGoSlice_eq_some _ _ _ _ hids
  have s1 : schnorr.cGoSlice keyID = keyID := (hslice _ _ _ _ hkey).trans e1
  have s2 : schnorr.cGoSlice ids = ids := (hslice _ _ _ _ hids).trans e2
  have hd : DklsKeygenSetupMsgNew dkls t keyID ids s =
      dkls.returnBytes (dkls.dkls_keygen_setupmsg_new (toUint32 t) keyID ids s) := by
    unfold DklsKeygenSetupMsgNew
    rw [hkey]
    simp only []
    rw [hids, e1, e2]
  have hs : SchnorrKeygenSetupMsgNew schnorr prim t keyID ids s =
      returnBytes schnorr (prim (toUint32 t) keyID ids s) := by
    unfold SchnorrKeygenSetupMsgNew
    rw [s1, s2]
  refine ⟨e1, e2, fun _ => rfl, hslice none ⟨[]⟩ none ⟨[]⟩ rfl, hd, hs, ?_, ?_, ?_⟩
  · intro h0 h1
    exact ⟨toUint32_of_nonneg t h0 (by omega), Int.toNat_of_nonneg h0⟩
  · intro h0 h1
    exact ⟨toUint32_of_neg t (by omega) h1, Int.toNat_of_nonneg (by omega)⟩
  · intro hp hval hmem hfree
    rw [hd, hs, hp]
    unfold returnBytes DklsLib.returnBytes
    rw [hval, hmem, hfree]

theorem keygen_setup_wrappers_agree_witness :
    cGoSlice none ⟨[]⟩ = some (none, ⟨[]⟩) ∧
    cGoSlice (PrepareIDSlice 2) ⟨[]⟩ =
      some (some [112, 49, 0, 112, 50], ⟨[[112, 49, 0, 112, 50]]⟩) ∧
    SchnorrKeygenSetupMsgNew (fixedLib 0 9 ⟨0, 2⟩)
        (fixedDkls 0 9 ⟨0, 2⟩).dkls_keygen_setupmsg_new 2 none (PrepareIDSlice 2) 5 =
      (some (some [0, 1], none), 7) ∧
    SchnorrKeygenSetupMsgNew (fixedLib 0 9 ⟨0, 2⟩)
        (fixedDkls 0 9 ⟨0, 2⟩).dkls_keygen_setupmsg_new 2 none (PrepareIDSlice 2) 5 =
      DklsKeygenSetupMsgNew (fixedDkls 0 9 ⟨0, 2⟩) 2 none (PrepareIDSlice 2) 5 :=
  ⟨by decide, by decide, by decide,
    (keygen_setup_wrappers_agree (fixedDkls 0 9 ⟨0, 2⟩) (fixedLib 0 9 ⟨0, 2⟩)
      (fixedDkls 0 9 ⟨0, 2⟩).dkls_keygen_setupmsg_new
      (fun b pinner c p h => (cGoSlice_eq_some b pinner c p h).symm)
      2 none (PrepareIDSlice 2) 5 none (some [112, 49, 0, 112, 50]) ⟨[]⟩
      ⟨[[112, 49, 0, 112, 50]]⟩ (by decide) (by decide)).2.2.2.2.2.2.2.2 rfl rfl rfl rfl⟩

end KeygenSetup

/-! ## Party ids and their encoding -/

section PartyIds

theorem intercalate_go_data (sep : String) : ∀ (l : List String) (acc : String),
    (String.intercalate.go acc sep l).data =
      acc.data ++ (l.map (fun a => sep.data ++ a.data)).flatten
  | [], acc => by simp [String.intercalate.go]
  | a :: rest, acc => by
    rw [String.intercalate.go, intercalate_go_data sep rest]
    simp [String.data_append, List.append_assoc]

theorem intercalate_cons (sep : List Nat) (a : List Nat) (rest : List (List Nat)) :
    List.intercalate sep (a :: rest) = a ++ (rest.map (fun x => sep ++ x)).flatten := by
  induction rest generalizing a with
  | nil => simp [List.intercalate]
  | cons b r ih =>
    have h := ih b
    simp only [List.intercalate, List.intersperse, List.flatten, List.map_cons] at h ⊢
    rw [h]
    simp [List.append_assoc]

theorem joinIds_eq (ids : List String) :
    joinIds ids = some (List.intercalate [0] (ids.map idBytes)) := by
  unfold joinIds stringBytes
  cases ids with
  | nil => rfl
  | cons a rest =>
    rw [List.map_cons, intercalate_cons]
    show some (((String.intercalate.go a "\x00" rest).data).map Char.toNat) = _
    rw [intercalate_go_data]
    simp only [List.map_append, List.map_flatten, List.map_map, idBytes]
    congr 2

theorem splitNul_no_nul (a : Bytes) (h : (0 : Nat) ∉ a) : splitNul a = [a] := by
  induction a with
  | nil => rfl
  | cons b r ih =>
    have hb : b ≠ 0 := fun e => h (e ▸ List.mem_cons_self _ _)
    have hr : (0 : Nat) ∉ r := fun m => h (List.mem_cons_of_mem _ m)
    simp [splitNul, hb, ih hr]

theorem splitNul_append (a rest : Bytes) (h : (0 : Nat) ∉ a) :
    splitNul (a ++ 0 :: rest) = a :: splitNul rest := by
  induction a with
  | nil => simp [splitNul]
  | cons b r ih =>
    have hb : b ≠ 0 := fun e => h (e ▸ List.mem_cons_self _ _)
    have hr : (0 : Nat) ∉ r := fun m => h (List.mem_cons_of_mem _ m)
    simp [splitNul, hb, ih hr]

theorem splitNul_join_aux (rest : List Bytes) :
    ∀ a : Bytes, (0 : Nat) ∉ a → (∀ l ∈ rest, (0 : Nat) ∉ l) →
      splitNul (a ++ (rest.map (fun x => 0 :: x)).flatten) = a :: rest := by
  induction rest with
  | nil =>
    intro a ha _
    simpa using splitNul_no_nul a ha
  | cons b r ih =>
    intro a ha h
    have hb := h b (List.mem_cons_self _ _)
    have hr : ∀ l ∈ r, (0 : Nat) ∉ l := fun l m => h l (List.mem_cons_of_mem _ m)
    simp only [List.map_cons, List.flatten_cons, List.cons_append]
    rw [splitNul_append a _ ha, ih b hb hr]

theorem splitNul_intercalate (names : List Bytes) (hne : names ≠ [])
    (h : ∀ l ∈ names, (0 : Nat) ∉ l) : splitNul (List.intercalate [0] names) = names := by
  cases names with
  | nil => exact absurd rfl hne
  | cons a rest =>
    rw [intercalate_cons]
    exact splitNul_join_aux rest a (h a (List.mem_cons_self _ _))
      (fun l m => h l (List.mem_cons_of_mem _ m))

theorem charToNat_injective : Function.Injective Char.toNat := by
  intro c d hcd
  apply Char.ext
  apply UInt32.ext
  exact hcd

theorem idBytes_injective : Function.Injective idBytes := by
  intro a b h
  unfold idBytes at h
  have := List.map_injective_iff.mpr charToNat_injective h
  exact String.ext this

theorem digitChar_toNat (k : Nat) (h : k < 10) : (Nat.digitChar k).toNat = 48 + k := by
  interval_cases k <;> rfl

theorem toDigitsCore_spec : ∀ (fuel n : Nat) (ds : List Char), n < fuel →
    ∃ pre, Nat.toDigitsCore 10 fuel n ds = pre ++ ds ∧
      (∀ c ∈ pre, 48 ≤ c.toNat ∧ c.toNat ≤ 57) ∧
      pre.foldl (fun a c => 10 * a + (c.toNat - 48)) 0 = n
  | 0, n, ds, h => by omega
  | fuel + 1, n, ds, h => by
    have hd := digitChar_toNat (n % 10) (Nat.mod_lt _ (by decide))
    unfold Nat.toDigitsCore
    simp only []
    by_cases h0 : n / 10 = 0
    · rw [if_pos h0]
      refine ⟨[Nat.digitChar (n % 10)], rfl, ?_, ?_⟩
      · intro c hc
        rw [List.mem_singleton.mp hc, hd]
        omega
      · simp only [List.foldl_cons, List.foldl_nil, hd]
        omega
    · rw [if_neg h0]
      obtain ⟨pre, hpre, hdig, hval⟩ :=
        toDigitsCore_spec fuel (n / 10) (Nat.digitChar (n % 10) :: ds) (by omega)
      refine ⟨pre ++ [Nat.digitChar (n % 10)], ?_, ?_, ?_⟩
      · rw [hpre]
        simp
      · intro c hc
        rcases List.mem_append.mp hc with hc | hc
        · exact hdig c hc
        · rw [List.mem_singleton.mp hc, hd]
          omega
      · rw [List.foldl_append, hval]
        simp only [List.foldl_cons, List.foldl_nil, hd]
        omega

theorem toDigits_spec (n : Nat) :
    (∀ c ∈ Nat.toDigits 10 n, 48 ≤ c.toNat ∧ c.toNat ≤ 57) ∧
      (Nat.toDigits 10 n).foldl (fun a c => 10 * a + (c.toNat - 48)) 0 = n := by
  obtain ⟨pre, hpre, hdig, hval⟩ := toDigitsCore_spec (n + 1) n [] (by omega)
  unfold Nat.toDigits
  rw [hpre, List.append_nil]
  exact ⟨hdig, hval⟩

theorem idBytes_partyId (p : Nat) :
    idBytes (partyId p) = 112 :: (Nat.toDigits 10 p).map Char.toNat := by
  unfold idBytes partyId
  show (("p" ++ Nat.repr p).data).map Char.toNat = _
  rw [String.data_append]
  rfl

theorem partyId_no_nul (p : Nat) : (0 : Nat) ∉ idBytes (partyId p) := by
  rw [idBytes_partyId]
  intro h
  rcases List.mem_cons.mp h with h | h
  · exact absurd h (by decide)
  · obtain ⟨c, hc, hc0⟩ := List.mem_map.mp h
    have := (toDigits_spec p).1 c hc
    omega

theorem partyId_injective : Function.Injective partyId := by
  intro a b h
  have hb := congrArg idBytes h
  rw [idBytes_partyId, idBytes_partyId] at hb
  have hd : Nat.toDigits 10 a = Nat.toDigits 10 b :=
    List.map_injective_iff.mpr charToNat_injective (List.cons.inj hb).2
  have ha := (toDigits_spec a).2
  rw [hd, (toDigits_spec b).2] at ha
  exact ha.symm

end PartyIds

section PartyIdClaims

theorem partyIds_getElem (n : Int) (i : Nat) (h : i < n.toNat) :
    (partyIds n)[i]? = some (partyId (i + 1)) := by
  simp [partyIds, List.getElem?_map, List.getElem?_range h]

theorem partyIds_names_nodup (n : Int) : ((partyIds n).map idBytes).Nodup := by
  unfold partyIds
  rw [List.map_map]
  apply List.Nodup.map _ (List.nodup_range _)
  intro a b h
  have := partyId_injective (idBytes_injective h)
  omega

theorem partyIds_no_nul (n : Int) : ∀ l ∈ (partyIds n).map idBytes, (0 : Nat) ∉ l := by
  intro l hl
  obtain ⟨id, hid, rfl⟩ := List.mem_map.mp hl
  obtain ⟨i, _, rfl⟩ := List.mem_map.mp hid
  exact partyId_no_nul _

/-- C22: `PrepareIDSlice(n)` is the ids "p1", ..., "pn" (the list `partyIds n`,
of length n, whose entry number i is `fmt.Sprintf("p%d", i)`) joined by single
NUL bytes. For n ≥ 1, splitting the result on NUL gives back exactly these n
names, as bytes and in this order: none of them is empty or holds a NUL (so
the result neither starts nor ends with a separator, and no two separators
are adjacent), they are pairwise distinct, and the name number i is the id
`fmt.Sprintf("p%d", i)` that RunKeygen gives to party i. For n ≤ 0 the result
is the empty slice. -/
theorem PrepareIDSlice_spec (n : Int) :
    PrepareIDSlice n = some (List.intercalate [0] ((partyIds n).map idBytes)) ∧
    (partyIds n).length = n.toNat ∧
    (∀ i : Nat, i < n.toNat → (partyIds n)[i]? = some (partyId (i + 1))) ∧
    (1 ≤ n → ∃ bs : Bytes, PrepareIDSlice n = some bs ∧
      splitNul bs = (partyIds n).map idBytes ∧
      (splitNul bs).length = n.toNat ∧
      (∀ name ∈ splitNul bs, name ≠ [] ∧ (0 : Nat) ∉ name) ∧
      (splitNul bs).Nodup ∧
      (∀ i : Nat, 1 ≤ i → (i : Int) ≤ n →
        (splitNul bs)[i - 1]? = some (idBytes (partyId i)))) ∧
    (n ≤ 0 → PrepareIDSlice n = some []) := by
  have hlen : (partyIds n).length = n.toNat := by simp [partyIds]
  refine ⟨joinIds_eq _, hlen, partyIds_getElem n, fun h1 => ?_, fun h0 => ?_⟩
  · have hne : (partyIds n).map idBytes ≠ [] := by
      intro h
      have := congrArg List.length h
      simp only [List.length_map, hlen, List.length_nil] at this
      omega
    have hsplit := splitNul_intercalate _ hne (partyIds_no_nul n)
    refine ⟨_, joinIds_eq _, hsplit, ?_, ?_, ?_, ?_⟩
    · rw [hsplit, List.length_map, hlen]
    · rw [hsplit]
      intro name hname
      refine ⟨?_, partyIds_no_nul n name hname⟩
      obtain ⟨id, hid, rfl⟩ := List.mem_map.mp hname
      obtain ⟨i, _, rfl⟩ := List.mem_map.mp hid
      rw [idBytes_partyId]
      exact List.cons_ne_nil _ _
    · rw [hsplit]
      exact partyIds_names_nodup n
    · intro i hi1 hin
      rw [hsplit, List.getElem?_map, partyIds_getElem n (i - 1) (by omega)]
      have : i - 1 + 1 = i := by omega
      rw [this]
      rfl
  · have : n.toNat = 0 := by omega
    unfold PrepareIDSlice partyIds
    rw [this]
    rfl

theorem PrepareIDSlice_spec_witness :
    PrepareIDSlice 3 = some [112, 49, 0, 112, 50, 0, 112, 51] ∧
    splitNul [112, 49, 0, 112, 50, 0, 112, 51] = [[112, 49], [112, 50], [112, 51]] ∧
    idBytes (partyId 2) = [112, 50] ∧
    (∃ bs : Bytes, PrepareIDSlice 3 = some bs ∧
      splitNul bs = (partyIds 3).map idBytes ∧
      (splitNul bs).length = (3 : Int).toNat ∧
      (∀ name ∈ splitNul bs, name ≠ [] ∧ (0 : Nat) ∉ name) ∧
      (splitNul bs).Nodup ∧
      (∀ i : Nat, 1 ≤ i → (i : Int) ≤ 3 →
        (splitNul bs)[i - 1]? = some (idBytes (partyId i)))) :=
  ⟨by decide, by decide, by decide, (PrepareIDSlice_spec 3).2.2.2.1 (by decide)⟩

/-- C23: the encoding `[]byte(strings.Join(ids, "\x00"))` that
DklsKeyImportInitiatorNew and DklsQcSetupMsgNew hand to the engine is lossless
on well-formed lists. For a non-empty list of names none of which holds a NUL
byte, the encoding is the names joined by single NUL bytes and splitting it on
NUL returns the names, as bytes and in order; another such list with the same
encoding is the same list; and the encoding of "p1", ..., "pn" is
`PrepareIDSlice(n)`. -/
theorem joinIds_lossless (ids : List String) (hne : ids ≠ [])
    (hnul : ∀ id ∈ ids, (0 : Nat) ∉ idBytes id) :
    (∃ bs : Bytes, joinIds ids = some bs ∧ bs = List.intercalate [0] (ids.map idBytes) ∧
      splitNul bs = ids.map idBytes) ∧
    (∀ ids2 : List String, ids2 ≠ [] → (∀ id ∈ ids2, (0 : Nat) ∉ idBytes id) →
      joinIds ids2 = joinIds ids → ids2 = ids) ∧
    (∀ n : Int, joinIds (partyIds n) = PrepareIDSlice n) ∧
    (∀ pinner c p, pinFirst (joinIds ids) pinner = some (c, p) → c = joinIds ids) := by
  have key : ∀ l : List String, l ≠ [] → (∀ id ∈ l, (0 : Nat) ∉ idBytes id) →
      splitNul (List.intercalate [0] (l.map idBytes)) = l.map idBytes := by
    intro l hl hn
    apply splitNul_intercalate
    · intro h
      exact hl (List.map_eq_nil_iff.mp h)
    · intro x hx
      obtain ⟨id, hid, rfl⟩ := List.mem_map.mp hx
      exact hn id hid
  refine ⟨⟨_, joinIds_eq ids, rfl, key ids hne hnul⟩, ?_, fun _ => rfl,
    fun pinner c p h => pinFirst_eq_some _ _ _ _ h⟩
  intro ids2 hne2 hnul2 heq
  rw [joinIds_eq, joinIds_eq] at heq
  have h1 := key ids hne hnul
  have h2 := key ids2 hne2 hnul2
  rw [Option.some.inj heq, h1] at h2
  exact (List.map_injective_iff.mpr idBytes_injective h2).symm

theorem joinIds_lossless_witness :
    joinIds ["p1", "p2"] = some [112, 49, 0, 112, 50] ∧
    (∃ bs : Bytes, joinIds ["p1", "p2"] = some bs ∧
      bs = List.intercalate [0] (["p1", "p2"].map idBytes) ∧
      splitNul bs = ["p1", "p2"].map idBytes) :=
  ⟨by decide, (joinIds_lossless ["p1", "p2"] (by decide) (by decide)).1⟩

end PartyIdClaims

/-! ## The router loops: finished sessions, misdelivery, the exit condition -/

section RouterFinished

variable {σ γ ρ : Type}

/-- C27 (evaluation at the failing input): one party "p1" whose session emits
two messages, both for "p1", and reports finished at its first input call.
RunQcLoop marks the session, calls finish, and then passes the second message
of the mailbox to the input of the same, finished session: the engine refuses
it and the run returns that error although the session had finished. With an
engine whose input call reports finished every time, finish is called twice
on session 1 and the two results make `len(shares)` pass `n = 1`, after which
the loop never ends. -/
theorem RunQcLoop_feeds_finished_session :
    (RunQcLoop scriptedQcApi 3 [⟨1, "p1"⟩] (0, 0)).2.loop.trace =
      [Event.output 1 (some [7]) none, Event.receiver 1 (some [7]) 0 "p1" none,
       Event.output 1 (some [8]) none, Event.receiver 1 (some [8]) 0 "p1" none,
       Event.output 1 none none, Event.input 1 (some [7]) true none, Event.finish 1 42 none,
       Event.input 1 (some [8]) false (some "Invalid session state")] ∧
    (RunQcLoop scriptedQcApi 3 [⟨1, "p1"⟩] (0, 0)).1 =
      LoopResult.returned none (some "Invalid session state") ∧
    (RunQcLoop scriptedQcApi 3 [⟨1, "p1"⟩] (0, 0)).2.finishedSessions = [1] ∧
    (RunQcLoop eagerQcApi 3 [⟨1, "p1"⟩] (0, 0)).2.loop.trace.filterMap finishEvent =
      [(1, 42), (1, 42)] ∧
    (RunQcLoop eagerQcApi 3 [⟨1, "p1"⟩] (0, 0)).2.loop.shares = [42, 42] ∧
    (RunQcLoop eagerQcApi 3 [⟨1, "p1"⟩] (0, 0)).1 = LoopResult.outOfFuel := by
  decide

theorem routerLoop_end {tests : LoopTests γ} {api : SessionApi σ γ ρ} {S : Participant → Prop}
    {P : Option (Handle × GoBytes) → LoopState σ γ ρ → Prop} {Q : String → LoopState σ γ ρ → Prop}
    (inv : StepInvariant tests api S P Q) (R : LoopState σ γ ρ → Prop)
    (hP : ∀ cur st, P cur st → R st) (hQ : ∀ e st, Q e st → R st)
    (parties : List Participant) (hps : ∀ p ∈ parties, S p) (fuel passes : Nat)
    (st : LoopState σ γ ρ) (h : ∃ cur, P cur st) :
    R (routerLoop tests api parties fuel passes st).2 := by
  have hout := routerLoop_outcome inv parties hps fuel passes st h
  generalize routerLoop tests api parties fuel passes st = out at hout
  obtain ⟨res, st2⟩ := out
  cases res with
  | outOfFuel =>
    obtain ⟨c, hc⟩ := hout
    exact hP c _ hc
  | returned sh err =>
    cases sh with
    | some sh =>
      cases err with
      | none =>
        obtain ⟨⟨c, hc⟩, _⟩ := hout
        exact hP c _ hc
      | some e => exact hout.elim
    | none =>
      cases err with
      | none => exact hout.elim
      | some e => exact hQ e _ hout

theorem inputsOf_snoc (tr : List (Event γ ρ)) (ev : Event γ ρ) :
    inputsOf (tr ++ [ev]) = inputsOf tr ++ (inputCall ev).toList := by
  unfold inputsOf
  rw [List.filterMap_append]
  cases h : inputCall ev <;> simp [List.filterMap, h]

theorem inputsFromMailbox_invariant (tests : LoopTests γ) (api : SessionApi σ γ ρ)
    (parties : List Participant) :
    StepInvariant tests api (fun p => p ∈ parties) (fun _ => InputsFromMailbox parties)
      (fun _ => InputsFromMailbox parties) := by
  refine ⟨⟨?_, ?_⟩, ⟨?_, ?_⟩⟩
  · intro cur st p _ h
    have key : InputsFromMailbox parties (callOutput api p.Session st).2 := by
      intro s m hm
      rw [callOutput_trace, inputsOf_snoc] at hm
      simp only [inputCall, Option.toList, List.append_nil] at hm
      exact h s m hm
    exact ⟨fun _ _ => key, fun _ => key⟩
  · intro st p buf idx _ h
    have key : InputsFromMailbox parties (callReceiver api p.Session buf idx st).2 := by
      intro s m hm
      rw [callReceiver_trace, inputsOf_snoc] at hm
      simp only [inputCall, Option.toList, List.append_nil] at hm
      exact h s m hm
    refine ⟨fun _ _ => key, fun _ _ => key, fun _ _ => ?_⟩
    intro s m hm
    obtain ⟨q, hq, hs, hmem⟩ := key s m hm
    refine ⟨q, hq, hs, ?_⟩
    simp only [pushMsg]
    split
    · exact List.mem_append_left _ hmem
    · exact hmem
  · intro cur st p msg hp hmsg h
    have key : InputsFromMailbox parties (callInput api p.Session msg st).2 := by
      intro s m hm
      rw [callInput_trace, inputsOf_snoc] at hm
      simp only [inputCall, Option.toList, List.mem_append, List.mem_singleton,
        Prod.mk.injEq] at hm
      rw [callInput_msgq]
      rcases hm with hm | ⟨hs, hm⟩
      · exact h s m hm
      · exact ⟨p, hp, hs.symm, hm ▸ hmsg⟩
    exact ⟨fun _ _ => key, fun _ => key⟩
  · intro st p _ h
    have key : InputsFromMailbox parties (callFinish api p.Session st).2 := by
      intro s m hm
      rw [callFinish_trace, inputsOf_snoc] at hm
      simp only [inputCall, Option.toList, List.append_nil] at hm
      rw [callFinish_msgq]
      exact h s m hm
    exact ⟨fun _ _ => key, fun _ => key⟩

theorem mem_deliveredTo (tests : LoopTests γ) (key : String) (msg : GoBytes)
    (tr : List (Event γ ρ)) (h : msg ∈ deliveredTo tests key tr) :
    ∃ session idx name, Event.receiver session msg idx name none ∈ tr ∧
      tests.receiverDone name = false ∧ tests.receiverKey name = key := by
  unfold deliveredTo at h
  obtain ⟨ev, hev, hd⟩ := List.mem_filterMap.mp h
  cases ev with
  | receiver session m idx name err =>
    cases err with
    | some e => simp [delivery] at hd
    | none =>
      simp only [delivery] at hd
      split at hd
      · cases hd
      · rename_i hdone
        split at hd
        · rename_i hkey
          cases hd
          exact ⟨session, idx, name, hev, by simpa using hdone, hkey⟩
        · cases hd
  | output _ _ _ => simp [delivery] at hd
  | input _ _ _ _ => simp [delivery] at hd
  | finish _ _ _ => simp [delivery] at hd
  | free _ _ => simp [delivery] at hd

end RouterFinished

section RouterDelivery

variable {σ γ ρ : Type}

/-- C29: in every run of RunKeygenLoop, whatever way it ends, each input call
(session, msg) was made on the session of a party of the list whose ID, not
the empty string, was returned without error by a receiver call probing
`msg`; a probe stops at the first empty result, so such a call lies before
it. Hence a message none of whose recipient names is the ID of a party is
never passed to any session, and when the parties have distinct sessions, a
message is passed to the input of a party's session only if that party's own
ID was returned for it: being a party is not enough. -/
theorem RunKeygenLoop_never_misdelivers (api : SessionApi σ String Handle) (fuel : Nat)
    (parties : List Participant) (eng : σ) :
    (∀ session msg, (session, msg) ∈ inputsOf (RunKeygenLoop api fuel parties eng).2.trace →
      ∃ p ∈ parties, p.Session = session ∧ p.ID ≠ "" ∧
        ∃ s2 idx, Event.receiver s2 msg idx p.ID none ∈
          (RunKeygenLoop api fuel parties eng).2.trace) ∧
    (∀ msg,
      (∀ s2 idx name, Event.receiver s2 msg idx name none ∈
        (RunKeygenLoop api fuel parties eng).2.trace → ∀ p ∈ parties, p.ID ≠ name) →
      ∀ session, (session, msg) ∉ inputsOf (RunKeygenLoop api fuel parties eng).2.trace) ∧
    ((parties.map Participant.Session).Nodup → ∀ p ∈ parties, ∀ msg,
      (p.Session, msg) ∈ inputsOf (RunKeygenLoop api fuel parties eng).2.trace →
      p.ID ≠ "" ∧ ∃ s2 idx, Event.receiver s2 msg idx p.ID none ∈
        (RunKeygenLoop api fuel parties eng).2.trace) ∧
    (∀ session buf remaining idx (st : LoopState σ String Handle),
      (callReceiver api session buf idx st).1 = ("", none) →
      resolveRecipients keygenTests api session buf (remaining + 1) idx st =
        (none, (callReceiver api session buf idx st).2)) := by
  have hroute := routerLoop_final (routedInOrder_invariant keygenTests api)
    (fun st => ∀ key, st.msgq key = deliveredTo keygenTests key st.trace)
    (fun _ _ h => h.1) (fun _ _ h => h.1) parties fuel fuel (initState eng)
    ⟨none, fun _ => rfl, rfl, fun hc => (hc rfl).elim⟩
  have hbox := routerLoop_end (inputsFromMailbox_invariant keygenTests api parties)
    (InputsFromMailbox parties) (fun _ _ h => h) (fun _ _ h => h) parties (fun _ hp => hp)
    fuel fuel (initState eng) ⟨none, fun _ _ h => by simp [initState, inputsOf] at h⟩
  have main : ∀ session msg,
      (session, msg) ∈ inputsOf (RunKeygenLoop api fuel parties eng).2.trace →
      ∃ p ∈ parties, p.Session = session ∧ p.ID ≠ "" ∧
        ∃ s2 idx, Event.receiver s2 msg idx p.ID none ∈
          (RunKeygenLoop api fuel parties eng).2.trace := by
    intro session msg hin
    obtain ⟨p, hp, hs, hm⟩ := hbox session msg hin
    have hm2 : msg ∈ deliveredTo keygenTests p.ID
        (routerLoop keygenTests api parties fuel fuel (initState eng)).2.trace := by
      rw [← hroute p.ID]
      exact hm
    obtain ⟨s2, idx, name, hev, hdone, hkey⟩ := mem_deliveredTo keygenTests p.ID msg _ hm2
    have hname : name = p.ID := hkey
    subst hname
    refine ⟨p, hp, hs, ?_, s2, idx, hev⟩
    intro hempty
    simp [keygenTests, hempty] at hdone
  refine ⟨main, ?_, ?_, ?_⟩
  · intro msg hno session hin
    obtain ⟨p, hp, _, _, s2, idx, hev⟩ := main session msg hin
    exact hno s2 idx p.ID hev p hp rfl
  · intro hnd p hp msg hin
    obtain ⟨q, hq, hs, hne, s2, idx, hev⟩ := main p.Session msg hin
    have hqp : q = p := List.inj_on_of_nodup_map hnd hq hp hs
    subst hqp
    exact ⟨hne, s2, idx, hev⟩
  · intro session buf remaining idx st hrecv
    unfold resolveRecipients
    generalize callReceiver api session buf idx st = r at hrecv
    obtain ⟨⟨name, err⟩, st1⟩ := r
    simp only [Prod.mk.injEq] at hrecv
    obtain ⟨hn, he⟩ := hrecv
    subst hn he
    simp [keygenTests]

theorem RunKeygenLoop_never_misdelivers_witness :
    inputsOf (RunKeygenLoop pairApi 3 [⟨1, "p1"⟩, ⟨2, "p2"⟩] ([], [])).2.trace =
      [(1, some [2]), (2, some [1])] ∧
    ([(⟨1, "p1"⟩ : Participant), ⟨2, "p2"⟩].map Participant.Session).Nodup ∧
    Event.receiver 2 (some [2]) 0 "p1" none ∈
      (RunKeygenLoop pairApi 3 [⟨1, "p1"⟩, ⟨2, "p2"⟩] ([], [])).2.trace ∧
    ("p1" ≠ "" ∧ ∃ s2 idx, Event.receiver s2 (some [2]) idx "p1" none ∈
      (RunKeygenLoop pairApi 3 [⟨1, "p1"⟩, ⟨2, "p2"⟩] ([], [])).2.trace) :=
  ⟨by decide, by decide, by decide,
    (RunKeygenLoop_never_misdelivers pairApi 3 [⟨1, "p1"⟩, ⟨2, "p2"⟩] ([], [])).2.2.1
      (by decide) ⟨1, "p1"⟩ (by decide) (some [2]) (by decide)⟩

theorem finishedInput_snoc (tr : List (Event γ ρ)) (ev : Event γ ρ) :
    (tr ++ [ev]).filterMap finishedInput =
      tr.filterMap finishedInput ++ (finishedInput ev).toList := by
  rw [List.filterMap_append]
  cases h : finishedInput ev <;> simp [List.filterMap, h]

theorem finishedInput_snoc_le (tr : List (Event γ ρ)) (ev : Event γ ρ) :
    (tr.filterMap finishedInput).length ≤ ((tr ++ [ev]).filterMap finishedInput).length := by
  rw [finishedInput_snoc, List.length_append]
  omega

theorem sharesWithin_drain (tests : LoopTests γ) (api : SessionApi σ γ ρ) :
    DrainInvariant tests api (fun _ => True) (fun _ => SharesWithinFinished)
      (fun _ => SharesWithinFinished) := by
  refine ⟨?_, ?_⟩
  · intro cur st p _ h
    have key : SharesWithinFinished (callOutput api p.Session st).2 := by
      unfold SharesWithinFinished
      rw [callOutput_trace]
      exact Nat.le_trans h (finishedInput_snoc_le _ _)
    exact ⟨fun _ _ => key, fun _ => key⟩
  · intro st p buf idx _ h
    have key : SharesWithinFinished (callReceiver api p.Session buf idx st).2 := by
      unfold SharesWithinFinished
      rw [callReceiver_trace]
      exact Nat.le_trans h (finishedInput_snoc_le _ _)
    exact ⟨fun _ _ => key, fun _ _ => key, fun _ _ => key⟩

theorem feedSession_within (api : SessionApi σ γ ρ) (session : Handle) (msgs : List GoBytes)
    (st : LoopState σ γ ρ) (h : SharesWithinFinished st) :
    SharesWithinFinished (feedSession api session msgs st).2 := by
  induction msgs generalizing st with
  | nil => exact h
  | cons msg rest ih =>
    have ht := callInput_trace api session msg st
    have hsh : (callInput api session msg st).2.shares = st.shares := rfl
    unfold feedSession
    generalize callInput api session msg st = r at ht hsh
    obtain ⟨⟨fin, err⟩, st1⟩ := r
    simp only at ht hsh
    have h1 : SharesWithinFinished st1 := by
      unfold SharesWithinFinished
      rw [ht, hsh]
      exact Nat.le_trans h (finishedInput_snoc_le _ _)
    cases err with
    | some e => cases fin <;> exact h1
    | none =>
      cases fin with
      | false => exact ih st1 h1
      | true =>
        have hcount : (st1.trace.filterMap finishedInput).length =
            (st.trace.filterMap finishedInput).length + 1 := by
          rw [ht, finishedInput_snoc]
          simp [finishedInput]
        have ht2 := callFinish_trace api session st1
        have hsh2 : (callFinish api session st1).2.shares = st1.shares := rfl
        simp only
        generalize callFinish api session st1 = r2 at ht2 hsh2
        obtain ⟨⟨share, err2⟩, st2⟩ := r2
        simp only at ht2 hsh2
        have hc2 : (st1.trace.filterMap finishedInput).length ≤
            (st2.trace.filterMap finishedInput).length := by
          rw [ht2]
          exact finishedInput_snoc_le _ _
        cases err2 with
        | some e =>
          have hh : st.shares.length ≤ (st.trace.filterMap finishedInput).length := h
          show st2.shares.length ≤ (st2.trace.filterMap finishedInput).length
          rw [hsh2, hsh]
          omega
        | none =>
          apply ih
          show (st2.shares ++ [share]).length ≤ (st2.trace.filterMap finishedInput).length
          rw [List.length_append, hsh2, hsh]
          have : st.shares.length ≤ (st.trace.filterMap finishedInput).length := h
          simp only [List.length_singleton]
          omega

theorem feedAll_within (api : SessionApi σ γ ρ) (ps : List Participant)
    (st : LoopState σ γ ρ) (h : SharesWithinFinished st) :
    SharesWithinFinished (feedAll api ps st).2 := by
  induction ps generalizing st with
  | nil => exact h
  | cons p rest ih =>
    have hd := feedSession_within api p.Session (st.msgq p.ID) st h
    unfold feedAll
    generalize feedSession api p.Session (st.msgq p.ID) st = r at hd
    obtain ⟨x, st1⟩ := r
    cases x with
    | some x => exact hd
    | none => exact ih st1 hd

theorem phaseOutcome_state {P : LoopState σ γ ρ → Prop}
    (r : Option Exit × LoopState σ γ ρ)
    (h : PhaseOutcome (fun st => ∃ _cur : Option (Handle × GoBytes), P st) (fun _ => P) r) :
    P r.2 := by
  obtain ⟨x, st⟩ := r
  cases x with
  | none =>
    obtain ⟨_, hp⟩ := h
    exact hp
  | some x =>
    cases x with
    | fuel =>
      obtain ⟨_, hp⟩ := h
      exact hp
    | error e => exact h

theorem pass_within (tests : LoopTests γ) (api : SessionApi σ γ ρ) (parties : List Participant)
    (fuel : Nat) (st : LoopState σ γ ρ) (h : SharesWithinFinished st) :
    SharesWithinFinished (pass tests api parties fuel st).2 := by
  have hd := phaseOutcome_state _
    (drainAll_outcome (sharesWithin_drain tests api) parties.length fuel parties
      (fun _ _ => trivial) st ⟨none, h⟩)
  unfold pass
  generalize drainAll tests api parties.length fuel parties st = r at hd
  obtain ⟨x, st1⟩ := r
  cases x with
  | some x => exact hd
  | none => exact feedAll_within api parties st1 hd

theorem routerLoop_within (tests : LoopTests γ) (api : SessionApi σ γ ρ)
    (parties : List Participant) (fuel passes : Nat) (st : LoopState σ γ ρ)
    (h : SharesWithinFinished st) :
    SharesWithinFinished (routerLoop tests api parties fuel passes st).2 := by
  induction passes generalizing st with
  | zero =>
    unfold routerLoop
    split <;> exact h
  | succ k ih =>
    unfold routerLoop
    split
    · exact h
    · have hp := pass_within tests api parties fuel st h
      generalize pass tests api parties fuel st = r at hp
      obtain ⟨x, st1⟩ := r
      cases x with
      | some x => exact hp
      | none => exact ih st1 hp

end RouterDelivery

section RouterExit

variable {σ γ ρ : Type}

theorem finishedInput_session (ev : Event γ ρ) (s : Handle) (h : finishedInput ev = some s) :
    ev.session = s := by
  cases ev with
  | input session m fin err =>
    cases fin <;> cases err <;> simp [finishedInput] at h
    exact h
  | output _ _ _ => simp [finishedInput] at h
  | receiver _ _ _ _ _ => simp [finishedInput] at h
  | finish _ _ _ => simp [finishedInput] at h
  | free _ _ => simp [finishedInput] at h

theorem sharesFromFinish_snoc (S : Handle → Prop) (st st1 : LoopState σ γ ρ)
    (ev : Event γ ρ) (h : SharesFromFinish S st) (hsh : st1.shares = st.shares)
    (htr : st1.trace = st.trace ++ [ev]) (hev : finishedShare ev = none) (hs : S ev.session) :
    SharesFromFinish S st1 := by
  refine ⟨?_, ?_⟩
  · rw [hsh, htr, List.filterMap_append, h.1]
    simp [List.filterMap, hev]
  · intro x hx
    rw [htr, List.mem_append, List.mem_singleton] at hx
    rcases hx with hx | hx
    · exact h.2 x hx
    · rw [hx]; exact hs

theorem sharesFromFinish_always (tests : LoopTests γ) (api : SessionApi σ γ ρ)
    (S : Participant → Prop) :
    StepInvariant tests api S
      (fun _ => SharesFromFinish (fun s => ∃ p, S p ∧ p.Session = s))
      (fun _ => SharesFromFinish (fun s => ∃ p, S p ∧ p.Session = s)) := by
  refine ⟨⟨?_, ?_⟩, ⟨?_, ?_⟩⟩
  · intro cur st p hp h
    have key := sharesFromFinish_snoc _ st (callOutput api p.Session st).2 _ h rfl
      (callOutput_trace api p.Session st) rfl ⟨p, hp, rfl⟩
    exact ⟨fun _ _ => key, fun _ => key⟩
  · intro st p buf idx hp h
    have key := sharesFromFinish_snoc _ st (callReceiver api p.Session buf idx st).2 _ h rfl
      (callReceiver_trace api p.Session buf idx st) rfl ⟨p, hp, rfl⟩
    exact ⟨fun _ _ => key, fun _ _ => key, fun _ _ => key⟩
  · intro cur st p msg hp _ h
    have key := sharesFromFinish_snoc _ st (callInput api p.Session msg st).2 _ h rfl
      (callInput_trace api p.Session msg st) rfl ⟨p, hp, rfl⟩
    exact ⟨fun _ _ => key, fun _ => key⟩
  · intro st p hp h
    refine ⟨fun e he => ?_, fun he => ⟨?_, ?_⟩⟩
    · refine sharesFromFinish_snoc _ st (callFinish api p.Session st).2 _ h rfl
        (callFinish_trace api p.Session st) ?_ ⟨p, hp, rfl⟩
      rw [he]
      rfl
    · show (callFinish api p.Session st).2.shares ++ [(callFinish api p.Session st).1.1] =
        List.filterMap finishedShare (callFinish api p.Session st).2.trace
      rw [callFinish_trace, List.filterMap_append, he]
      have hs : (callFinish api p.Session st).2.shares = st.shares := rfl
      rw [hs, h.1]
      simp [finishedShare]
    · intro ev hev
      have hev2 : ev ∈ (callFinish api p.Session st).2.trace := hev
      rw [callFinish_trace, List.mem_append, List.mem_singleton] at hev2
      rcases hev2 with hev2 | hev2
      · exact h.2 ev hev2
      · rw [hev2]; exact ⟨p, hp, rfl⟩

/-- C28: take any run of RunKeygenLoop, however it ends, in whose log the input
calls that reported finished (without error) are on pairwise distinct
sessions. Then the results collected, which are the results of the finish
calls that returned no error, are at most len(parties); the same holds of the
results collected up to any point of the log; so `len(shares) != n` holds
exactly when `len(shares) < n`. -/
theorem RunKeygenLoop_never_overshoots (api : SessionApi σ String Handle) (fuel : Nat)
    (parties : List Participant) (eng : σ)
    (honce : ((RunKeygenLoop api fuel parties eng).2.trace.filterMap finishedInput).Nodup) :
    (RunKeygenLoop api fuel parties eng).2.shares.length ≤ parties.length ∧
    (RunKeygenLoop api fuel parties eng).2.shares =
      (RunKeygenLoop api fuel parties eng).2.trace.filterMap finishedShare ∧
    (∀ pre post, (RunKeygenLoop api fuel parties eng).2.trace = pre ++ post →
      (pre.filterMap finishedShare).length ≤ parties.length) ∧
    ((RunKeygenLoop api fuel parties eng).2.shares.length ≠ parties.length ↔
      (RunKeygenLoop api fuel parties eng).2.shares.length < parties.length) := by
  have hfrom := routerLoop_end (sharesFromFinish_always keygenTests api (fun p => p ∈ parties))
    (SharesFromFinish (fun s => ∃ p, p ∈ parties ∧ p.Session = s))
    (fun _ _ h => h) (fun _ _ h => h) parties (fun _ hp => hp) fuel fuel (initState eng)
    ⟨none, rfl, fun _ hev => by simp [initState] at hev⟩
  have hwithin := routerLoop_within keygenTests api parties fuel fuel (initState eng)
    (Nat.le_refl 0)
  unfold RunKeygenLoop at honce ⊢
  generalize routerLoop keygenTests api parties fuel fuel (initState eng) = out
    at honce hfrom hwithin
  obtain ⟨res, st⟩ := out
  simp only at honce hfrom hwithin ⊢
  obtain ⟨hsh, hS⟩ := hfrom
  have hsub : st.trace.filterMap finishedInput ⊆ parties.map Participant.Session := by
    intro s hs
    obtain ⟨ev, hev, hf⟩ := List.mem_filterMap.mp hs
    obtain ⟨p, hp, hps⟩ := hS ev hev
    rw [finishedInput_session ev s hf] at hps
    exact List.mem_map.mpr ⟨p, hp, hps⟩
  have hle : (st.trace.filterMap finishedInput).length ≤ parties.length := by
    have := (List.subperm_of_subset honce hsub).length_le
    simpa using this
  have hbound : st.shares.length ≤ parties.length := Nat.le_trans hwithin hle
  refine ⟨hbound, hsh, ?_, by omega⟩
  intro pre post hsplit
  rw [hsh, hsplit, List.filterMap_append, List.length_append] at hbound
  omega

theorem RunKeygenLoop_never_overshoots_witness :
    ((RunKeygenLoop pairApi 3 [⟨1, "p1"⟩, ⟨2, "p2"⟩] ([], [])).2.trace.filterMap
      finishedInput) = [1, 2] ∧
    (RunKeygenLoop pairApi 3 [⟨1, "p1"⟩, ⟨2, "p2"⟩] ([], [])).2.shares = [101, 102] ∧
    (RunKeygenLoop pairApi 3 [⟨1, "p1"⟩, ⟨2, "p2"⟩] ([], [])).2.shares.length ≤
      [(⟨1, "p1"⟩ : Participant), ⟨2, "p2"⟩].length :=
  ⟨by decide, by decide,
    (RunKeygenLoop_never_overshoots pairApi 3 [⟨1, "p1"⟩, ⟨2, "p2"⟩] ([], []) (by decide)).1⟩

end RouterExit

/-! ## The router loops: the order of the results -/

section PartyOrder

variable {σ γ ρ : Type}

theorem inputStops_suffix (pre l : List (Event γ ρ)) (h : inputStops (pre ++ l) = true) :
    inputStops l = true := by
  induction pre with
  | nil => exact h
  | cons ev pre ih =>
    apply ih
    cases ev with
    | input s m fin err =>
      cases fin with
      | false => exact h
      | true =>
        cases err with
        | some e => exact h
        | none =>
          have h2 : ((pre ++ l).all (fun ev => !(acceptedInputOn s ev)) &&
              inputStops (pre ++ l)) = true := h
          exact (Bool.and_eq_true _ _ ▸ h2).2
    | output _ _ _ => exact h
    | receiver _ _ _ _ _ => exact h
    | finish _ _ _ => exact h
    | free _ _ => exact h

theorem inputStops_split (pre post : List (Event γ ρ)) (s : Handle) (m : GoBytes)
    (h : inputStops (pre ++ Event.input s m true none :: post) = true) :
    ∀ ev ∈ post, acceptedInputOn s ev = false := by
  have h1 := inputStops_suffix pre _ h
  have h2 : (post.all (fun ev => !(acceptedInputOn s ev)) && inputStops post) = true := h1
  have h3 := (Bool.and_eq_true _ _ ▸ h2).1
  intro ev hev
  have := List.all_eq_true.mp h3 ev hev
  simpa using this

theorem finishEvent_feedSeg (s : Handle) (outs : List (GoBytes × Option ρ)) :
    (feedSeg s outs : List (Event γ ρ)).filterMap finishEvent =
      (outs.filterMap Prod.snd).map (fun x => (s, x)) := by
  induction outs with
  | nil => rfl
  | cons o rest ih =>
    obtain ⟨m, x⟩ := o
    cases x with
    | none => simpa [feedSeg, finishEvent] using ih
    | some x => simpa [feedSeg, finishEvent] using ih

theorem feedSeg_accepted (s : Handle) (outs : List (GoBytes × Option ρ)) (h : outs ≠ []) :
    ∃ ev ∈ (feedSeg s outs : List (Event γ ρ)), acceptedInputOn s ev = true := by
  cases outs with
  | nil => exact absurd rfl h
  | cons o rest =>
    obtain ⟨m, x⟩ := o
    cases x with
    | none => exact ⟨Event.input s m false none, by simp [feedSeg], by simp [acceptedInputOn]⟩
    | some x => exact ⟨Event.input s m true none, by simp [feedSeg], by simp [acceptedInputOn]⟩

theorem feedSeg_finished (s : Handle) (outs : List (GoBytes × Option ρ)) (m : GoBytes) (x : ρ)
    (h : (m, some x) ∈ outs) :
    ∃ A B, (feedSeg s outs : List (Event γ ρ)) = A ++ Event.input s m true none :: B := by
  induction outs with
  | nil => simp at h
  | cons o rest ih =>
    obtain ⟨m2, x2⟩ := o
    rcases List.mem_cons.mp h with h | h
    · cases h
      exact ⟨[], _, rfl⟩
    · obtain ⟨A, B, hAB⟩ := ih h
      cases x2 with
      | none => exact ⟨Event.input s m2 false none :: A, B, by simp [feedSeg, hAB]⟩
      | some y =>
        exact ⟨Event.input s m2 true none :: Event.finish s y none :: A, B,
          by simp [feedSeg, hAB]⟩

theorem seg_stops (s : Handle) (outs : List (GoBytes × Option ρ)) (post : List (Event γ ρ))
    (h : inputStops (feedSeg s outs ++ post) = true) :
    (outs.filterMap Prod.snd).length ≤ 1 := by
  induction outs with
  | nil => simp
  | cons o rest ih =>
    obtain ⟨m, x⟩ := o
    cases x with
    | none =>
      have h1 : inputStops (feedSeg s rest ++ post) = true := h
      simpa using ih h1
    | some x =>
      cases rest with
      | nil => simp
      | cons o2 rest2 =>
        exfalso
        have h' : inputStops ([] ++ Event.input s m true none ::
            Event.finish s x none :: (feedSeg s (o2 :: rest2) ++ post)) = true := by
          rw [List.nil_append]
          simpa only [feedSeg, List.cons_append] using h
        have hsplit := inputStops_split [] _ s m h'
        obtain ⟨ev, hev, hacc⟩ := feedSeg_accepted (γ := γ) s (o2 :: rest2) (List.cons_ne_nil _ _)
        have := hsplit ev (List.mem_cons_of_mem _ (List.mem_append_left _ hev))
        rw [hacc] at this
        exact Bool.noConfusion this

theorem feedSegs_cons (p : Participant) (ps : List Participant)
    (outs : List (GoBytes × Option ρ)) (outss : List (List (GoBytes × Option ρ))) :
    (feedSegs (p :: ps) (outs :: outss) : List (Event γ ρ)) =
      feedSeg p.Session outs ++ feedSegs ps outss := rfl

theorem segs_stops (ps : List Participant) :
    ∀ (outss : List (List (GoBytes × Option ρ))) (post : List (Event γ ρ)),
      outss.length = ps.length → inputStops (feedSegs ps outss ++ post) = true →
      ∀ outs ∈ outss, (outs.filterMap Prod.snd).length ≤ 1 := by
  induction ps with
  | nil =>
    intro outss post hlen _ outs hmem
    have : outss = [] := List.length_eq_zero.mp hlen
    rw [this] at hmem
    simp at hmem
  | cons p ps ih =>
    intro outss post hlen h outs hmem
    cases outss with
    | nil => simp at hmem
    | cons o os =>
      rw [feedSegs_cons, List.append_assoc] at h
      rcases List.mem_cons.mp hmem with hm | hm
      · rw [hm]
        exact seg_stops p.Session o _ h
      · exact ih os post (by simpa using hlen) (inputStops_suffix _ _ h) outs hm

theorem flatten_le_of_singletons (yss : List (List ρ)) (h : ∀ ys ∈ yss, ys.length ≤ 1) :
    yss.flatten.length ≤ yss.length := by
  induction yss with
  | nil => simp
  | cons ys rest ih =>
    have h1 := h ys (List.mem_cons_self _ _)
    have h2 := ih (fun y hy => h y (List.mem_cons_of_mem _ hy))
    simp only [List.flatten_cons, List.length_append, List.length_cons]
    omega

theorem order_of_singletons (ps : List Participant) :
    ∀ outss : List (List (GoBytes × Option ρ)), outss.length = ps.length →
      (∀ outs ∈ outss, (outs.filterMap Prod.snd).length ≤ 1) →
      ((outss.map (fun o => o.filterMap Prod.snd)).flatten).length = ps.length →
      (feedSegs ps outss : List (Event γ ρ)).filterMap finishEvent =
        List.zip (ps.map Participant.Session)
          ((outss.map (fun o => o.filterMap Prod.snd)).flatten) := by
  induction ps with
  | nil =>
    intro outss hlen _ _
    have : outss = [] := List.length_eq_zero.mp hlen
    rw [this]
    rfl
  | cons p ps ih =>
    intro outss hlen hle htot
    cases outss with
    | nil => simp at hlen
    | cons o os =>
      have hlen2 : os.length = ps.length := by simpa using hlen
      have hle2 : ∀ outs ∈ os, (outs.filterMap Prod.snd).length ≤ 1 :=
        fun x hx => hle x (List.mem_cons_of_mem _ hx)
      have ho := hle o (List.mem_cons_self _ _)
      have hrest := flatten_le_of_singletons (os.map (fun o => o.filterMap Prod.snd))
        (by
          intro ys hys
          obtain ⟨x, hx, rfl⟩ := List.mem_map.mp hys
          exact hle2 x hx)
      simp only [List.map_cons, List.flatten_cons, List.length_append, List.length_cons,
        List.length_map] at htot hrest
      have ho1 : (o.filterMap Prod.snd).length = 1 := by omega
      have htot2 : ((os.map (fun o => o.filterMap Prod.snd)).flatten).length = ps.length := by
        omega
      obtain ⟨y, hy⟩ := List.length_eq_one.mp ho1
      rw [feedSegs_cons, List.filterMap_append, finishEvent_feedSeg, ih os hlen2 hle2 htot2]
      simp [hy]

end PartyOrder

section PartyOrderRun

variable {σ γ ρ : Type}

theorem feedSession_ok (api : SessionApi σ γ ρ) (session : Handle) (msgs : List GoBytes)
    (st st2 : LoopState σ γ ρ) (h : feedSession api session msgs st = (none, st2)) :
    ∃ outs : List (GoBytes × Option ρ), outs.map Prod.fst = msgs ∧
      st2.trace = st.trace ++ feedSeg session outs ∧
      st2.shares = st.shares ++ outs.filterMap Prod.snd ∧ st2.msgq = st.msgq := by
  induction msgs generalizing st with
  | nil =>
    simp only [feedSession, Prod.mk.injEq, true_and] at h
    subst h
    exact ⟨[], rfl, by simp [feedSeg], by simp, rfl⟩
  | cons msg rest ih =>
    have ht := callInput_trace api session msg st
    have hq := callInput_msgq api session msg st
    have hsh : (callInput api session msg st).2.shares = st.shares := rfl
    unfold feedSession at h
    generalize callInput api session msg st = r at ht hq hsh h
    obtain ⟨⟨fin, err⟩, st1⟩ := r
    simp only at ht hq hsh
    cases err with
    | some e => cases fin <;> simp at h
    | none =>
      cases fin with
      | false =>
        obtain ⟨outs, h1, h2, h3, h4⟩ := ih st1 h
        refine ⟨(msg, none) :: outs, by simp [h1], ?_, ?_, by rw [h4, hq]⟩
        · rw [h2, ht]
          simp [feedSeg]
        · rw [h3, hsh]
          simp
      | true =>
        have ht2 := callFinish_trace api session st1
        have hq2 := callFinish_msgq api session st1
        have hsh2 : (callFinish api session st1).2.shares = st1.shares := rfl
        simp only at h
        generalize callFinish api session st1 = r2 at ht2 hq2 hsh2 h
        obtain ⟨⟨share, err2⟩, st3⟩ := r2
        simp only at ht2 hq2 hsh2
        cases err2 with
        | some e => simp at h
        | none =>
          obtain ⟨outs, h1, h2, h3, h4⟩ := ih _ h
          refine ⟨(msg, some share) :: outs, by simp [h1], ?_, ?_, ?_⟩
          · rw [h2]
            simp [ht2, ht, feedSeg]
          · rw [h3]
            simp [hsh2, hsh]
          · rw [h4]
            simp only [hq2, hq]

theorem feedAll_ok (api : SessionApi σ γ ρ) (ps : List Participant)
    (st st2 : LoopState σ γ ρ) (h : feedAll api ps st = (none, st2)) :
    ∃ outss : List (List (GoBytes × Option ρ)),
      outss.map (fun o => o.map Prod.fst) = ps.map (fun p => st.msgq p.ID) ∧
      st2.trace = st.trace ++ feedSegs ps outss ∧
      st2.shares = st.shares ++ (outss.map (fun o => o.filterMap Prod.snd)).flatten ∧
      st2.msgq = st.msgq := by
  induction ps generalizing st with
  | nil =>
    simp only [feedAll, Prod.mk.injEq, true_and] at h
    subst h
    exact ⟨[], rfl, by simp [feedSegs], by simp, rfl⟩
  | cons p rest ih =>
    unfold feedAll at h
    have hs := feedSession_ok api p.Session (st.msgq p.ID) st
    generalize feedSession api p.Session (st.msgq p.ID) st = r at hs h
    obtain ⟨x, st1⟩ := r
    cases x with
    | some x => simp at h
    | none =>
      obtain ⟨outs, h1, h2, h3, h4⟩ := hs st1 rfl
      obtain ⟨outss, g1, g2, g3, g4⟩ := ih st1 h
      refine ⟨outs :: outss, ?_, ?_, ?_, by rw [g4, h4]⟩
      · rw [List.map_cons, List.map_cons, h1, g1, h4]
      · rw [g2, h2, feedSegs_cons, List.append_assoc]
      · rw [g3, h3]
        simp

theorem drain_adds (tests : LoopTests γ) (api : SessionApi σ γ ρ) (st0 : LoopState σ γ ρ) :
    DrainInvariant tests api (fun _ => True)
      (fun _ st => st.shares = st0.shares ∧
        ∃ seg, st.trace = st0.trace ++ seg ∧ ∀ ev ∈ seg, finishEvent ev = none)
      (fun _ st => st.shares = st0.shares ∧
        ∃ seg, st.trace = st0.trace ++ seg ∧ ∀ ev ∈ seg, finishEvent ev = none) := by
  have step : ∀ (st st1 : LoopState σ γ ρ) (ev : Event γ ρ),
      (st.shares = st0.shares ∧
        ∃ seg, st.trace = st0.trace ++ seg ∧ ∀ ev ∈ seg, finishEvent ev = none) →
      st1.shares = st.shares → st1.trace = st.trace ++ [ev] → finishEvent ev = none →
      (st1.shares = st0.shares ∧
        ∃ seg, st1.trace = st0.trace ++ seg ∧ ∀ ev ∈ seg, finishEvent ev = none) := by
    intro st st1 ev h hsh htr hev
    obtain ⟨h1, seg, h2, h3⟩ := h
    refine ⟨by rw [hsh, h1], seg ++ [ev], by rw [htr, h2, List.append_assoc], ?_⟩
    intro x hx
    rcases List.mem_append.mp hx with hx | hx
    · exact h3 x hx
    · rw [List.mem_singleton.mp hx]
      exact hev
  refine ⟨?_, ?_⟩
  · intro cur st p _ h
    have key := step st (callOutput api p.Session st).2 _ h rfl
      (callOutput_trace api p.Session st) rfl
    exact ⟨fun _ _ => key, fun _ => key⟩
  · intro st p buf idx _ h
    have key := step st (callReceiver api p.Session buf idx st).2 _ h rfl
      (callReceiver_trace api p.Session buf idx st) rfl
    exact ⟨fun _ _ => key, fun _ _ => key, fun _ _ => key⟩

theorem pass_ok (tests : LoopTests γ) (api : SessionApi σ γ ρ) (parties : List Participant)
    (fuel : Nat) (st st2 : LoopState σ γ ρ) (h : pass tests api parties fuel st = (none, st2)) :
    ∃ (dseg : List (Event γ ρ)) (outss : List (List (GoBytes × Option ρ))),
      (∀ ev ∈ dseg, finishEvent ev = none) ∧
      outss.map (fun o => o.map Prod.fst) = parties.map (fun p => st2.msgq p.ID) ∧
      st2.trace = st.trace ++ dseg ++ feedSegs parties outss ∧
      st2.shares = st.shares ++ (outss.map (fun o => o.filterMap Prod.snd)).flatten ∧
      ∀ key, ∃ t, st2.msgq key = st.msgq key ++ t := by
  have hgrow := (pass_spec tests api parties fuel st st2 h).2
  unfold pass at h
  have hd := drainAll_outcome (drain_adds tests api st) parties.length fuel parties
    (fun _ _ => trivial) st ⟨none, rfl, [], by simp, by simp⟩
  generalize drainAll tests api parties.length fuel parties st = r at hd h
  obtain ⟨x, st1⟩ := r
  cases x with
  | some x => simp at h
  | none =>
    obtain ⟨_, hsh, dseg, htr, hev⟩ := hd
    obtain ⟨outss, g1, g2, g3, g4⟩ := feedAll_ok api parties st1 st2 h
    refine ⟨dseg, outss, hev, by rw [g1, g4], by rw [g2, htr], by rw [g3, hsh], hgrow⟩

theorem routerLoop_of_guard (tests : LoopTests γ) (api : SessionApi σ γ ρ)
    (parties : List Participant) (fuel passes : Nat) (st : LoopState σ γ ρ)
    (h : st.shares.length = parties.length) :
    routerLoop tests api parties fuel passes st =
      (LoopResult.returned (some st.shares) none, st) := by
  cases passes <;> simp [routerLoop, h]

theorem routerLoop_next_pass (tests : LoopTests γ) (api : SessionApi σ γ ρ)
    (parties : List Participant) (fuel passes : Nat) (st stF : LoopState σ γ ρ) (sh : List ρ)
    (h : routerLoop tests api parties fuel passes st = (LoopResult.returned (some sh) none, stF))
    (hg : st.shares.length ≠ parties.length) :
    ∃ k st1, passes = k + 1 ∧ pass tests api parties fuel st = (none, st1) ∧
      routerLoop tests api parties fuel k st1 = (LoopResult.returned (some sh) none, stF) := by
  cases passes with
  | zero => simp [routerLoop, hg] at h
  | succ k =>
    unfold routerLoop at h
    rw [if_neg hg] at h
    generalize hp : pass tests api parties fuel st = r at h
    obtain ⟨x, st1⟩ := r
    cases x with
    | some x => cases x <;> simp [exitResult] at h
    | none => exact ⟨k, st1, rfl, rfl, h⟩

theorem routerLoop_success_extends (tests : LoopTests γ) (api : SessionApi σ γ ρ)
    (parties : List Participant) (fuel : Nat) :
    ∀ (passes : Nat) (st stF : LoopState σ γ ρ) (sh : List ρ),
      routerLoop tests api parties fuel passes st =
        (LoopResult.returned (some sh) none, stF) →
      ∃ ext, stF.trace = st.trace ++ ext := by
  intro passes
  induction passes with
  | zero =>
    intro st stF sh h
    by_cases hg : st.shares.length = parties.length
    · rw [routerLoop_of_guard tests api parties fuel 0 st hg] at h
      simp only [Prod.mk.injEq] at h
      exact ⟨[], by rw [← h.2]; simp⟩
    · simp [routerLoop, hg] at h
  | succ k ih =>
    intro st stF sh h
    by_cases hg : st.shares.length = parties.length
    · rw [routerLoop_of_guard tests api parties fuel (k + 1) st hg] at h
      simp only [Prod.mk.injEq] at h
      exact ⟨[], by rw [← h.2]; simp⟩
    · obtain ⟨k2, st1, hk, hp, hrest⟩ := routerLoop_next_pass tests api parties fuel _ st stF sh h hg
      have hk2 : k2 = k := by omega
      subst hk2
      obtain ⟨dseg, outss, _, _, htr, _, _⟩ := pass_ok tests api parties fuel st st1 hp
      obtain ⟨ext, hext⟩ := ih st1 stF sh hrest
      exact ⟨dseg ++ feedSegs parties outss ++ ext, by rw [hext, htr]; simp [List.append_assoc]⟩

theorem segs_finished (ps : List Participant) :
    ∀ (outss : List (List (GoBytes × Option ρ))) (box : String → List GoBytes),
      outss.map (fun o => o.map Prod.fst) = ps.map (fun p => box p.ID) →
      ∀ outs ∈ outss, ∀ (m : GoBytes) (x : ρ), (m, some x) ∈ outs →
      ∃ p ∈ ps, m ∈ box p.ID ∧
        ∃ A B, (feedSegs ps outss : List (Event γ ρ)) =
          A ++ Event.input p.Session m true none :: B := by
  induction ps with
  | nil =>
    intro outss box hrel outs hmem
    have : outss = [] := by simpa using hrel
    rw [this] at hmem
    simp at hmem
  | cons p ps ih =>
    intro outss box hrel outs hmem m x hm
    cases outss with
    | nil => simp at hmem
    | cons o os =>
      simp only [List.map_cons, List.cons.injEq] at hrel
      rcases List.mem_cons.mp hmem with ho | ho
      · subst ho
        obtain ⟨A, B, hAB⟩ := feedSeg_finished (γ := γ) p.Session outs m x hm
        refine ⟨p, List.mem_cons_self _ _, ?_, A, B ++ feedSegs ps os, ?_⟩
        · rw [← hrel.1]
          exact List.mem_map.mpr ⟨(m, some x), hm, rfl⟩
        · rw [feedSegs_cons, hAB]
          simp
      · obtain ⟨q, hq, hbox, A, B, hAB⟩ := ih os box hrel.2 outs ho m x hm
        refine ⟨q, List.mem_cons_of_mem _ hq, hbox, feedSeg p.Session o ++ A, B, ?_⟩
        rw [feedSegs_cons, hAB]
        simp

theorem segs_accepted (ps : List Participant) :
    ∀ (outss : List (List (GoBytes × Option ρ))) (box : String → List GoBytes),
      outss.map (fun o => o.map Prod.fst) = ps.map (fun p => box p.ID) →
      ∀ p ∈ ps, box p.ID ≠ [] →
      ∃ ev ∈ (feedSegs ps outss : List (Event γ ρ)), acceptedInputOn p.Session ev = true := by
  induction ps with
  | nil =>
    intro outss box _ p hp
    simp at hp
  | cons q ps ih =>
    intro outss box hrel p hp hne
    cases outss with
    | nil => simp at hrel
    | cons o os =>
      simp only [List.map_cons, List.cons.injEq] at hrel
      rw [feedSegs_cons]
      rcases List.mem_cons.mp hp with hpq | hpq
      · subst hpq
        have ho : o ≠ [] := by
          intro h0
          rw [h0] at hrel
          exact hne hrel.1.symm
        obtain ⟨ev, hev, hacc⟩ := feedSeg_accepted (γ := γ) p.Session o ho
        exact ⟨ev, List.mem_append_left _ hev, hacc⟩
      · obtain ⟨ev, hev, hacc⟩ := ih os box hrel.2 p hpq hne
        exact ⟨ev, List.mem_append_right _ hev, hacc⟩

theorem segs_no_finish (ps : List Participant) :
    ∀ outss : List (List (GoBytes × Option ρ)),
      (∀ outs ∈ outss, outs.filterMap Prod.snd = []) →
      (feedSegs ps outss : List (Event γ ρ)).filterMap finishEvent = [] ∧
      (outss.map (fun o => o.filterMap Prod.snd)).flatten = [] := by
  induction ps with
  | nil =>
    intro outss h
    refine ⟨by cases outss <;> rfl, ?_⟩
    rw [List.flatten_eq_nil_iff]
    intro l hl
    obtain ⟨o, ho, rfl⟩ := List.mem_map.mp hl
    exact h o ho
  | cons p ps ih =>
    intro outss h
    cases outss with
    | nil => exact ⟨rfl, rfl⟩
    | cons o os =>
      have h1 := h o (List.mem_cons_self _ _)
      obtain ⟨h2, h3⟩ := ih os (fun x hx => h x (List.mem_cons_of_mem _ hx))
      refine ⟨?_, ?_⟩
      · rw [feedSegs_cons, List.filterMap_append, finishEvent_feedSeg, h1, h2]
        rfl
      · rw [List.map_cons, List.flatten_cons, h1, h3]
        rfl

end PartyOrderRun

section PartyOrderMain

variable {σ γ ρ : Type}

theorem routerLoop_order (tests : LoopTests γ) (api : SessionApi σ γ ρ)
    (parties : List Participant) (fuel : Nat) :
    ∀ (passes : Nat) (st stF : LoopState σ γ ρ) (sh : List ρ),
      routerLoop tests api parties fuel passes st =
        (LoopResult.returned (some sh) none, stF) →
      inputStops stF.trace = true → st.shares = [] →
      st.trace.filterMap finishEvent = [] →
      sh.length = parties.length ∧
      stF.trace.filterMap finishEvent = List.zip (parties.map Participant.Session) sh := by
  have base : ∀ (passes : Nat) (st stF : LoopState σ γ ρ) (sh : List ρ),
      routerLoop tests api parties fuel passes st =
        (LoopResult.returned (some sh) none, stF) →
      st.shares.length = parties.length → st.shares = [] →
      st.trace.filterMap finishEvent = [] →
      sh.length = parties.length ∧
      stF.trace.filterMap finishEvent = List.zip (parties.map Participant.Session) sh := by
    intro passes st stF sh h hg hs ht
    rw [routerLoop_of_guard tests api parties fuel passes st hg] at h
    simp only [Prod.mk.injEq, LoopResult.returned.injEq, Option.some.injEq, and_true] at h
    obtain ⟨h1, h2⟩ := h
    subst h1
    subst h2
    refine ⟨hg, ?_⟩
    rw [ht, hs]
    simp
  intro passes
  induction passes with
  | zero =>
    intro st stF sh h hstop hs ht
    by_cases hg : st.shares.length = parties.length
    · exact base 0 st stF sh h hg hs ht
    · simp [routerLoop, hg] at h
  | succ k ih =>
    intro st stF sh h hstop hs ht
    by_cases hg : st.shares.length = parties.length
    · exact base (k + 1) st stF sh h hg hs ht
    · obtain ⟨k2, st1, hk, hp, hrest⟩ :=
        routerLoop_next_pass tests api parties fuel _ st stF sh h hg
      have hk2 : k2 = k := by omega
      subst hk2
      obtain ⟨dseg, outss, hd, hrel, htr, hsh, _⟩ := pass_ok tests api parties fuel st st1 hp
      have hlen : outss.length = parties.length := by
        have := congrArg List.length hrel
        simpa using this
      have hdnil : dseg.filterMap finishEvent = [] := List.filterMap_eq_nil_iff.mpr hd
      by_cases hfin : st1.shares.length = parties.length
      · rw [routerLoop_of_guard tests api parties fuel k2 st1 hfin] at hrest
        simp only [Prod.mk.injEq, LoopResult.returned.injEq, Option.some.injEq, and_true] at hrest
        obtain ⟨h1, h2⟩ := hrest
        subst h1
        subst h2
        rw [htr] at hstop
        have hs2 : inputStops (feedSegs parties outss ++ ([] : List (Event γ ρ))) = true := by
          rw [List.append_nil]
          exact inputStops_suffix _ _ hstop
        have hone := segs_stops parties outss [] hlen hs2
        have htot : ((outss.map (fun o => o.filterMap Prod.snd)).flatten).length =
            parties.length := by
          rw [hsh, hs] at hfin
          simpa using hfin
        have hord := order_of_singletons (γ := γ) parties outss hlen hone htot
        refine ⟨hfin, ?_⟩
        rw [htr, List.filterMap_append, List.filterMap_append, ht, hdnil, hord, hsh, hs]
        simp
      · have hall : ∀ outs ∈ outss, outs.filterMap Prod.snd = [] := by
          intro outs ho
          by_contra hne
          obtain ⟨x, hx⟩ := List.exists_mem_of_ne_nil _ hne
          obtain ⟨⟨m, y⟩, hmem, hy⟩ := List.mem_filterMap.mp hx
          simp only at hy
          subst hy
          obtain ⟨p, hp1, hbox, A, B, hAB⟩ :=
            segs_finished (γ := γ) parties outss st1.msgq hrel outs ho m x hmem
          obtain ⟨k3, st2, _, hp2, hrest2⟩ :=
            routerLoop_next_pass tests api parties fuel _ st1 stF sh hrest hfin
          obtain ⟨dseg2, outss2, _, hrel2, htr2, _, hgrow2⟩ :=
            pass_ok tests api parties fuel st1 st2 hp2
          obtain ⟨ext, hext⟩ :=
            routerLoop_success_extends tests api parties fuel k3 st2 stF sh hrest2
          have hne2 : st2.msgq p.ID ≠ [] := by
            obtain ⟨t, ht2⟩ := hgrow2 p.ID
            rw [ht2]
            intro h0
            rw [(List.append_eq_nil.mp h0).1] at hbox
            simp at hbox
          obtain ⟨ev, hev, hacc⟩ :=
            segs_accepted (γ := γ) parties outss2 st2.msgq hrel2 p hp1 hne2
          have hshape : stF.trace = (st.trace ++ dseg ++ A) ++
              Event.input p.Session m true none ::
                (B ++ dseg2 ++ feedSegs parties outss2 ++ ext) := by
            rw [hext, htr2, htr, hAB]
            simp [List.append_assoc]
          rw [hshape] at hstop
          have hno := inputStops_split _ _ _ _ hstop ev (by simp [hev])
          rw [hacc] at hno
          exact Bool.noConfusion hno
        obtain ⟨hn1, hn2⟩ := segs_no_finish (γ := γ) parties outss hall
        apply ih st1 stF sh hrest hstop
        · rw [hsh, hs, hn2]
          rfl
        · rw [htr, List.filterMap_append, List.filterMap_append, ht, hdnil, hn1]
          rfl

theorem finish_mem_of_zip (trace : List (Event γ ρ)) (sessions : List Handle) (sh : List ρ)
    (h : trace.filterMap finishEvent = List.zip sessions sh)
    (i : Nat) (s : Handle) (x : ρ) (hs : sessions[i]? = some s) (hx : sh[i]? = some x) :
    Event.finish s x none ∈ trace := by
  have hz : (List.zip sessions sh)[i]? = some (s, x) := by
    rw [List.getElem?_zip_eq_some]
    exact ⟨hs, hx⟩
  have hmem : (s, x) ∈ trace.filterMap finishEvent := by
    rw [h]
    exact List.getElem?_mem hz
  obtain ⟨ev, hev, hfe⟩ := List.mem_filterMap.mp hmem
  cases ev with
  | finish s2 x2 err =>
    cases err with
    | none =>
      simp only [finishEvent, Option.some.injEq, Prod.mk.injEq] at hfe
      rw [← hfe.1, ← hfe.2]
      exact hev
    | some e => simp [finishEvent] at hfe
  | _ => simp [finishEvent] at hfe

end PartyOrderMain

/-- C26 (amended): RunKeygenLoop returns the keyshares in completion order.
Whenever it succeeds with the handles `sh`, there is one handle for each party
and `sh` is the list of the results of the successful finish calls, in the
order the calls were made. In a run in which the input primitive accepted no
message on a session after reporting that session finished (the rule of the
engine for input after finished), the successful finish calls are, in this
order, those on `parties[0].Session`, `parties[1].Session`, ... with the
results `sh[0]`, `sh[1]`, ...; so for every i the i-th returned handle is the
result of finishing `parties[i].Session`. -/
theorem RunKeygenLoop_returns_party_order {σ : Type} (api : SessionApi σ String Handle)
    (fuel : Nat) (parties : List Participant) (eng : σ) (sh : List Handle)
    (st : LoopState σ String Handle)
    (hrun : RunKeygenLoop api fuel parties eng = (LoopResult.returned (some sh) none, st)) :
    sh.length = parties.length ∧
    sh = st.trace.filterMap finishedShare ∧
    (InputStopsAtFinished st.trace →
      st.trace.filterMap finishEvent = List.zip (parties.map Participant.Session) sh ∧
      ∀ (i : Nat) (p : Participant) (x : Handle), parties[i]? = some p → sh[i]? = some x →
        Event.finish p.Session x none ∈ st.trace) := by
  obtain ⟨sh2, hsome, hlen, hres, _⟩ :=
    routerLoop_returns_finish_results keygenTests api parties fuel fuel eng (some sh) st hrun
  have hsh : sh = sh2 := Option.some.inj hsome
  subst hsh
  refine ⟨hlen, hres, ?_⟩
  intro hstop
  obtain ⟨_, hord⟩ := routerLoop_order keygenTests api parties fuel fuel (initState eng) st sh
    hrun hstop rfl rfl
  refine ⟨hord, ?_⟩
  intro i p x hp hx
  apply finish_mem_of_zip st.trace (parties.map Participant.Session) sh hord i p.Session x _ hx
  rw [List.getElem?_map, hp]
  rfl

theorem RunKeygenLoop_returns_party_order_witness :
    (RunKeygenLoop pairApi 3 [⟨1, "p1"⟩, ⟨2, "p2"⟩] ([], [])).1 =
      LoopResult.returned (some [101, 102]) none ∧
    InputStopsAtFinished (RunKeygenLoop pairApi 3 [⟨1, "p1"⟩, ⟨2, "p2"⟩] ([], [])).2.trace ∧
    Event.finish 2 102 none ∈
      (RunKeygenLoop pairApi 3 [⟨1, "p1"⟩, ⟨2, "p2"⟩] ([], [])).2.trace :=
  ⟨by decide, by decide,
    ((RunKeygenLoop_returns_party_order pairApi 3 [⟨1, "p1"⟩, ⟨2, "p2"⟩] ([], []) [101, 102]
      (RunKeygenLoop pairApi 3 [⟨1, "p1"⟩, ⟨2, "p2"⟩] ([], [])).2
      (Prod.ext (by decide) rfl)).2.2 (by decide)).2 1 ⟨2, "p2"⟩ 102 rfl rfl⟩

/-- C26 (as stated, refuted): on `lateApi`, where session 2 reports finished at
its first input and session 1 at its second, party "p2" finishes in the first
pass and party "p1" in the second; RunKeygenLoop succeeds for the parties
p1, p2 and returns `[102, 101]`: the handle at index 0 is the result of
finishing the session of p2, not of `parties[0]`. The second pass feeds p2
its mailbox again, and this engine accepts it. -/
theorem RunKeygenLoop_completion_order :
    (RunKeygenLoop lateApi 3 [⟨1, "p1"⟩, ⟨2, "p2"⟩] ([], [])).1 =
      LoopResult.returned (some [102, 101]) none ∧
    (RunKeygenLoop lateApi 3 [⟨1, "p1"⟩, ⟨2, "p2"⟩] ([], [])).2.trace.filterMap finishEvent =
      [(2, 102), (1, 101)] ∧
    Event.finish 1 102 none ∉
      (RunKeygenLoop lateApi 3 [⟨1, "p1"⟩, ⟨2, "p2"⟩] ([], [])).2.trace ∧
    ¬ InputStopsAtFinished (RunKeygenLoop lateApi 3 [⟨1, "p1"⟩, ⟨2, "p2"⟩] ([], [])).2.trace := by
  decide

end GoWrappers
